import Mathlib

/-!
# ur_modern_driver: `UrHardwareInterface` (src/ur_hardware_interface.cpp)

A shallow embedding of the ros_control hardware interface of the UR driver:
`init`, `read`, `setMaxVelChange`, `write`, `canSwitch` and `doSwitch`.

Conventions of the embedding.

* A C++ `double` is a value of `Dbl`: a NaN, an infinity, or a finite value given by
  the rational it denotes.  Arithmetic is IEEE 754 binary64 in the default rounding mode:
  the exact result is rounded to 53 significant bits, ties to even, with gradual
  underflow and overflow to an infinity; a comparison with a NaN is false.  Every
  operation is rounded on its own (no fused multiply-add, no extended precision).  The
  two zeros are one value and all NaNs are one value.  A decimal literal of the source
  is the double nearest to it, and an integer literal is converted exactly.  A finite
  value `Dbl.fin q` is a double when rounding leaves `q` as it is (`Dbl.IsDouble`);
  every arithmetic operation returns a double.
* A `std::vector<double>` is a `List Dbl`.  `v[i]` outside `[0, v.size())` is
  undefined behaviour in C++; here it is the fault `Fault.undefinedAccess`.
  `v.at(i)` outside the range raises `std::out_of_range`; here
  `Fault.outOfRangeException`.  `exit(-1)` is `Fault.fatalExit`.
* Calls into the robot driver (`setSpeed`, `servoj`, `closeServo`, `uploadProg`)
  are recorded in the order they are made, each with the two mode flags as they
  stand at the moment of the call.
* Logging, the registration of handles with ros_control and the optional debug
  publication of joint states are not modelled; the build without
  `USE_ROBOTIQ_FT` is the one embedded.
-/

namespace ros_control_ur

/-- Ways in which a member function can fail to return normally. -/
inductive Fault where
  | fatalExit
  | undefinedAccess
  | outOfRangeException
  deriving DecidableEq, Repr

/-! ### binary64 -/

/-- A value of the C++ type `double` (IEEE 754 binary64): not-a-number, the two
infinities, or a finite value given by the rational it denotes.  The two zeros are not
told apart (they compare equal, and the program never divides by a variable), and all
NaNs are one value. -/
inductive Dbl where
  | nan
  | ninf
  | pinf
  | fin (q : ℚ)
  deriving DecidableEq, Repr

namespace Dbl

/-- Rounding of a rational to the nearest integer, a tie going to the even one. -/
def roundEven (x : ℚ) : ℤ :=
  if x - ⌊x⌋ < 1 / 2 then ⌊x⌋
  else if 1 / 2 < x - ⌊x⌋ then ⌊x⌋ + 1
  else if ⌊x⌋ % 2 = 0 then ⌊x⌋
  else ⌊x⌋ + 1

/-- The binary exponent that fixes the spacing of doubles around `q`: the exponent of
the binade of `q`, and `-1022` throughout the subnormal range. -/
def binade (q : ℚ) : ℤ := max (Int.log 2 |q|) (-1022)

/-- The spacing of doubles around `q` (53 significant bits). -/
def ulp (q : ℚ) : ℚ := 2 ^ (binade q - 52)

/-- The multiple of `ulp q` nearest to `q`, a tie going to the even multiple. -/
def roundRat (q : ℚ) : ℚ := roundEven (q / ulp q) * ulp q

/-- The least magnitude that no finite double reaches: `2 ^ 1024`. -/
def overflowBound : ℚ := 2 ^ (1024 : ℤ)

/-- Rounding of an exact result to a double in the default mode (to nearest, ties to
even), overflowing to an infinity. -/
def round (q : ℚ) : Dbl :=
  if overflowBound ≤ roundRat q then pinf
  else if roundRat q ≤ -overflowBound then ninf
  else fin (roundRat q)

/-- Unary minus. -/
def neg : Dbl → Dbl
  | nan => nan
  | ninf => pinf
  | pinf => ninf
  | fin q => fin (-q)

/-- Addition of doubles. -/
def add : Dbl → Dbl → Dbl
  | nan, _ => nan
  | _, nan => nan
  | pinf, ninf => nan
  | ninf, pinf => nan
  | pinf, _ => pinf
  | _, pinf => pinf
  | ninf, _ => ninf
  | _, ninf => ninf
  | fin a, fin b => round (a + b)

/-- Subtraction of doubles. -/
def sub (a b : Dbl) : Dbl := add a (neg b)

/-- The product of an infinity (`negative` tells which) with the finite value `q`. -/
def infTimes (negative : Bool) (q : ℚ) : Dbl :=
  if q = 0 then nan
  else if (0 < q) = !negative then pinf
  else ninf

/-- Multiplication of doubles. -/
def mul : Dbl → Dbl → Dbl
  | nan, _ => nan
  | _, nan => nan
  | pinf, pinf => pinf
  | ninf, ninf => pinf
  | pinf, ninf => ninf
  | ninf, pinf => ninf
  | pinf, fin q => infTimes false q
  | fin q, pinf => infTimes false q
  | ninf, fin q => infTimes true q
  | fin q, ninf => infTimes true q
  | fin a, fin b => round (a * b)

/-- Division of doubles by a finite divisor other than zero, the only kind of division
the program performs (by the constant `180`); for every other divisor the quotient of
two finite values is left as `nan` here, and an infinity divided by a finite non-zero
value keeps or flips its sign. -/
def div : Dbl → Dbl → Dbl
  | fin a, fin b => if b = 0 then nan else round (a / b)
  | pinf, fin b => if b = 0 then nan else if 0 < b then pinf else ninf
  | ninf, fin b => if b = 0 then nan else if 0 < b then ninf else pinf
  | fin _, pinf => fin 0
  | fin _, ninf => fin 0
  | _, _ => nan

/-- The comparison `a < b` of doubles: false as soon as one side is a NaN. -/
def lt : Dbl → Dbl → Bool
  | fin a, fin b => decide (a < b)
  | ninf, fin _ => true
  | ninf, pinf => true
  | fin _, pinf => true
  | _, _ => false

/-- The comparison `a <= b` of doubles: false as soon as one side is a NaN. -/
def le : Dbl → Dbl → Bool
  | fin a, fin b => decide (a ≤ b)
  | ninf, fin _ => true
  | ninf, pinf => true
  | fin _, pinf => true
  | ninf, ninf => true
  | pinf, pinf => true
  | _, _ => false

instance : Neg Dbl := ⟨neg⟩
instance : Add Dbl := ⟨add⟩
instance : Sub Dbl := ⟨sub⟩
instance : Mul Dbl := ⟨mul⟩
instance : Div Dbl := ⟨div⟩
instance : LT Dbl := ⟨fun a b => lt a b = true⟩
instance : LE Dbl := ⟨fun a b => le a b = true⟩
instance : OfNat Dbl n := ⟨fin n⟩
instance : Inhabited Dbl := ⟨fin 0⟩

instance (a b : Dbl) : Decidable (a < b) := inferInstanceAs (Decidable (lt a b = true))
instance (a b : Dbl) : Decidable (a ≤ b) := inferInstanceAs (Decidable (le a b = true))

/-- A decimal literal of the source, converted to the nearest double. -/
def lit (q : ℚ) : Dbl := round q

/-- The value is one that a double can hold: a NaN, an infinity, or a finite value that
rounding leaves as it is. -/
def IsDouble : Dbl → Prop
  | fin q => round q = fin q
  | _ => True

/-- The value is neither a NaN nor an infinity. -/
def IsFinite : Dbl → Prop
  | fin _ => True
  | _ => False

/-- The value is a finite number that a double can hold. -/
def IsFiniteDouble (x : Dbl) : Prop := x.IsFinite ∧ x.IsDouble

instance (x : Dbl) : Decidable x.IsDouble :=
  match x with
  | nan => isTrue trivial
  | ninf => isTrue trivial
  | pinf => isTrue trivial
  | fin q => inferInstanceAs (Decidable (round q = fin q))

instance (x : Dbl) : Decidable x.IsFinite :=
  match x with
  | nan => isFalse (fun h => h)
  | ninf => isFalse (fun h => h)
  | pinf => isFalse (fun h => h)
  | fin _ => isTrue trivial

instance (x : Dbl) : Decidable x.IsFiniteDouble :=
  inferInstanceAs (Decidable (x.IsFinite ∧ x.IsDouble))

/-- The function `std::max(a, b)`, which is `(a < b) ? b : a`. -/
def max (a b : Dbl) : Dbl := if a < b then b else a

/-- The function `std::min(a, b)`, which is `(b < a) ? b : a`. -/
def min (a b : Dbl) : Dbl := if b < a then b else a

end Dbl

/-! ### the object and its collaborators -/

/-- The part of `hardware_interface::InterfaceResources` that the code reads. -/
structure InterfaceResources where
  hardware_interface : String
  resources : List String
  deriving DecidableEq, Repr

/-- The part of `hardware_interface::ControllerInfo` that the code reads. -/
structure ControllerInfo where
  name : String
  claimed_resources : List InterfaceResources
  deriving DecidableEq, Repr

/-- A call into `UrDriver`. -/
inductive DriverCall where
  | setSpeed (q0 q1 q2 q3 q4 q5 acc : Dbl)
  | servoj (positions : List Dbl)
  | closeServo (positions : List Dbl)
  | uploadProg
  deriving DecidableEq, Repr

/-- The call is a `setSpeed`. -/
def DriverCall.isSetSpeed : DriverCall → Bool
  | .setSpeed _ _ _ _ _ _ _ => true
  | _ => false

/-- The call is a `servoj`. -/
def DriverCall.isServoj : DriverCall → Bool
  | .servoj _ => true
  | _ => false

/-- A driver call together with the mode flags at the moment it is made. -/
structure DriverEvent where
  call : DriverCall
  velocity_running : Bool
  position_running : Bool
  deriving DecidableEq, Repr

/-- The data members of `UrHardwareInterface` that the embedded functions use. -/
structure UrHardwareInterface where
  joint_names_ : List String
  num_joints_ : Nat
  joint_position_ : List Dbl
  joint_velocity_ : List Dbl
  joint_effort_ : List Dbl
  joint_position_command_ : List Dbl
  joint_velocity_command_ : List Dbl
  prev_joint_velocity_command_ : List Dbl
  joint_velocity_limits_ : List Dbl
  robot_force_ : List Dbl
  robot_torque_ : List Dbl
  velocity_interface_running_ : Bool
  position_interface_running_ : Bool
  max_vel_change_ : Dbl
  vel_limit_alpha : Dbl
  pos_alpha : Dbl
  vel_alpha : Dbl
  eff_alpha : Dbl
  frc_alpha : Dbl
  trq_alpha : Dbl
  low_pass_filter : Bool
  publish_debug_js : Bool
  deriving DecidableEq, Repr

/-- The value of `M_PI`: the double nearest to the literal written in `math.h`. -/
def M_PI : Dbl := Dbl.lit (314159265358979323846 / 100000000000000000000)

/-- Read of `v[i]`. -/
def vget (v : List Dbl) (i : Nat) : Except Fault Dbl :=
  match v[i]? with
  | some x => .ok x
  | none => .error .undefinedAccess

/-- Assignment `v[i] = x`. -/
def vset (v : List Dbl) (i : Nat) (x : Dbl) : Except Fault (List Dbl) :=
  if i < v.length then .ok (v.set i x) else .error .undefinedAccess

/-- The call `v.resize(n)`: keeps the first `n` elements and pads with `0.0`. -/
def resize (v : List Dbl) (n : Nat) : List Dbl :=
  v.take n ++ List.replicate (n - v.length) 0

/-- The loop `for (i = start; i < start + k; ++i) body`, stopping at the first fault. -/
def forLoop {σ : Type} (body : Nat → σ → Except Fault σ) : Nat → Nat → σ → Except Fault σ
  | 0, _, st => .ok st
  | k + 1, i, st =>
    match body i st with
    | .ok st1 => forLoop body k (i + 1) st1
    | .error e => .error e

namespace UrHardwareInterface

/-- The driver call `c`, stamped with the current mode flags. -/
def observe (s : UrHardwareInterface) (c : DriverCall) : DriverEvent :=
  ⟨c, s.velocity_interface_running_, s.position_interface_running_⟩

/-! ### write -/

/-- Lines 291-303 of `write()` for one joint: `cmd[i]` from the desired command,
the previously issued command, `max_vel_change_` and the joint's limit. -/
def limitVelocity (desired prev max_vel_change limit : Dbl) : Dbl :=
  let c0 := desired
  let c1 :=
    if c0 > prev + max_vel_change then prev + max_vel_change
    else if c0 < prev - max_vel_change then prev - max_vel_change
    else c0
  if c1 > limit then limit
  else if c1 < -limit then -limit
  else c1

/-- Body of the loop at lines 290-305; the loop state is the local `cmd` and the object. -/
def writeBody (i : Nat) (st : List Dbl × UrHardwareInterface) :
    Except Fault (List Dbl × UrHardwareInterface) :=
  match vget st.2.joint_velocity_command_ i with
  | .error e => .error e
  | .ok desired =>
    match vget st.2.prev_joint_velocity_command_ i with
    | .error e => .error e
    | .ok prev =>
      match vget st.2.joint_velocity_limits_ i with
      | .error e => .error e
      | .ok limit =>
        let c := limitVelocity desired prev st.2.max_vel_change_ limit
        match vset st.1 i c with
        | .error e => .error e
        | .ok cmd =>
          match vset st.2.prev_joint_velocity_command_ i c with
          | .error e => .error e
          | .ok prevs => .ok (cmd, { st.2 with prev_joint_velocity_command_ := prevs })

/-- Lines 286-305: `cmd` is sized like `joint_velocity_command_`, then the rate
limiting loop runs over every joint.  Returns `cmd` and the updated object. -/
def writeLimiter (s : UrHardwareInterface) : Except Fault (List Dbl × UrHardwareInterface) :=
  forLoop writeBody s.joint_velocity_command_.length 0
    (resize [] s.joint_velocity_command_.length, s)

/-- The function `write()`: the updated object and the driver calls made, in order. -/
def write (s : UrHardwareInterface) : Except Fault (UrHardwareInterface × List DriverEvent) :=
  if s.velocity_interface_running_ then
    match s.writeLimiter with
    | .error e => .error e
    | .ok (cmd, s1) =>
      match vget cmd 0, vget cmd 1, vget cmd 2, vget cmd 3, vget cmd 4, vget cmd 5 with
      | .ok c0, .ok c1, .ok c2, .ok c3, .ok c4, .ok c5 =>
        .ok (s1, [s1.observe (.setSpeed c0 c1 c2 c3 c4 c5 (s1.max_vel_change_ * 125))])
      | _, _, _, _, _, _ => .error .undefinedAccess
  else if s.position_interface_running_ then
    .ok (s, [s.observe (.servoj s.joint_position_command_)])
  else
    .ok (s, [])

/-! ### init -/

/-- Body of the loop at lines 120-144: the two assignments to per-joint vectors. -/
def initBody (i : Nat) (s : UrHardwareInterface) : Except Fault UrHardwareInterface :=
  match vset s.prev_joint_velocity_command_ i 0 with
  | .error e => .error e
  | .ok prevs =>
    match vset s.joint_velocity_limits_ i 2 with
    | .error e => .error e
    | .ok limits =>
      .ok { s with prev_joint_velocity_command_ := prevs, joint_velocity_limits_ := limits }

/-- The assignment `joint_velocity_limits_[i] = vel_limit_alpha*deg*M_PI/180` of lines 146-151. -/
def setLimit (i : Nat) (deg : Dbl) (s : UrHardwareInterface) : Except Fault UrHardwareInterface :=
  match vset s.joint_velocity_limits_ i (s.vel_limit_alpha * deg * M_PI / 180) with
  | .error e => .error e
  | .ok limits => .ok { s with joint_velocity_limits_ := limits }

/-- The function `init()`, run on the object as the constructor has left it; `joints` is the value of
the parameter `hardware_interface/joints`. -/
def init (s : UrHardwareInterface) (joints : List String) : Except Fault UrHardwareInterface :=
  let s := { s with joint_names_ := joints }
  if s.joint_names_.length = 0 then .error .fatalExit
  else
    let s := { s with num_joints_ := s.joint_names_.length }
    let s := { s with
      joint_position_ := resize s.joint_position_ s.num_joints_
      joint_velocity_ := resize s.joint_velocity_ s.num_joints_
      joint_effort_ := resize s.joint_effort_ s.num_joints_
      joint_velocity_limits_ := resize s.joint_velocity_limits_ s.num_joints_
      joint_position_command_ := resize s.joint_position_command_ s.num_joints_
      joint_velocity_command_ := resize s.joint_velocity_command_ s.num_joints_
      prev_joint_velocity_command_ := resize s.prev_joint_velocity_command_ s.num_joints_ }
    match forLoop initBody s.num_joints_ 0 s with
    | .error e => .error e
    | .ok s =>
      match setLimit 0 131 s with
      | .error e => .error e
      | .ok s =>
      match setLimit 1 131 s with
      | .error e => .error e
      | .ok s =>
      match setLimit 2 191 s with
      | .error e => .error e
      | .ok s =>
      match setLimit 3 191 s with
      | .error e => .error e
      | .ok s =>
      match setLimit 4 191 s with
      | .error e => .error e
      | .ok s =>
      match setLimit 5 191 s with
      | .error e => .error e
      | .ok s =>
        .ok { s with velocity_interface_running_ := false, position_interface_running_ := false }

/-- The function `setMaxVelChange(inp)`. -/
def setMaxVelChange (s : UrHardwareInterface) (inp : Dbl) : UrHardwareInterface :=
  { s with max_vel_change_ := inp }

/-! ### read -/

/-- The right-hand sides of lines 204-206 and 254-255: `(1-alpha)*raw + alpha*old`. -/
def blend (alpha raw old : Dbl) : Dbl := (1 - alpha) * raw + alpha * old

/-- Body of the loop at lines 202-212; `pos`, `vel`, `current` are the driver's vectors. -/
def readJointBody (pos vel current : List Dbl) (i : Nat) (s : UrHardwareInterface) :
    Except Fault UrHardwareInterface :=
  match vget pos i, vget vel i, vget current i with
  | .ok p, .ok v, .ok c =>
    if s.low_pass_filter then
      match vget s.joint_position_ i, vget s.joint_velocity_ i, vget s.joint_effort_ i with
      | .ok jp, .ok jv, .ok je =>
        match vset s.joint_position_ i (blend s.pos_alpha p jp),
              vset s.joint_velocity_ i (blend s.vel_alpha v jv),
              vset s.joint_effort_ i (blend s.eff_alpha c je) with
        | .ok ps, .ok vs, .ok es =>
          .ok { s with joint_position_ := ps, joint_velocity_ := vs, joint_effort_ := es }
        | _, _, _ => .error .undefinedAccess
      | _, _, _ => .error .undefinedAccess
    else
      match vset s.joint_position_ i p, vset s.joint_velocity_ i v, vset s.joint_effort_ i c with
      | .ok ps, .ok vs, .ok es =>
        .ok { s with joint_position_ := ps, joint_velocity_ := vs, joint_effort_ := es }
      | _, _, _ => .error .undefinedAccess
  | _, _, _ => .error .undefinedAccess

/-- Body of the loop at lines 252-260; `tcp` is the driver's wrench vector. -/
def readWrenchBody (tcp : List Dbl) (i : Nat) (s : UrHardwareInterface) :
    Except Fault UrHardwareInterface :=
  match vget tcp i, vget tcp (i + 3) with
  | .ok f, .ok t =>
    if s.low_pass_filter then
      match vget s.robot_force_ i, vget s.robot_torque_ i with
      | .ok rf, .ok rt =>
        match vset s.robot_force_ i (blend s.frc_alpha f rf),
              vset s.robot_torque_ i (blend s.trq_alpha t rt) with
        | .ok fs, .ok ts => .ok { s with robot_force_ := fs, robot_torque_ := ts }
        | _, _ => .error .undefinedAccess
      | _, _ => .error .undefinedAccess
    else
      match vset s.robot_force_ i f, vset s.robot_torque_ i t with
      | .ok fs, .ok ts => .ok { s with robot_force_ := fs, robot_torque_ := ts }
      | _, _ => .error .undefinedAccess
  | _, _ => .error .undefinedAccess

/-- The function `read()`; the arguments are what `getQActual`, `getQdActual`, `getIActual` and
`getTcpForce` return in this cycle. -/
def read (s : UrHardwareInterface) (pos vel current tcp : List Dbl) :
    Except Fault UrHardwareInterface :=
  match forLoop (readJointBody pos vel current) s.num_joints_ 0 s with
  | .error e => .error e
  | .ok s1 => forLoop (readWrenchBody tcp) 3 0 s1

/-! ### canSwitch and doSwitch -/

/-- The string the code compares with for a velocity controller. -/
def velocityInterface : String := "hardware_interface::VelocityJointInterface"

/-- The string the code compares with for a position controller. -/
def positionInterface : String := "hardware_interface::PositionJointInterface"

/-- The expression `c->claimed_resources.at(0).hardware_interface`. -/
def firstInterface (c : ControllerInfo) : Except Fault String :=
  match c.claimed_resources with
  | [] => .error .outOfRangeException
  | r :: _ => .ok r.hardware_interface

/-- The scans of `stop_list` at lines 340-350 and 369-379: the final value of the local
`error`, which starts `true` and is cleared at the first stop whose first claimed
interface is `kind`, where the scan ends. -/
def stopScan (kind : String) : List ControllerInfo → Except Fault Bool
  | [] => .ok true
  | c :: rest =>
    match firstInterface c with
    | .error e => .error e
    | .ok h => if h = kind then .ok false else stopScan kind rest

/-- Body of the loop of `canSwitch` (lines 330-388) for one started controller:
`false` when the body executes `return false`, `true` when it falls through. -/
def canSwitchBody (s : UrHardwareInterface) (stop_list : List ControllerInfo)
    (c : ControllerInfo) : Except Fault Bool :=
  match firstInterface c with
  | .error e => .error e
  | .ok h =>
    if h = velocityInterface then
      if s.velocity_interface_running_ then .ok false
      else if s.position_interface_running_ then
        match stopScan positionInterface stop_list with
        | .error e => .error e
        | .ok error => if error then .ok false else .ok true
      else .ok true
    else if h = positionInterface then
      if s.position_interface_running_ then .ok false
      else if s.velocity_interface_running_ then
        match stopScan velocityInterface stop_list with
        | .error e => .error e
        | .ok error => if error then .ok false else .ok true
      else .ok true
    else .ok true

/-- The function `canSwitch(start_list, stop_list)`. -/
def canSwitch (s : UrHardwareInterface) :
    List ControllerInfo → List ControllerInfo → Except Fault Bool
  | [], _ => .ok true
  | c :: rest, stop_list =>
    match canSwitchBody s stop_list c with
    | .error e => .error e
    | .ok false => .ok false
    | .ok true => canSwitch s rest stop_list

/-- Body of the first loop of `doSwitch` (lines 401-412) for one stopped controller. -/
def stopBody (st : UrHardwareInterface × List DriverEvent) (c : ControllerInfo) :
    Except Fault (UrHardwareInterface × List DriverEvent) :=
  match firstInterface c with
  | .error e => .error e
  | .ok h =>
    let s1 := if h = velocityInterface then
        { st.1 with velocity_interface_running_ := false } else st.1
    if h = positionInterface then
      let s2 := { s1 with position_interface_running_ := false }
      .ok (s2, st.2 ++ [s2.observe (.closeServo [])])
    else .ok (s1, st.2)

/-- Body of the second loop of `doSwitch` (lines 417-427) for one started controller. -/
def startBody (st : UrHardwareInterface × List DriverEvent) (c : ControllerInfo) :
    Except Fault (UrHardwareInterface × List DriverEvent) :=
  match firstInterface c with
  | .error e => .error e
  | .ok h =>
    let s1 := if h = velocityInterface then
        { st.1 with velocity_interface_running_ := true } else st.1
    if h = positionInterface then
      let s2 := { s1 with position_interface_running_ := true }
      .ok (s2, st.2 ++ [s2.observe .uploadProg])
    else .ok (s1, st.2)

/-- The controller has a first claimed resource, and its interface is `kind`. -/
def hasKind (kind : String) (c : ControllerInfo) : Bool :=
  match c.claimed_resources with
  | [] => false
  | r :: _ => decide (r.hardware_interface = kind)

/-- Every controller of the list claims at least one resource, so that `at(0)` returns. -/
def Claiming (l : List ControllerInfo) : Prop :=
  ∀ c, c ∈ l → c.claimed_resources ≠ []

/-- The test that the body of the loop of `canSwitch` makes on one started controller,
written as one boolean formula over the flags and the kinds present in the stop list. -/
def startAllowed (s : UrHardwareInterface) (stop_list : List ControllerInfo)
    (c : ControllerInfo) : Bool :=
  (!hasKind velocityInterface c ||
      (!s.velocity_interface_running_ &&
        (!s.position_interface_running_ || stop_list.any (hasKind positionInterface)))) &&
    (!hasKind positionInterface c ||
      (!s.position_interface_running_ &&
        (!s.velocity_interface_running_ || stop_list.any (hasKind velocityInterface))))

/-- A loop over a `std::list` of controllers, stopping at the first fault. -/
def listLoop {σ : Type} (body : σ → ControllerInfo → Except Fault σ) :
    List ControllerInfo → σ → Except Fault σ
  | [], st => .ok st
  | c :: rest, st =>
    match body st c with
    | .error e => .error e
    | .ok st1 => listLoop body rest st1

/-- The function `doSwitch(start_list, stop_list)`: the updated object and the driver calls
made, in order. -/
def doSwitch (s : UrHardwareInterface) (start_list stop_list : List ControllerInfo) :
    Except Fault (UrHardwareInterface × List DriverEvent) :=
  match listLoop stopBody stop_list (s, []) with
  | .error e => .error e
  | .ok st => listLoop startBody start_list st

/-! ### well-formed objects -/

/-- Every per-joint vector has `num_joints_` elements, as after the `resize` calls of
`init()`. -/
structure Sized (s : UrHardwareInterface) : Prop where
  position : s.joint_position_.length = s.num_joints_
  velocity : s.joint_velocity_.length = s.num_joints_
  effort : s.joint_effort_.length = s.num_joints_
  positionCommand : s.joint_position_command_.length = s.num_joints_
  velocityCommand : s.joint_velocity_command_.length = s.num_joints_
  prevCommand : s.prev_joint_velocity_command_.length = s.num_joints_
  limits : s.joint_velocity_limits_.length = s.num_joints_

/-- The arrays `robot_force_` and `robot_torque_` have their three elements. -/
structure WrenchSized (s : UrHardwareInterface) : Prop where
  force : s.robot_force_.length = 3
  torque : s.robot_torque_.length = 3

/-- The object `s1` differs from `s` at most in the sensed joint state and wrench, whose
vectors keep their sizes. -/
structure SensedOnly (s s1 : UrHardwareInterface) : Prop where
  rest : s1 = { s with
    joint_position_ := s1.joint_position_
    joint_velocity_ := s1.joint_velocity_
    joint_effort_ := s1.joint_effort_
    robot_force_ := s1.robot_force_
    robot_torque_ := s1.robot_torque_ }
  position : s1.joint_position_.length = s.joint_position_.length
  velocity : s1.joint_velocity_.length = s.joint_velocity_.length
  effort : s1.joint_effort_.length = s.joint_effort_.length
  force : s1.robot_force_.length = s.robot_force_.length
  torque : s1.robot_torque_.length = s.robot_torque_.length

/-- The object `s1` differs from `s` at most in the two mode flags. -/
def FlagsOnly (s s1 : UrHardwareInterface) : Prop :=
  s1 = { s with
    velocity_interface_running_ := s1.velocity_interface_running_
    position_interface_running_ := s1.position_interface_running_ }

/-- What the control loop maintains from `init()` on, as long as the host writes no NaN
command: sized vectors for at least six joints, a finite non-negative step, limits that
are non-negative doubles, desired commands that are not NaN, and previously issued
commands inside the hard bound. -/
structure LimiterInv (s : UrHardwareInterface) : Prop where
  sized : s.Sized
  six : 6 ≤ s.num_joints_
  step : 0 ≤ s.max_vel_change_ ∧ s.max_vel_change_.IsFinite
  limits : ∀ j, j < s.num_joints_ →
    0 ≤ s.joint_velocity_limits_.getD j 0 ∧ (s.joint_velocity_limits_.getD j 0).IsDouble
  desired : ∀ j, j < s.num_joints_ → s.joint_velocity_command_.getD j 0 ≠ Dbl.nan
  prev : ∀ j, j < s.num_joints_ →
    -(s.joint_velocity_limits_.getD j 0) ≤ s.prev_joint_velocity_command_.getD j 0 ∧
      s.prev_joint_velocity_command_.getD j 0 ≤ s.joint_velocity_limits_.getD j 0

/-! ### the host scheduler -/

/-- What the host does with the object between and during cycles: it writes a command
through the handle of joint `i`, changes the acceleration bound, or calls `read`,
`write` or `doSwitch`. -/
inductive HostOp where
  | setVelocityCommand (i : Nat) (x : Dbl)
  | setPositionCommand (i : Nat) (x : Dbl)
  | setMaxVelChange (inp : Dbl)
  | read (pos vel current tcp : List Dbl)
  | write
  | doSwitch (start_list stop_list : List ControllerInfo)

/-- One host operation. -/
def step (s : UrHardwareInterface) : HostOp → Except Fault UrHardwareInterface
  | .setVelocityCommand i x =>
    .ok { s with joint_velocity_command_ := s.joint_velocity_command_.set i x }
  | .setPositionCommand i x =>
    .ok { s with joint_position_command_ := s.joint_position_command_.set i x }
  | .setMaxVelChange inp => .ok (s.setMaxVelChange inp)
  | .read pos vel current tcp => s.read pos vel current tcp
  | .write =>
    match s.write with
    | .error e => .error e
    | .ok st => .ok st.1
  | .doSwitch start_list stop_list =>
    match s.doSwitch start_list stop_list with
    | .error e => .error e
    | .ok st => .ok st.1

/-- A sequence of host operations, stopping at the first fault. -/
def run (s : UrHardwareInterface) : List HostOp → Except Fault UrHardwareInterface
  | [] => .ok s
  | op :: rest =>
    match s.step op with
    | .error e => .error e
    | .ok s1 => run s1 rest

end UrHardwareInterface

/-! ### the specification's limiter and filter -/

/-- The `clamp` of the specification: `clamp(x, lo, hi) = max(lo, min(x, hi))`. -/
def clamp (x lo hi : Dbl) : Dbl := Dbl.max lo (Dbl.min x hi)

/-- The two-stage clamp of the specification, section 4.2. -/
def specLimiter (desired prevIssued maxStep limit : Dbl) : Dbl :=
  clamp (clamp desired (prevIssued - maxStep) (prevIssued + maxStep)) (-limit) limit

/-- The sensor filter of the specification, section 4.1. -/
def specFilter (enabled : Bool) (alpha raw prev : Dbl) : Dbl :=
  if enabled then (1 - alpha) * raw + alpha * prev else raw

/-- What rounding leaves of the convex-combination property of the filter: `filtered`
lies between the blend of the smaller of `raw` and `prev` with itself and the blend of
the larger of the two with itself. -/
def Bracketed (alpha raw prev filtered : Dbl) : Prop :=
  UrHardwareInterface.blend alpha (Dbl.min raw prev) (Dbl.min raw prev) ≤ filtered ∧
    filtered ≤ UrHardwareInterface.blend alpha (Dbl.max raw prev) (Dbl.max raw prev)

instance (alpha raw prev filtered : Dbl) : Decidable (Bracketed alpha raw prev filtered) :=
  inferInstanceAs (Decidable (_ ∧ _))

/-- The running sum that the limiter builds from rest under a held command: `k`
additions of `maxStep`, each rounded to a double. -/
def rampSum (maxStep : Dbl) : Nat → Dbl
  | 0 => 0
  | k + 1 => rampSum maxStep k + maxStep

/-! ### example data -/

/-- The object as the constructor leaves it before calling `init()`, with every parameter
at its default value; the two wrench arrays, which nothing has written yet, hold zeros. -/
def bootState : UrHardwareInterface where
  joint_names_ := []
  num_joints_ := 0
  joint_position_ := []
  joint_velocity_ := []
  joint_effort_ := []
  joint_position_command_ := []
  joint_velocity_command_ := []
  prev_joint_velocity_command_ := []
  joint_velocity_limits_ := []
  robot_force_ := [0, 0, 0]
  robot_torque_ := [0, 0, 0]
  velocity_interface_running_ := false
  position_interface_running_ := false
  max_vel_change_ := Dbl.lit (12 / 100)
  vel_limit_alpha := Dbl.lit (95 / 100)
  pos_alpha := Dbl.lit (1 / 10)
  vel_alpha := Dbl.lit (1 / 10)
  eff_alpha := Dbl.lit (1 / 10)
  frc_alpha := Dbl.lit (1 / 10)
  trq_alpha := Dbl.lit (1 / 10)
  low_pass_filter := false
  publish_debug_js := false

/-- A six-joint arm in velocity mode at rest, every limit `2.0`, with the host asking
for `100` on the first joint and `-100` on the second. -/
def rampState : UrHardwareInterface :=
  { bootState with
    joint_names_ := ["q0", "q1", "q2", "q3", "q4", "q5"]
    num_joints_ := 6
    joint_position_ := [0, 0, 0, 0, 0, 0]
    joint_velocity_ := [0, 0, 0, 0, 0, 0]
    joint_effort_ := [0, 0, 0, 0, 0, 0]
    joint_position_command_ := [0, 0, 0, 0, 0, 0]
    joint_velocity_command_ := [100, -100, 0, 0, 0, 0]
    prev_joint_velocity_command_ := [0, 0, 0, 0, 0, 0]
    joint_velocity_limits_ := [2, 2, 2, 2, 2, 2]
    velocity_interface_running_ := true }

/-- The joint names of a UR arm. -/
def urJoints : List String :=
  ["shoulder_pan_joint", "shoulder_lift_joint", "elbow_joint",
   "wrist_1_joint", "wrist_2_joint", "wrist_3_joint"]

/-- The object that `bootState.init urJoints` returns. -/
def readyState : UrHardwareInterface :=
  { bootState with
    joint_names_ := urJoints
    num_joints_ := 6
    joint_position_ := [0, 0, 0, 0, 0, 0]
    joint_velocity_ := [0, 0, 0, 0, 0, 0]
    joint_effort_ := [0, 0, 0, 0, 0, 0]
    joint_position_command_ := [0, 0, 0, 0, 0, 0]
    joint_velocity_command_ := [0, 0, 0, 0, 0, 0]
    prev_joint_velocity_command_ := [0, 0, 0, 0, 0, 0]
    joint_velocity_limits_ :=
      [Dbl.lit (95 / 100) * 131 * M_PI / 180, Dbl.lit (95 / 100) * 131 * M_PI / 180,
       Dbl.lit (95 / 100) * 191 * M_PI / 180, Dbl.lit (95 / 100) * 191 * M_PI / 180,
       Dbl.lit (95 / 100) * 191 * M_PI / 180, Dbl.lit (95 / 100) * 191 * M_PI / 180] }

/-- A controller claiming joints of the velocity interface. -/
def velocityController : ControllerInfo :=
  ⟨"vel_based_pos_traj_controller", [⟨"hardware_interface::VelocityJointInterface", urJoints⟩]⟩

/-- A controller claiming joints of the position interface. -/
def positionController : ControllerInfo :=
  ⟨"pos_based_pos_traj_controller", [⟨"hardware_interface::PositionJointInterface", urJoints⟩]⟩

/-- A velocity controller for the three arm joints only. -/
def armVelocityController : ControllerInfo :=
  ⟨"arm_velocity_controller", [⟨"hardware_interface::VelocityJointInterface",
    ["shoulder_pan_joint", "shoulder_lift_joint", "elbow_joint"]⟩]⟩

/-- A position controller for the three wrist joints only. -/
def wristPositionController : ControllerInfo :=
  ⟨"wrist_position_controller", [⟨"hardware_interface::PositionJointInterface",
    ["wrist_1_joint", "wrist_2_joint", "wrist_3_joint"]⟩]⟩

/-- The initialised object with position mode running. -/
def positionActiveState : UrHardwareInterface :=
  { readyState with position_interface_running_ := true }

/-- The initialised object with the low-pass filter switched on and a sensed state
left by earlier cycles. -/
def filteringState : UrHardwareInterface :=
  { readyState with
    low_pass_filter := true
    joint_position_ := [1, 1, 1, 1, 1, 1]
    joint_velocity_ := [0, 0, 0, 0, 0, 0]
    joint_effort_ := [2, 2, 2, 2, 2, 2]
    robot_force_ := [10, 0, -10]
    robot_torque_ := [1, 0, -1] }

/-- Joint positions as the driver may report them. -/
def rawPos : List Dbl := [2, 0, 1, 3, -1, 1]

/-- Joint velocities as the driver may report them. -/
def rawVel : List Dbl := [1, -1, 0, 3, 0, 0]

/-- Joint currents as the driver may report them. -/
def rawCurrent : List Dbl := [3, 2, 1, 0, 2, 4]

/-- A tool wrench as the driver may report it. -/
def rawTcp : List Dbl := [20, 0, -20, 2, 0, -2]

/-- A short session of the host: start the velocity controller, lower the step, ask
for `100` on the first joint. -/
def demoOps : List UrHardwareInterface.HostOp :=
  [.doSwitch [velocityController] [], .setMaxVelChange (Dbl.lit (1 / 10)), .setVelocityCommand 0 100]

/-- The object that `readyState.run demoOps` returns. -/
def commandedState : UrHardwareInterface :=
  { readyState with
    joint_velocity_command_ := [100, 0, 0, 0, 0, 0]
    max_vel_change_ := Dbl.lit (1 / 10)
    velocity_interface_running_ := true }

/-- The filtering object with every alpha set to zero. -/
def zeroAlphaState : UrHardwareInterface :=
  { filteringState with
    pos_alpha := 0, vel_alpha := 0, eff_alpha := 0, frc_alpha := 0, trq_alpha := 0 }

/-- A controller that claims no resource at all. -/
def bareController : ControllerInfo :=
  ⟨"joint_state_controller", []⟩

/-- A joint list with fewer than six joints. -/
def twoJoints : List String := ["linear_axis", "rotary_axis"]

/-- The host's two-phase protocol for a sequence of switch requests `(start, stop)`:
`canSwitch` is asked first, and `doSwitch` is called only when it returned `true`; a
rejected request leaves the object as it is. -/
def UrHardwareInterface.switchRun (s : UrHardwareInterface) :
    List (List ControllerInfo × List ControllerInfo) → Except Fault UrHardwareInterface
  | [] => .ok s
  | req :: rest =>
    match s.canSwitch req.1 req.2 with
    | .error e => .error e
    | .ok false => UrHardwareInterface.switchRun s rest
    | .ok true =>
      match s.doSwitch req.1 req.2 with
      | .error e => .error e
      | .ok st => UrHardwareInterface.switchRun st.1 rest

/-- A session of switch requests: start position control, switch to velocity control,
then ask for position control again without stopping anything (which is rejected). -/
def demoSwitches : List (List ControllerInfo × List ControllerInfo) :=
  [([positionController], []), ([velocityController], [positionController]),
   ([positionController], [])]

/-- The ramp object with the host asking for a NaN on the first joint. -/
def nanCommandState : UrHardwareInterface :=
  { rampState with joint_velocity_command_ := [Dbl.nan, -100, 0, 0, 0, 0] }

/-- The ramp object with the step lowered to `0.1`. -/
def slowRampState : UrHardwareInterface :=
  { rampState with max_vel_change_ := Dbl.lit (1 / 10) }

/-- The session `demoOps` followed by two cycles of `write()`. -/
def twoWriteOps : List UrHardwareInterface.HostOp :=
  demoOps ++ [.write, .write]

/-- The filtering object with every joint position settled at `13`. -/
def steadyState : UrHardwareInterface :=
  { filteringState with joint_position_ := [13, 13, 13, 13, 13, 13] }

/-- Joint positions as the driver reports them when every joint stays at `13`. -/
def steadyPos : List Dbl := [13, 13, 13, 13, 13, 13]

/-- The object with every alpha zero in which an earlier cycle has stored an infinite
position for the first joint. -/
def saturatedState : UrHardwareInterface :=
  { zeroAlphaState with joint_position_ := [Dbl.pinf, 1, 1, 1, 1, 1] }

/-! ## binary64: rounding and order -/

namespace Dbl

/-! ## Rounding -/

theorem roundEven_bounds (x : ℚ) : ⌊x⌋ ≤ roundEven x ∧ roundEven x ≤ ⌊x⌋ + 1 := by
  unfold roundEven
  split_ifs <;> constructor <;> omega

theorem roundEven_intCast (n : ℤ) : roundEven (n : ℚ) = n := by
  unfold roundEven
  simp

theorem roundEven_mono {x y : ℚ} (h : x ≤ y) : roundEven x ≤ roundEven y := by
  have hf : ⌊x⌋ ≤ ⌊y⌋ := Int.floor_mono h
  rcases lt_or_eq_of_le hf with hlt | heq
  · have h1 := (roundEven_bounds x).2
    have h2 := (roundEven_bounds y).1
    omega
  · unfold roundEven
    rw [← heq]
    split_ifs <;> first | omega | (exfalso; linarith)

theorem roundEven_neg (x : ℚ) : roundEven (-x) = -roundEven x := by
  by_cases hx : (⌊x⌋ : ℚ) = x
  · rw [← hx, ← Int.cast_neg, roundEven_intCast, roundEven_intCast]
  · have h1 : (⌊x⌋ : ℚ) < x := lt_of_le_of_ne (Int.floor_le x) hx
    have h2 : x < ⌊x⌋ + 1 := Int.lt_floor_add_one x
    have hfl : ⌊-x⌋ = -⌊x⌋ - 1 := by
      rw [Int.floor_eq_iff]
      push_cast
      constructor <;> linarith
    unfold roundEven
    rw [hfl]
    push_cast
    split_ifs <;> first | omega | (exfalso; linarith)

/-- The result of rounding when the distance to an integer is below one half. -/
theorem roundEven_eq_of_near {x : ℚ} {m : ℤ} (h : |x - m| < 1 / 2) : roundEven x = m := by
  rw [abs_lt] at h
  have hl := roundEven_mono (show (m : ℚ) - 1 / 2 ≤ x by linarith)
  have hr := roundEven_mono (show x ≤ (m : ℚ) + 1 / 2 by linarith)
  by_cases hm : x < m
  · have hfl : ⌊x⌋ = m - 1 := by
      rw [Int.floor_eq_iff]; push_cast; constructor <;> linarith
    unfold roundEven
    rw [hfl]
    push_cast
    split_ifs <;> first | omega | (exfalso; linarith)
  · have hfl : ⌊x⌋ = m := by
      rw [Int.floor_eq_iff]; constructor <;> linarith
    unfold roundEven
    rw [hfl]
    split_ifs <;> first | omega | (exfalso; linarith)

/-- The result of rounding at a tie. -/
theorem roundEven_tie (m : ℤ) :
    roundEven ((m : ℚ) + 1 / 2) = if m % 2 = 0 then m else m + 1 := by
  have hfl : ⌊(m : ℚ) + 1 / 2⌋ = m := by
    rw [Int.floor_eq_iff]; constructor <;> linarith
  unfold roundEven
  rw [hfl]
  have e : (m : ℚ) + 1 / 2 - m = 1 / 2 := by ring
  rw [e]
  simp

theorem two_zpow_pos (z : ℤ) : (0 : ℚ) < 2 ^ z := zpow_pos (by norm_num) z

theorem ulp_pos (q : ℚ) : 0 < ulp q := two_zpow_pos _

theorem binade_ge (q : ℚ) : -1022 ≤ binade q := le_max_right _ _

theorem binade_abs (q : ℚ) : binade |q| = binade q := by
  unfold binade
  rw [abs_abs]

theorem binade_neg (q : ℚ) : binade (-q) = binade q := by
  unfold binade
  rw [abs_neg]

theorem ulp_neg (q : ℚ) : ulp (-q) = ulp q := by
  unfold ulp
  rw [binade_neg]

theorem roundRat_neg (q : ℚ) : roundRat (-q) = -roundRat q := by
  unfold roundRat
  rw [ulp_neg, neg_div, roundEven_neg]
  push_cast
  ring

theorem roundRat_zero : roundRat 0 = 0 := by
  unfold roundRat
  rw [zero_div]
  have : roundEven 0 = 0 := by
    have := roundEven_intCast 0
    simpa using this
  rw [this]
  simp

theorem roundRat_nonneg {q : ℚ} (h : 0 ≤ q) : 0 ≤ roundRat q := by
  unfold roundRat
  have h1 : (0 : ℚ) ≤ q / ulp q := div_nonneg h (le_of_lt (ulp_pos q))
  have h2 : roundEven 0 ≤ roundEven (q / ulp q) := roundEven_mono h1
  have h3 : roundEven 0 = 0 := by
    have := roundEven_intCast 0
    simpa using this
  rw [h3] at h2
  exact mul_nonneg (by exact_mod_cast h2) (le_of_lt (ulp_pos q))

/-- Below the top of its binade. -/
theorem lt_binade_succ (q : ℚ) : |q| < 2 ^ (binade q + 1) := by
  have h1 : |q| < ((2 : ℕ) : ℚ) ^ (Int.log 2 |q| + 1) :=
    Int.lt_zpow_succ_log_self (by norm_num) |q|
  have h2 : ((2 : ℕ) : ℚ) ^ (Int.log 2 |q| + 1) ≤ 2 ^ (binade q + 1) := by
    push_cast
    apply zpow_le_zpow_right₀ (by norm_num)
    unfold binade
    have := le_max_left (Int.log 2 |q|) (-1022)
    omega
  exact lt_of_lt_of_le h1 h2

/-- In the normal range a value is at or above the bottom of its binade. -/
theorem binade_le_of_normal {q : ℚ} (hq : q ≠ 0) (h : -1022 < binade q) :
    2 ^ binade q ≤ |q| := by
  have hpos : 0 < |q| := abs_pos.mpr hq
  have hb : binade q = Int.log 2 |q| := by
    unfold binade at h ⊢
    rcases max_cases (Int.log 2 |q|) (-1022) with ⟨h1, _⟩ | ⟨h1, _⟩
    · exact h1
    · rw [h1] at h
      exact absurd h (lt_irrefl _)
  rw [hb]
  have := Int.zpow_log_le_self (b := 2) (r := |q|) (by norm_num) hpos
  exact_mod_cast this

theorem binade_mono {x y : ℚ} (hx : 0 < x) (h : x ≤ y) : binade x ≤ binade y := by
  unfold binade
  apply max_le_max _ (le_refl _)
  rw [abs_of_pos hx, abs_of_pos (lt_of_lt_of_le hx h)]
  exact Int.log_mono_right hx h

/-- The binade of a value, from an enclosure by powers of two. -/
theorem binade_eq {q : ℚ} {e : ℤ} (he : -1022 ≤ e) (h1 : 2 ^ e ≤ |q|) (h2 : |q| < 2 ^ (e + 1)) :
    binade q = e := by
  have hpos : 0 < |q| := lt_of_lt_of_le (two_zpow_pos e) h1
  have hl : Int.log 2 |q| = e := by
    apply le_antisymm
    · have : Int.log 2 |q| < e + 1 := by
        rw [← Int.lt_zpow_iff_log_lt (by norm_num) hpos]
        exact_mod_cast h2
      omega
    · rw [← Int.zpow_le_iff_le_log (by norm_num) hpos]
      exact_mod_cast h1
  unfold binade
  rw [hl]
  exact max_eq_left he

/-- The binade in the subnormal range. -/
theorem binade_eq_min {q : ℚ} (hq : q ≠ 0) (h : |q| < 2 ^ (-1022 : ℤ)) :
    binade q = -1022 := by
  unfold binade
  apply max_eq_right
  have hpos : 0 < |q| := abs_pos.mpr hq
  have : Int.log 2 |q| < -1022 := by
    rw [← Int.lt_zpow_iff_log_lt (by norm_num) hpos]
    exact_mod_cast h
  omega

theorem ulp_mul_two_pow (q : ℚ) (n : ℤ) : (2 : ℚ) ^ n * ulp q = 2 ^ (binade q - 52 + n) := by
  unfold ulp
  rw [← zpow_add₀ (by norm_num : (2 : ℚ) ≠ 0)]
  congr 1
  ring

/-- Rounding keeps a positive value at or below the top of its binade. -/
theorem roundRat_le_top {q : ℚ} (hq : 0 < q) : roundRat q ≤ 2 ^ (binade q + 1) := by
  have hu := ulp_pos q
  have h1 : q / ulp q ≤ ((2 ^ 53 : ℤ) : ℚ) := by
    rw [div_le_iff₀ hu]
    have h2 := lt_binade_succ q
    rw [abs_of_pos hq] at h2
    have h3 := ulp_mul_two_pow q 53
    have e : binade q - 52 + 53 = binade q + 1 := by ring
    rw [e] at h3
    have e2 : (((2 : ℤ) ^ 53 : ℤ) : ℚ) = (2 : ℚ) ^ (53 : ℤ) := by norm_num
    rw [e2, h3]
    exact le_of_lt h2
  have h4 := roundEven_mono h1
  rw [roundEven_intCast] at h4
  unfold roundRat
  have h5 : ((roundEven (q / ulp q) : ℤ) : ℚ) ≤ ((2 ^ 53 : ℤ) : ℚ) := by exact_mod_cast h4
  have h6 := mul_le_mul_of_nonneg_right h5 (le_of_lt hu)
  have h3 := ulp_mul_two_pow q 53
  have e : binade q - 52 + 53 = binade q + 1 := by ring
  rw [e] at h3
  have e2 : (((2 : ℤ) ^ 53 : ℤ) : ℚ) = (2 : ℚ) ^ (53 : ℤ) := by norm_num
  rw [e2, h3] at h6
  exact h6

/-- Rounding keeps a positive normal value at or above the bottom of its binade. -/
theorem le_roundRat_of_normal {q : ℚ} (h : 2 ^ binade q ≤ q) :
    2 ^ binade q ≤ roundRat q := by
  have hu := ulp_pos q
  have h3 := ulp_mul_two_pow q 52
  have e : binade q - 52 + 52 = binade q := by ring
  rw [e] at h3
  have e2 : (((2 : ℤ) ^ 52 : ℤ) : ℚ) = (2 : ℚ) ^ (52 : ℤ) := by norm_num
  have h1 : ((2 ^ 52 : ℤ) : ℚ) ≤ q / ulp q := by
    rw [le_div_iff₀ hu, e2, h3]
    exact h
  have h4 := roundEven_mono h1
  rw [roundEven_intCast] at h4
  unfold roundRat
  have h5 : ((2 ^ 52 : ℤ) : ℚ) ≤ ((roundEven (q / ulp q) : ℤ) : ℚ) := by exact_mod_cast h4
  have h6 := mul_le_mul_of_nonneg_right h5 (le_of_lt hu)
  rw [e2, h3] at h6
  exact h6

theorem roundRat_mono_pos {x y : ℚ} (hx : 0 < x) (h : x ≤ y) : roundRat x ≤ roundRat y := by
  have hy : 0 < y := lt_of_lt_of_le hx h
  have hb := binade_mono hx h
  rcases lt_or_eq_of_le hb with hlt | heq
  · have h1 := roundRat_le_top hx
    have hn : -1022 < binade y := lt_of_le_of_lt (binade_ge x) hlt
    have h2 := binade_le_of_normal (ne_of_gt hy) hn
    rw [abs_of_pos hy] at h2
    have h3 := le_roundRat_of_normal h2
    have h4 : (2 : ℚ) ^ (binade x + 1) ≤ 2 ^ binade y :=
      zpow_le_zpow_right₀ (by norm_num) (by omega)
    linarith
  · unfold roundRat ulp
    rw [heq]
    have hu : (0 : ℚ) < 2 ^ (binade y - 52) := two_zpow_pos _
    have h1 : x / 2 ^ (binade y - 52) ≤ y / 2 ^ (binade y - 52) :=
      div_le_div_of_nonneg_right h (le_of_lt hu)
    have h2 := roundEven_mono h1
    have h3 : ((roundEven (x / 2 ^ (binade y - 52)) : ℤ) : ℚ)
        ≤ ((roundEven (y / 2 ^ (binade y - 52)) : ℤ) : ℚ) := by exact_mod_cast h2
    exact mul_le_mul_of_nonneg_right h3 (le_of_lt hu)

/-- Rounding is monotone. -/
theorem roundRat_mono {x y : ℚ} (h : x ≤ y) : roundRat x ≤ roundRat y := by
  rcases lt_trichotomy 0 x with hx | hx | hx
  · exact roundRat_mono_pos hx h
  · subst hx
    rw [roundRat_zero]
    exact roundRat_nonneg h
  · rcases lt_or_le y 0 with hy | hy
    · have h1 : roundRat (-y) ≤ roundRat (-x) :=
        roundRat_mono_pos (by linarith) (by linarith)
      rw [roundRat_neg, roundRat_neg] at h1
      linarith
    · have h1 : 0 ≤ roundRat (-x) := roundRat_nonneg (by linarith)
      rw [roundRat_neg] at h1
      have h2 := roundRat_nonneg hy
      linarith

/-- A multiple of the spacing is left as it is. -/
theorem roundRat_of_multiple {q : ℚ} {m : ℤ} (h : q / ulp q = m) : roundRat q = q := by
  unfold roundRat
  rw [h, roundEven_intCast, ← h]
  exact div_mul_cancel₀ q (ne_of_gt (ulp_pos q))

/-- A value `k * 2 ^ j` with fewer than 54 significant bits and an exponent in range is
left as it is by rounding. -/
theorem roundRat_of_form (k j : ℤ) (hk : |k| < 2 ^ 53) (hj : -1074 ≤ j) :
    roundRat ((k : ℚ) * 2 ^ j) = (k : ℚ) * 2 ^ j := by
  by_cases hk0 : k = 0
  · subst hk0
    simp [roundRat_zero]
  have hq : (k : ℚ) * 2 ^ j ≠ 0 :=
    mul_ne_zero (by exact_mod_cast hk0) (ne_of_gt (two_zpow_pos j))
  have habs : |(k : ℚ) * 2 ^ j| = |(k : ℚ)| * 2 ^ j := by
    rw [abs_mul, abs_of_pos (two_zpow_pos j)]
  -- the exponent of the spacing is at most `j`
  have hle : binade ((k : ℚ) * 2 ^ j) - 52 ≤ j := by
    by_contra hc
    have hn : -1022 < binade ((k : ℚ) * 2 ^ j) := by omega
    have h1 := binade_le_of_normal hq hn
    rw [habs] at h1
    have h2 : |(k : ℚ)| < 2 ^ (53 : ℤ) := by
      have h0 : ((|k| : ℤ) : ℚ) < ((2 ^ 53 : ℤ) : ℚ) := by exact_mod_cast hk
      rw [Int.cast_abs] at h0
      have e2 : (((2 : ℤ) ^ 53 : ℤ) : ℚ) = (2 : ℚ) ^ (53 : ℤ) := by norm_num
      rw [e2] at h0
      exact h0
    have h3 : |(k : ℚ)| * 2 ^ j < 2 ^ (53 : ℤ) * 2 ^ j :=
      mul_lt_mul_of_pos_right h2 (two_zpow_pos j)
    rw [← zpow_add₀ (by norm_num : (2 : ℚ) ≠ 0)] at h3
    have h4 : (2 : ℚ) ^ (53 + j) ≤ 2 ^ binade ((k : ℚ) * 2 ^ j) :=
      zpow_le_zpow_right₀ (by norm_num) (by omega)
    linarith
  obtain ⟨t, ht⟩ : ∃ t : ℕ, j - (binade ((k : ℚ) * 2 ^ j) - 52) = t :=
    ⟨(j - (binade ((k : ℚ) * 2 ^ j) - 52)).toNat, by omega⟩
  apply roundRat_of_multiple (m := k * 2 ^ t)
  unfold ulp
  rw [mul_div_assoc, ← zpow_sub₀ (by norm_num : (2 : ℚ) ≠ 0), ht]
  push_cast
  rw [zpow_natCast]

theorem roundRat_of_form_le (k j : ℤ) (hk : |k| ≤ 2 ^ 53) (hj : -1074 ≤ j) :
    roundRat ((k : ℚ) * 2 ^ j) = (k : ℚ) * 2 ^ j := by
  rcases lt_or_eq_of_le hk with h | h
  · exact roundRat_of_form k j h hj
  · -- `k` is `2 ^ 53` or its negative: write the value with mantissa `k / 2`
    have hk2 : (k : ℚ) * 2 ^ j = ((k / 2 : ℤ) : ℚ) * 2 ^ (j + 1) := by
      have hdiv : k = 2 * (k / 2) := by
        rcases abs_cases k with ⟨h1, _⟩ | ⟨h1, _⟩ <;> omega
      have : (k : ℚ) = 2 * ((k / 2 : ℤ) : ℚ) := by exact_mod_cast hdiv
      rw [this, zpow_add₀ (by norm_num : (2 : ℚ) ≠ 0)]
      ring
    rw [hk2]
    apply roundRat_of_form
    · rcases abs_cases k with ⟨h1, _⟩ | ⟨h1, _⟩ <;>
        rcases abs_cases (k / 2) with ⟨h2, _⟩ | ⟨h2, _⟩ <;> omega
    · omega

theorem abs_roundEven_le_of_abs_le {x : ℚ} {n : ℤ} (h : |x| ≤ n) : |roundEven x| ≤ n := by
  rw [abs_le] at h ⊢
  have h1 := roundEven_mono h.2
  have h2 := roundEven_mono h.1
  rw [roundEven_intCast] at h1
  rw [← Int.cast_neg, roundEven_intCast] at h2
  exact ⟨h2, h1⟩

/-- Rounding twice is rounding once. -/
theorem roundRat_idem (q : ℚ) : roundRat (roundRat q) = roundRat q := by
  have hu := ulp_pos q
  have h1 : |q / ulp q| ≤ ((2 ^ 53 : ℤ) : ℚ) := by
    rw [abs_div, abs_of_pos hu, div_le_iff₀ hu]
    have h2 := lt_binade_succ q
    have h3 := ulp_mul_two_pow q 53
    have e : binade q - 52 + 53 = binade q + 1 := by ring
    rw [e] at h3
    have e2 : (((2 : ℤ) ^ 53 : ℤ) : ℚ) = (2 : ℚ) ^ (53 : ℤ) := by norm_num
    rw [e2, h3]
    exact le_of_lt h2
  have h4 := abs_roundEven_le_of_abs_le h1
  have := roundRat_of_form_le (roundEven (q / ulp q)) (binade q - 52) h4
    (by have := binade_ge q; omega)
  unfold roundRat at this ⊢
  unfold ulp at this ⊢
  exact this

/-! ## Comparisons -/

@[simp]
theorem fin_lt_fin (a b : ℚ) : (fin a < fin b) ↔ a < b := by
  show lt (fin a) (fin b) = true ↔ a < b
  simp [lt]

@[simp]
theorem fin_le_fin (a b : ℚ) : (fin a ≤ fin b) ↔ a ≤ b := by
  show le (fin a) (fin b) = true ↔ a ≤ b
  simp [le]

@[simp]
theorem not_nan_lt (a : Dbl) : ¬ (nan < a) := by
  show ¬ lt nan a = true
  cases a <;> simp [lt]

@[simp]
theorem not_lt_nan (a : Dbl) : ¬ (a < nan) := by
  show ¬ lt a nan = true
  cases a <;> simp [lt]

@[simp]
theorem not_nan_le (a : Dbl) : ¬ (nan ≤ a) := by
  show ¬ le nan a = true
  cases a <;> simp [le]

@[simp]
theorem not_le_nan (a : Dbl) : ¬ (a ≤ nan) := by
  show ¬ le a nan = true
  cases a <;> simp [le]

@[simp]
theorem not_lt_ninf (a : Dbl) : ¬ (a < ninf) := by
  show ¬ lt a ninf = true
  cases a <;> simp [lt]

@[simp]
theorem not_pinf_lt (a : Dbl) : ¬ (pinf < a) := by
  show ¬ lt pinf a = true
  cases a <;> simp [lt]

@[simp]
theorem ninf_lt_fin (a : ℚ) : ninf < fin a := by
  show lt ninf (fin a) = true
  rfl

@[simp]
theorem ninf_lt_pinf : ninf < pinf := by
  show lt ninf pinf = true
  rfl

@[simp]
theorem fin_lt_pinf (a : ℚ) : fin a < pinf := by
  show lt (fin a) pinf = true
  rfl

@[simp]
theorem ninf_le_fin (a : ℚ) : ninf ≤ fin a := by
  show le ninf (fin a) = true
  rfl

@[simp]
theorem ninf_le_pinf : ninf ≤ pinf := by
  show le ninf pinf = true
  rfl

@[simp]
theorem ninf_le_ninf : ninf ≤ ninf := by
  show le ninf ninf = true
  rfl

@[simp]
theorem pinf_le_pinf : pinf ≤ pinf := by
  show le pinf pinf = true
  rfl

@[simp]
theorem fin_le_pinf (a : ℚ) : fin a ≤ pinf := by
  show le (fin a) pinf = true
  rfl

@[simp]
theorem not_pinf_le_fin (a : ℚ) : ¬ (pinf ≤ fin a) := by
  show ¬ le pinf (fin a) = true
  simp [le]

@[simp]
theorem not_pinf_le_ninf : ¬ (pinf ≤ ninf) := by
  show ¬ le pinf ninf = true
  simp [le]

@[simp]
theorem not_fin_le_ninf (a : ℚ) : ¬ (fin a ≤ ninf) := by
  show ¬ le (fin a) ninf = true
  simp [le]

@[simp]
theorem neg_nan : -nan = nan := rfl
@[simp]
theorem neg_ninf : -ninf = pinf := rfl
@[simp]
theorem neg_pinf : -pinf = ninf := rfl
@[simp]
theorem neg_fin (a : ℚ) : -fin a = fin (-a) := rfl

theorem ofNat_eq (n : ℕ) : (OfNat.ofNat n : Dbl) = fin n := rfl

@[simp]
theorem zero_eq : (0 : Dbl) = fin 0 := by
  show fin ((0 : ℕ) : ℚ) = fin 0
  simp

theorem sub_eq (a b : Dbl) : a - b = a + -b := rfl

@[simp]
theorem fin_add_fin (a b : ℚ) : fin a + fin b = round (a + b) := rfl

@[simp]
theorem fin_mul_fin (a b : ℚ) : fin a * fin b = round (a * b) := rfl

/-- For values that are not NaN, `a <= b` is the negation of `b < a`. -/
theorem le_iff_not_lt {a b : Dbl} (ha : a ≠ nan) (hb : b ≠ nan) : a ≤ b ↔ ¬ (b < a) := by
  cases a <;> cases b <;> simp at ha hb ⊢

theorem le_refl_of_ne_nan {a : Dbl} (ha : a ≠ nan) : a ≤ a := by
  cases a <;> simp at ha ⊢

theorem dle_trans {a b c : Dbl} (h1 : a ≤ b) (h2 : b ≤ c) : a ≤ c := by
  cases a <;> cases b <;> cases c <;> simp at h1 h2 ⊢
  exact h1.trans h2

theorem ne_nan_of_le_left {a b : Dbl} (h : a ≤ b) : a ≠ nan := by
  intro e
  subst e
  simp at h

theorem ne_nan_of_le_right {a b : Dbl} (h : a ≤ b) : b ≠ nan := by
  intro e
  subst e
  simp at h

/-! ## Rounding to a double -/

theorem round_ne_nan (q : ℚ) : round q ≠ nan := by
  unfold round
  split_ifs <;> simp

theorem add_ne_nan_of_fin (a b : ℚ) : fin a + fin b ≠ nan := round_ne_nan _

/-- Rounding to a double is monotone. -/
theorem round_mono {x y : ℚ} (h : x ≤ y) : round x ≤ round y := by
  have hm := roundRat_mono h
  have hp : (0 : ℚ) < overflowBound := two_zpow_pos _
  unfold round
  split_ifs <;> simp <;> linarith

theorem round_isDouble (q : ℚ) : IsDouble (round q) := by
  unfold round
  split_ifs with h1 h2
  · trivial
  · trivial
  · show round (roundRat q) = fin (roundRat q)
    unfold round
    rw [roundRat_idem, if_neg h1, if_neg h2]

/-- A value that a double holds is left as it is by rounding. -/
theorem round_of_isDouble {q : ℚ} (h : IsDouble (fin q)) : round q = fin q := h

theorem roundRat_of_isDouble {q : ℚ} (h : IsDouble (fin q)) : roundRat q = q := by
  have h1 : round q = fin q := h
  unfold round at h1
  split_ifs at h1
  simpa using h1

/-- A value `k * 2 ^ j` with fewer than 54 significant bits and an exponent in the range
of binary64 is a double. -/
theorem isDouble_of_form (k j : ℤ) (hk : |k| < 2 ^ 53) (hj : -1074 ≤ j) (hj2 : j ≤ 971) :
    IsDouble (fin ((k : ℚ) * 2 ^ j)) := by
  show round ((k : ℚ) * 2 ^ j) = fin ((k : ℚ) * 2 ^ j)
  have hlt : |(k : ℚ) * 2 ^ j| < overflowBound := by
    rw [abs_mul, abs_of_pos (two_zpow_pos j)]
    have h0 : ((|k| : ℤ) : ℚ) < ((2 ^ 53 : ℤ) : ℚ) := by exact_mod_cast hk
    rw [Int.cast_abs] at h0
    have e2 : (((2 : ℤ) ^ 53 : ℤ) : ℚ) = (2 : ℚ) ^ (53 : ℤ) := by norm_num
    rw [e2] at h0
    have h1 : |(k : ℚ)| * 2 ^ j < 2 ^ (53 : ℤ) * 2 ^ j :=
      mul_lt_mul_of_pos_right h0 (two_zpow_pos j)
    rw [← zpow_add₀ (by norm_num : (2 : ℚ) ≠ 0)] at h1
    have h2 : (2 : ℚ) ^ (53 + j) ≤ 2 ^ (1024 : ℤ) :=
      zpow_le_zpow_right₀ (by norm_num) (by omega)
    unfold overflowBound
    linarith
  rw [abs_lt] at hlt
  unfold round
  rw [roundRat_of_form k j hk hj, if_neg (not_le.mpr hlt.2), if_neg (not_le.mpr hlt.1)]

/-- Every natural number below `2 ^ 53` is a double. -/
theorem isDouble_natCast (n : ℕ) (h : n < 2 ^ 53) : IsDouble (fin (n : ℚ)) := by
  have := isDouble_of_form (n : ℤ) 0 (by rw [abs_of_nonneg (by omega)]; exact_mod_cast h)
    (by norm_num) (by norm_num)
  simpa using this

theorem isDouble_neg {a : Dbl} (h : IsDouble a) : IsDouble (-a) := by
  cases a with
  | nan => trivial
  | ninf => trivial
  | pinf => trivial
  | fin q =>
    have h1 : round q = fin q := h
    have hr := roundRat_of_isDouble h
    show round (-q) = fin (-q)
    unfold round at h1 ⊢
    rw [roundRat_neg, hr]
    rw [hr] at h1
    split_ifs at h1 with a1 a2
    have b1 : ¬ (overflowBound ≤ -q) := by
      intro hc; exact a2 (by linarith)
    have b2 : ¬ (-q ≤ -overflowBound) := by
      intro hc; exact a1 (by linarith)
    rw [if_neg b1, if_neg b2]

theorem isDouble_add (a b : Dbl) : IsDouble (a + b) := by
  cases a <;> cases b <;> first | trivial | exact round_isDouble _

theorem isDouble_mul (a b : Dbl) : IsDouble (a * b) := by
  cases a <;> cases b <;>
    first
    | trivial
    | exact round_isDouble _
    | (show IsDouble (infTimes _ _); unfold infTimes; split_ifs <;> trivial)

theorem isDouble_div (a b : Dbl) : IsDouble (a / b) := by
  cases a <;> cases b <;>
    first
    | trivial
    | (show IsDouble (if _ then _ else _); split_ifs <;> first | trivial | exact round_isDouble _)
    | (show round 0 = fin 0; have := isDouble_natCast 0 (by norm_num); simpa using this)

theorem isDouble_lit (q : ℚ) : IsDouble (lit q) := round_isDouble q

/-- Comparison of a rounded value with a double, from the comparison of the exact
values. -/
theorem round_le_of_le {q b : ℚ} (hb : IsDouble (fin b)) (h : q ≤ b) : round q ≤ fin b := by
  have := round_mono h
  rw [round_of_isDouble hb] at this
  exact this

theorem le_round_of_le {q b : ℚ} (hb : IsDouble (fin b)) (h : b ≤ q) : fin b ≤ round q := by
  have := round_mono h
  rw [round_of_isDouble hb] at this
  exact this

/-! ## Evaluation of a rounding -/

/-- Evaluation of `round q` from the binade of `q` and the integer nearest to
`q / ulp`. -/
theorem round_eval_near {q : ℚ} (e m : ℤ) (he : -1022 ≤ e) (h1 : 2 ^ e ≤ |q|)
    (h2 : |q| < 2 ^ (e + 1)) (hm : |q / 2 ^ (e - 52) - m| < 1 / 2)
    (hb : |(m : ℚ) * 2 ^ (e - 52)| < overflowBound) :
    round q = fin ((m : ℚ) * 2 ^ (e - 52)) := by
  have hbin := binade_eq he h1 h2
  have hr : roundRat q = (m : ℚ) * 2 ^ (e - 52) := by
    unfold roundRat ulp
    rw [hbin, roundEven_eq_of_near hm]
  rw [abs_lt] at hb
  unfold round
  rw [hr, if_neg (not_le.mpr hb.2), if_neg (not_le.mpr hb.1)]

/-- Evaluation of `round q` when `q / ulp` lies halfway between two integers. -/
theorem round_eval_tie {q : ℚ} (e m : ℤ) (he : -1022 ≤ e) (h1 : 2 ^ e ≤ |q|)
    (h2 : |q| < 2 ^ (e + 1)) (hm : q / 2 ^ (e - 52) = (m : ℚ) + 1 / 2)
    (hb : |(((if m % 2 = 0 then m else m + 1 : ℤ)) : ℚ) * 2 ^ (e - 52)| < overflowBound) :
    round q = fin ((((if m % 2 = 0 then m else m + 1 : ℤ)) : ℚ) * 2 ^ (e - 52)) := by
  have hbin := binade_eq he h1 h2
  have hr : roundRat q = (((if m % 2 = 0 then m else m + 1 : ℤ)) : ℚ) * 2 ^ (e - 52) := by
    unfold roundRat ulp
    rw [hbin, hm, roundEven_tie]
  rw [abs_lt] at hb
  unfold round
  rw [hr, if_neg (not_le.mpr hb.2), if_neg (not_le.mpr hb.1)]

/-- A magnitude below a power of two with exponent at most 1024 does not overflow. -/
theorem lt_overflowBound {x : ℚ} (n : ℤ) (hn : n ≤ 1024) (h : |x| < 2 ^ n) :
    |x| < overflowBound := by
  have h2 : (2 : ℚ) ^ n ≤ 2 ^ (1024 : ℤ) := zpow_le_zpow_right₀ (by norm_num) hn
  unfold overflowBound
  linarith

@[simp]
theorem pinf_add_fin (a : ℚ) : pinf + fin a = pinf := rfl
@[simp]
theorem fin_add_pinf (a : ℚ) : fin a + pinf = pinf := rfl
@[simp]
theorem ninf_add_fin (a : ℚ) : ninf + fin a = ninf := rfl
@[simp]
theorem fin_add_ninf (a : ℚ) : fin a + ninf = ninf := rfl
@[simp]
theorem pinf_add_pinf : pinf + pinf = pinf := rfl
@[simp]
theorem ninf_add_ninf : ninf + ninf = ninf := rfl
@[simp]
theorem pinf_add_ninf : pinf + ninf = nan := rfl
@[simp]
theorem ninf_add_pinf : ninf + pinf = nan := rfl
@[simp]
theorem nan_add (a : Dbl) : nan + a = nan := by cases a <;> rfl
@[simp]
theorem add_nan (a : Dbl) : a + nan = nan := by cases a <;> rfl
@[simp]
theorem nan_mul (a : Dbl) : nan * a = nan := by cases a <;> rfl
@[simp]
theorem mul_nan (a : Dbl) : a * nan = nan := by cases a <;> rfl
@[simp]
theorem pinf_mul_fin (a : ℚ) : pinf * fin a = infTimes false a := rfl
@[simp]
theorem fin_mul_pinf (a : ℚ) : fin a * pinf = infTimes false a := rfl
@[simp]
theorem ninf_mul_fin (a : ℚ) : ninf * fin a = infTimes true a := rfl
@[simp]
theorem fin_mul_ninf (a : ℚ) : fin a * ninf = infTimes true a := rfl

theorem ne_nan_of_lt_left {a b : Dbl} (h : a < b) : a ≠ nan := by
  intro e; subst e; simp at h

theorem ne_nan_of_lt_right {a b : Dbl} (h : a < b) : b ≠ nan := by
  intro e; subst e; simp at h

theorem round_zero : round 0 = fin 0 := by
  have := isDouble_natCast 0 (by norm_num)
  simpa using this

theorem round_one : round 1 = fin 1 := by
  have := isDouble_natCast 1 (by norm_num)
  simpa using this

theorem round_nonneg {q : ℚ} (h : 0 ≤ q) : fin 0 ≤ round q := by
  have := round_mono h
  rw [round_zero] at this
  exact this

theorem round_nonpos {q : ℚ} (h : q ≤ 0) : round q ≤ fin 0 := by
  have := round_mono h
  rw [round_zero] at this
  exact this

theorem lit_nonneg {q : ℚ} (h : 0 ≤ q) : (0 : Dbl) ≤ lit q := by
  rw [zero_eq]
  exact round_nonneg h

/-- With a finite non-negative step, the lower slew bound is not above the upper one. -/
theorem sub_le_add_of_nonneg {p : Dbl} {y : ℚ} (hp : p ≠ nan) (hy : 0 ≤ y) :
    p - fin y ≤ p + fin y := by
  rw [sub_eq]
  cases p with
  | nan => exact absurd rfl hp
  | ninf => simp
  | pinf => simp
  | fin x =>
    simp only [neg_fin, fin_add_fin]
    exact round_mono (by linarith)

/-- A value not above a double stays not above it after a finite non-negative step is
subtracted. -/
theorem sub_le_of_le {p l : Dbl} {y : ℚ} (h : p ≤ l) (hl : IsDouble l) (hy : 0 ≤ y) :
    p - fin y ≤ l := by
  rw [sub_eq]
  cases p with
  | nan => simp at h
  | ninf => cases l <;> simp at h ⊢
  | pinf => cases l <;> simp at h ⊢
  | fin x =>
    cases l with
    | nan => simp at h
    | ninf => simp at h
    | pinf =>
      simp only [neg_fin, fin_add_fin]
      have := round_ne_nan (x + -y)
      cases hr : round (x + -y) <;> simp_all
    | fin z =>
      simp only [neg_fin, fin_add_fin]
      simp only [fin_le_fin] at h
      exact round_le_of_le hl (by linarith)

/-- A value not below a double stays not below it after a finite non-negative step is
added. -/
theorem le_add_of_le {p l : Dbl} {y : ℚ} (h : l ≤ p) (hl : IsDouble l) (hy : 0 ≤ y) :
    l ≤ p + fin y := by
  cases p with
  | nan => simp at h
  | pinf => cases l <;> simp at h ⊢
  | ninf => cases l <;> simp at h ⊢
  | fin x =>
    cases l with
    | nan => simp at h
    | pinf => simp at h
    | ninf =>
      simp only [fin_add_fin]
      have := round_ne_nan (x + y)
      cases hr : round (x + y) <;> simp_all
    | fin z =>
      simp only [fin_add_fin]
      simp only [fin_le_fin] at h
      exact le_round_of_le hl (by linarith)

theorem neg_le_neg {a b : Dbl} (h : a ≤ b) : -b ≤ -a := by
  cases a <;> cases b <;> simp at h ⊢
  linarith

theorem neg_nonpos_of_nonneg {l : Dbl} (h : (0 : Dbl) ≤ l) : -l ≤ (0 : Dbl) := by
  rw [zero_eq] at h ⊢
  cases l <;> simp at h ⊢
  linarith

theorem round_neg (q : ℚ) : round (-q) = -(round q) := by
  have hp : (0 : ℚ) < overflowBound := two_zpow_pos _
  unfold round
  rw [roundRat_neg]
  by_cases h1 : overflowBound ≤ roundRat q
  · have h2 : -roundRat q ≤ -overflowBound := by linarith
    have h3 : ¬ overflowBound ≤ -roundRat q := by intro h; linarith
    rw [if_pos h1, if_neg h3, if_pos h2]
    rfl
  · by_cases h2 : roundRat q ≤ -overflowBound
    · have h3 : overflowBound ≤ -roundRat q := by linarith
      rw [if_neg h1, if_pos h2, if_pos h3]
      rfl
    · have h3 : ¬ overflowBound ≤ -roundRat q := by intro h; apply h2; linarith
      have h4 : ¬ -roundRat q ≤ -overflowBound := by intro h; apply h1; linarith
      rw [if_neg h1, if_neg h2, if_neg h3, if_neg h4]
      rfl

/-- A rounded value lies between two doubles that enclose the exact value. -/
theorem round_between {q : ℚ} (lo hi : ℚ) (h1 : lo ≤ q) (h2 : q ≤ hi)
    (hlo : IsDouble (fin lo)) (hhi : IsDouble (fin hi)) :
    ∃ r, round q = fin r ∧ lo ≤ r ∧ r ≤ hi := by
  have a := le_round_of_le hlo h1
  have b := round_le_of_le hhi h2
  cases hr : round q with
  | nan => rw [hr] at a; simp at a
  | ninf => rw [hr] at a; simp at a
  | pinf => rw [hr] at b; simp at b
  | fin r =>
    rw [hr] at a b
    simp only [fin_le_fin] at a b
    exact ⟨r, rfl, a, b⟩

theorem isDouble_zero : IsDouble (fin 0) := round_zero

theorem isDouble_one : IsDouble (fin 1) := round_one

theorem isDouble_half : IsDouble (fin (1 / 2)) := by
  have := isDouble_of_form 1 (-1) (by norm_num) (by norm_num) (by norm_num)
  simpa using this

/-- Adding a finite double to zero gives it back. -/
theorem zero_add_of_isDouble {y : ℚ} (h : IsDouble (fin y)) : (0 : Dbl) + fin y = fin y := by
  rw [zero_eq, fin_add_fin, zero_add]
  exact h

/-- Subtracting a finite double from zero gives its negation. -/
theorem zero_sub_of_isDouble {y : ℚ} (h : IsDouble (fin y)) : (0 : Dbl) - fin y = fin (-y) := by
  rw [sub_eq, zero_eq, neg_fin, fin_add_fin, zero_add, round_neg]
  have h1 : round y = fin y := h
  rw [h1]
  rfl

theorem one_eq : (1 : Dbl) = fin 1 := by
  show fin ((1 : ℕ) : ℚ) = fin 1
  simp

theorem ofNat_eq_fin (n : ℕ) [n.AtLeastTwo] :
    (OfNat.ofNat n : Dbl) = fin (OfNat.ofNat n) := by
  show fin ((OfNat.ofNat n : ℕ) : ℚ) = fin (OfNat.ofNat n)
  simp

/-- A literal between `0` and `1` is a finite double between `0` and `1`. -/
theorem lit_unit {q : ℚ} (h0 : 0 ≤ q) (h1 : q ≤ 1) : ∃ r, lit q = fin r ∧ 0 ≤ r ∧ r ≤ 1 :=
  round_between 0 1 h0 h1 isDouble_zero isDouble_one

theorem lit_unit_step {q : ℚ} (h0 : 0 ≤ q) (h1 : q ≤ 1) :
    (0 : Dbl) ≤ lit q ∧ (lit q).IsFinite := by
  obtain ⟨r, e, a, _⟩ := lit_unit h0 h1
  rw [e, zero_eq]
  exact ⟨by simpa using a, trivial⟩

/-- The double `M_PI` lies between `3` and `4`. -/
theorem M_PI_bounds : ∃ p, M_PI = fin p ∧ 3 ≤ p ∧ p ≤ 4 := by
  have h3 := isDouble_natCast 3 (by norm_num)
  have h4 := isDouble_natCast 4 (by norm_num)
  exact round_between 3 4 (by norm_num) (by norm_num) (by simpa using h3) (by simpa using h4)

/-- The velocity limit that `init()` computes from the default `vel_limit_alpha` for
a joint speed between 128 and 256 degrees per second is a finite double between `1`
and `8`. -/
theorem ur_limit_bounds (deg : ℚ) (h1 : 128 ≤ deg) (h2 : deg ≤ 256) :
    ∃ r, lit (95 / 100) * fin deg * M_PI / 180 = fin r ∧ 1 ≤ r ∧ r ≤ 8 := by
  obtain ⟨a, ea, a0, a1⟩ :=
    round_between (q := 95 / 100) (1 / 2) 1 (by norm_num) (by norm_num)
      isDouble_half isDouble_one
  obtain ⟨p, ep, p0, p1⟩ := M_PI_bounds
  have d64 : IsDouble (fin 64) := by
    simpa using isDouble_natCast 64 (by norm_num)
  have d256 : IsDouble (fin 256) := by
    simpa using isDouble_natCast 256 (by norm_num)
  have d192 : IsDouble (fin 192) := by
    simpa using isDouble_natCast 192 (by norm_num)
  have d1024 : IsDouble (fin 1024) := by
    simpa using isDouble_natCast 1024 (by norm_num)
  have d8 : IsDouble (fin 8) := by
    simpa using isDouble_natCast 8 (by norm_num)
  obtain ⟨x, ex, x0, x1⟩ :=
    round_between (q := a * deg) 64 256 (by nlinarith) (by nlinarith) d64 d256
  obtain ⟨y, ey, y0, y1⟩ :=
    round_between (q := x * p) 192 1024 (by nlinarith) (by nlinarith)
      d192 d1024
  obtain ⟨r, er, r0, r1⟩ :=
    round_between (q := y / 180) 1 8
      (by rw [le_div_iff₀ (by norm_num)]; linarith)
      (by rw [div_le_iff₀ (by norm_num)]; linarith) isDouble_one d8
  refine ⟨r, ?_, r0, r1⟩
  have e180 : (180 : Dbl) = fin 180 := ofNat_eq_fin 180
  show lit (95 / 100) * fin deg * M_PI / 180 = fin r
  unfold lit
  rw [ea, ep, fin_mul_fin, ex, fin_mul_fin, ey, e180]
  show (if (180 : ℚ) = 0 then nan else round (y / 180)) = fin r
  rw [if_neg (by norm_num), er]

/-! ### `std::min` on values that are not NaN -/

theorem min_le_left_of_ne_nan {a b : Dbl} (ha : a ≠ nan) (hb : b ≠ nan) : Dbl.min a b ≤ a := by
  unfold Dbl.min
  cases a <;> cases b <;> simp at ha hb ⊢ <;> (try split_ifs) <;> (try simp_all) <;>
    (try linarith)

theorem min_le_right_of_ne_nan {a b : Dbl} (ha : a ≠ nan) (hb : b ≠ nan) :
    Dbl.min a b ≤ b := by
  unfold Dbl.min
  cases a <;> cases b <;> simp at ha hb ⊢ <;> (try split_ifs) <;> (try simp_all)

theorem le_min_of_le {x a b : Dbl} (h1 : x ≤ a) (h2 : x ≤ b) : x ≤ Dbl.min a b := by
  unfold Dbl.min
  split_ifs
  · exact h2
  · exact h1

theorem isDouble_min {a b : Dbl} (ha : IsDouble a) (hb : IsDouble b) :
    IsDouble (Dbl.min a b) := by
  unfold Dbl.min
  split_ifs
  · exact hb
  · exact ha

theorem min_eq_right_of_le {a b : Dbl} (h : b ≤ a) : Dbl.min a b = b := by
  unfold Dbl.min
  cases a <;> cases b <;> simp at h ⊢
  intro h2
  linarith

theorem min_absorb_aux {S d l C : Dbl} (S0 : (0 : Dbl) ≤ S) (d0 : (0 : Dbl) ≤ d)
    (l0 : (0 : Dbl) ≤ l) (hne : Dbl.min (Dbl.min S d) l ≠ S)
    (hC : Dbl.min (Dbl.min S d) l ≤ C) :
    Dbl.min (Dbl.min C d) l = Dbl.min (Dbl.min S d) l := by
  rw [zero_eq] at S0 d0 l0
  unfold Dbl.min at *
  cases S <;> simp at S0 <;> cases d <;> simp at d0 <;> cases l <;> simp at l0 <;>
    cases C <;> simp at hne hC ⊢ <;> (try split_ifs at hne hC ⊢) <;>
    (try simp_all) <;> (try intros) <;> (try linarith)

/-- Adding the step to the clamped running value and clamping again gives the same as
adding it to the running sum and clamping. -/
theorem min_absorb {S d l A B : Dbl} (S0 : (0 : Dbl) ≤ S) (d0 : (0 : Dbl) ≤ d)
    (l0 : (0 : Dbl) ≤ l) (hA : Dbl.min (Dbl.min S d) l ≤ A) (hB : S ≤ B)
    (hAB : Dbl.min (Dbl.min S d) l = S → A = B) :
    Dbl.min (Dbl.min A d) l = Dbl.min (Dbl.min B d) l := by
  by_cases h : Dbl.min (Dbl.min S d) l = S
  · rw [hAB h]
  · have Sn : S ≠ nan := ne_nan_of_le_right S0
    have dn : d ≠ nan := ne_nan_of_le_right d0
    have ln : l ≠ nan := ne_nan_of_le_right l0
    have m1 : Dbl.min S d ≤ S := min_le_left_of_ne_nan Sn dn
    have m2 : Dbl.min (Dbl.min S d) l ≤ Dbl.min S d :=
      min_le_left_of_ne_nan (ne_nan_of_le_left m1) ln
    rw [min_absorb_aux S0 d0 l0 h hA,
      min_absorb_aux S0 d0 l0 h (dle_trans (dle_trans m2 m1) hB)]

end Dbl

namespace UrHardwareInterface

open Dbl

/-! ## Vectors and loops -/

theorem vget_ok {v : List Dbl} {i : Nat} (h : i < v.length) : vget v i = .ok (v.getD i 0) := by
  simp [vget, List.getD, List.getElem?_eq_getElem h]

theorem vset_ok {v : List Dbl} {i : Nat} (x : Dbl) (h : i < v.length) :
    vset v i x = .ok (v.set i x) := by
  simp [vset, h]

theorem getD_set_same {v : List Dbl} {i : Nat} (x : Dbl) (h : i < v.length) :
    (v.set i x).getD i 0 = x := by
  simp [List.getD, List.getElem?_set, h]

theorem getD_set_other {v : List Dbl} {i j : Nat} (x : Dbl) (h : i ≠ j) :
    (v.set i x).getD j 0 = v.getD j 0 := by
  simp [List.getD, List.getElem?_set, h]

theorem eq_of_getD {u v : List Dbl} (hl : u.length = v.length)
    (h : ∀ j, j < u.length → u.getD j 0 = v.getD j 0) : u = v := by
  apply List.ext_getElem hl
  intro j h1 h2
  have := h j h1
  simpa [List.getD, List.getElem?_eq_getElem h1, List.getElem?_eq_getElem h2] using this

theorem length_resize (v : List Dbl) (n : Nat) : (resize v n).length = n := by
  simp [resize]; omega

/-- Invariant of the limiter loop: run from index `i`, it leaves the entries below `i`
alone and stores the limited command in `cmd` and in the previous-command vector at
every index from `i` on. -/
theorem writeLoop_spec (s : UrHardwareInterface) (n : Nat)
    (hj : s.joint_velocity_command_.length = n) (hl : s.joint_velocity_limits_.length = n) :
    ∀ (k i : Nat) (cmd prevs : List Dbl), i + k = n → cmd.length = n → prevs.length = n →
      ∃ cmd1 prevs1,
        forLoop writeBody k i (cmd, { s with prev_joint_velocity_command_ := prevs })
          = .ok (cmd1, { s with prev_joint_velocity_command_ := prevs1 }) ∧
        cmd1.length = n ∧ prevs1.length = n ∧
        (∀ j, j < i → cmd1.getD j 0 = cmd.getD j 0 ∧ prevs1.getD j 0 = prevs.getD j 0) ∧
        (∀ j, i ≤ j → j < n →
          cmd1.getD j 0 = limitVelocity (s.joint_velocity_command_.getD j 0) (prevs.getD j 0)
            s.max_vel_change_ (s.joint_velocity_limits_.getD j 0) ∧
          prevs1.getD j 0 = limitVelocity (s.joint_velocity_command_.getD j 0) (prevs.getD j 0)
            s.max_vel_change_ (s.joint_velocity_limits_.getD j 0)) := by
  intro k
  induction k with
  | zero =>
    intro i cmd prevs hik hc hp
    refine ⟨cmd, prevs, rfl, hc, hp, fun j _ => ⟨rfl, rfl⟩, ?_⟩
    intro j h1 h2
    omega
  | succ k ih =>
    intro i cmd prevs hik hc hp
    have hi : i < n := by omega
    obtain ⟨cmd1, prevs1, hrun, hc1, hp1, hlow, hhigh⟩ :=
      ih (i + 1)
        (cmd.set i (limitVelocity (s.joint_velocity_command_.getD i 0) (prevs.getD i 0)
          s.max_vel_change_ (s.joint_velocity_limits_.getD i 0)))
        (prevs.set i (limitVelocity (s.joint_velocity_command_.getD i 0) (prevs.getD i 0)
          s.max_vel_change_ (s.joint_velocity_limits_.getD i 0)))
        (by omega) (by simpa using hc) (by simpa using hp)
    refine ⟨cmd1, prevs1, ?_, hc1, hp1, ?_, ?_⟩
    · have e1 : vget s.joint_velocity_command_ i = .ok (s.joint_velocity_command_.getD i 0) :=
        vget_ok (by omega)
      have e2 : vget prevs i = .ok (prevs.getD i 0) := vget_ok (by omega)
      have e3 : vget s.joint_velocity_limits_ i = .ok (s.joint_velocity_limits_.getD i 0) :=
        vget_ok (by omega)
      simp only [forLoop, writeBody, e1, e2, e3, vset_ok _ (show i < cmd.length by omega),
        vset_ok _ (show i < prevs.length by omega)]
      exact hrun
    · intro j hji
      have h := hlow j (by omega)
      rw [getD_set_other _ (by omega), getD_set_other _ (by omega)] at h
      exact h
    · intro j hij hjn
      by_cases hEq : j = i
      · subst hEq
        have h := hlow j (by omega)
        rw [getD_set_same _ (by omega), getD_set_same _ (by omega)] at h
        exact h
      · have h := hhigh j (by omega) hjn
        rw [getD_set_other _ (by omega)] at h
        exact h

/-- On a sized object the limiter loop returns, `cmd` and the stored previous commands
are the same vector, and its entries are the per-joint limited commands. -/
theorem writeLimiter_ok (s : UrHardwareInterface) (hs : s.Sized) :
    ∃ cmd, s.writeLimiter = .ok (cmd, { s with prev_joint_velocity_command_ := cmd }) ∧
      cmd.length = s.num_joints_ ∧
      ∀ j, j < s.num_joints_ →
        cmd.getD j 0 = limitVelocity (s.joint_velocity_command_.getD j 0)
          (s.prev_joint_velocity_command_.getD j 0) s.max_vel_change_
          (s.joint_velocity_limits_.getD j 0) := by
  obtain ⟨cmd1, prevs1, hrun, hc1, hp1, _, hhigh⟩ :=
    writeLoop_spec s s.num_joints_ hs.velocityCommand hs.limits s.num_joints_ 0
      (resize [] s.num_joints_) s.prev_joint_velocity_command_ (by omega)
      (length_resize _ _) hs.prevCommand
  have hEq : prevs1 = cmd1 := by
    apply eq_of_getD (by omega)
    intro j hj
    rw [(hhigh j (by omega) (by omega)).1, (hhigh j (by omega) (by omega)).2]
  subst hEq
  refine ⟨prevs1, ?_, hc1, fun j hj => (hhigh j (by omega) hj).1⟩
  unfold writeLimiter
  rw [hs.velocityCommand]
  exact hrun

/-- A velocity-mode `write()` on a sized object with at least six joints returns; it
stores the limited commands and hands the first six to `setSpeed`. -/
theorem write_velocity (s : UrHardwareInterface) (hs : s.Sized) (h6 : 6 ≤ s.num_joints_)
    (hv : s.velocity_interface_running_ = true) :
    ∃ cmd, s.writeLimiter = .ok (cmd, { s with prev_joint_velocity_command_ := cmd }) ∧
      s.write = .ok ({ s with prev_joint_velocity_command_ := cmd },
        [⟨.setSpeed (cmd.getD 0 0) (cmd.getD 1 0) (cmd.getD 2 0) (cmd.getD 3 0)
            (cmd.getD 4 0) (cmd.getD 5 0) (s.max_vel_change_ * 125),
          true, s.position_interface_running_⟩]) ∧
      cmd.length = s.num_joints_ ∧
      ∀ j, j < s.num_joints_ →
        cmd.getD j 0 = limitVelocity (s.joint_velocity_command_.getD j 0)
          (s.prev_joint_velocity_command_.getD j 0) s.max_vel_change_
          (s.joint_velocity_limits_.getD j 0) := by
  obtain ⟨cmd, hlim, hlen, hval⟩ := writeLimiter_ok s hs
  refine ⟨cmd, hlim, ?_, hlen, hval⟩
  simp only [write, hv, if_true, hlim, vget_ok (show 0 < cmd.length by omega),
    vget_ok (show 1 < cmd.length by omega), vget_ok (show 2 < cmd.length by omega),
    vget_ok (show 3 < cmd.length by omega), vget_ok (show 4 < cmd.length by omega),
    vget_ok (show 5 < cmd.length by omega), observe]

theorem rampState_sized : rampState.Sized :=
  ⟨rfl, rfl, rfl, rfl, rfl, rfl, rfl⟩

/-- Invariant of the loop of `init()`: run from index `i`, it zeroes the previous
commands and sets the limits to `2.0` at every index from `i` on. -/
theorem initLoop_spec (s : UrHardwareInterface) (n : Nat) :
    ∀ (k i : Nat) (prevs lims : List Dbl), i + k = n → prevs.length = n → lims.length = n →
      ∃ prevs1 lims1,
        forLoop initBody k i
            { s with prev_joint_velocity_command_ := prevs, joint_velocity_limits_ := lims }
          = .ok { s with prev_joint_velocity_command_ := prevs1,
                         joint_velocity_limits_ := lims1 } ∧
        prevs1.length = n ∧ lims1.length = n ∧
        (∀ j, j < i → prevs1.getD j 0 = prevs.getD j 0 ∧ lims1.getD j 0 = lims.getD j 0) ∧
        (∀ j, i ≤ j → j < n → prevs1.getD j 0 = 0 ∧ lims1.getD j 0 = 2) := by
  intro k
  induction k with
  | zero =>
    intro i prevs lims hik hp hl
    refine ⟨prevs, lims, rfl, hp, hl, fun j _ => ⟨rfl, rfl⟩, ?_⟩
    intro j h1 h2
    omega
  | succ k ih =>
    intro i prevs lims hik hp hl
    obtain ⟨prevs1, lims1, hrun, hp1, hl1, hlow, hhigh⟩ :=
      ih (i + 1) (prevs.set i 0) (lims.set i 2) (by omega) (by simpa using hp)
        (by simpa using hl)
    refine ⟨prevs1, lims1, ?_, hp1, hl1, ?_, ?_⟩
    · simp only [forLoop, initBody, vset_ok _ (show i < prevs.length by omega),
        vset_ok _ (show i < lims.length by omega)]
      exact hrun
    · intro j hji
      have h := hlow j (by omega)
      rw [getD_set_other _ (by omega), getD_set_other _ (by omega)] at h
      exact h
    · intro j hij hjn
      by_cases hEq : j = i
      · subst hEq
        have h := hlow j (by omega)
        rw [getD_set_same _ (by omega), getD_set_same _ (by omega)] at h
        exact h
      · exact hhigh j (by omega) hjn

theorem setLimit_ok {i : Nat} {deg : Dbl} {s s1 : UrHardwareInterface}
    (h : setLimit i deg s = .ok s1) :
    i < s.joint_velocity_limits_.length ∧
      s1 = { s with joint_velocity_limits_ :=
        s.joint_velocity_limits_.set i (s.vel_limit_alpha * deg * M_PI / 180) } := by
  unfold setLimit vset at h
  split_ifs at h with hi
  simp only [Except.ok.injEq] at h
  exact ⟨hi, h.symm⟩

/-- What a returning `init()` establishes. -/
theorem init_spec {boot s0 : UrHardwareInterface} {joints : List String}
    (h : boot.init joints = .ok s0) :
    s0.Sized ∧ 6 ≤ s0.num_joints_ ∧ s0.num_joints_ = joints.length ∧
      s0.joint_names_ = joints ∧
      (∀ j, j < s0.num_joints_ → s0.prev_joint_velocity_command_.getD j 0 = 0) ∧
      s0.velocity_interface_running_ = false ∧ s0.position_interface_running_ = false ∧
      s0.max_vel_change_ = boot.max_vel_change_ := by
  unfold init at h
  simp only [] at h
  split_ifs at h with h0
  obtain ⟨prevs1, lims1, hrun, hp1, hl1, _, hhigh⟩ :=
    initLoop_spec
      { boot with
        joint_names_ := joints
        num_joints_ := joints.length
        joint_position_ := resize boot.joint_position_ joints.length
        joint_velocity_ := resize boot.joint_velocity_ joints.length
        joint_effort_ := resize boot.joint_effort_ joints.length
        joint_position_command_ := resize boot.joint_position_command_ joints.length
        joint_velocity_command_ := resize boot.joint_velocity_command_ joints.length }
      joints.length joints.length 0
      (resize boot.prev_joint_velocity_command_ joints.length)
      (resize boot.joint_velocity_limits_ joints.length) (by omega)
      (length_resize _ _) (length_resize _ _)
  simp only [] at hrun
  rw [hrun] at h
  simp only [] at h
  split at h
  · simp at h
  rename_i s1 e1
  split at h
  · simp at h
  rename_i s2 e2
  split at h
  · simp at h
  rename_i s3 e3
  split at h
  · simp at h
  rename_i s4 e4
  split at h
  · simp at h
  rename_i s5 e5
  split at h
  · simp at h
  rename_i s6 e6
  obtain ⟨b1, r1⟩ := setLimit_ok e1
  subst r1
  obtain ⟨b2, r2⟩ := setLimit_ok e2
  subst r2
  obtain ⟨b3, r3⟩ := setLimit_ok e3
  subst r3
  obtain ⟨b4, r4⟩ := setLimit_ok e4
  subst r4
  obtain ⟨b5, r5⟩ := setLimit_ok e5
  subst r5
  obtain ⟨b6, r6⟩ := setLimit_ok e6
  subst r6
  simp only [Except.ok.injEq] at h
  subst h
  simp only [List.length_set] at b6
  refine ⟨⟨?_, ?_, ?_, ?_, ?_, ?_, ?_⟩, ?_, rfl, rfl, ?_, rfl, rfl, rfl⟩
  · exact length_resize _ _
  · exact length_resize _ _
  · exact length_resize _ _
  · exact length_resize _ _
  · exact length_resize _ _
  · exact hp1
  · simp only [List.length_set]; exact hl1
  · show 6 ≤ joints.length
    rw [hl1] at b6
    exact b6
  · intro j hj
    exact (hhigh j (Nat.zero_le j) hj).1

theorem forLoop_rel {σ : Type} (R : σ → σ → Prop) (hrefl : ∀ a, R a a)
    (htrans : ∀ a b c, R a b → R b c → R a c) (body : Nat → σ → Except Fault σ)
    (hbody : ∀ i a b, body i a = .ok b → R a b) :
    ∀ (k i : Nat) (a b : σ), forLoop body k i a = .ok b → R a b := by
  intro k
  induction k with
  | zero =>
    intro i a b h
    simp only [forLoop, Except.ok.injEq] at h
    subst h
    exact hrefl a
  | succ k ih =>
    intro i a b h
    simp only [forLoop] at h
    split at h
    · rename_i a1 e1
      exact htrans a a1 b (hbody i a a1 e1) (ih (i + 1) a1 b h)
    · simp at h

theorem listLoop_rel {σ : Type} (R : σ → σ → Prop) (hrefl : ∀ a, R a a)
    (htrans : ∀ a b c, R a b → R b c → R a c) (body : σ → ControllerInfo → Except Fault σ)
    (hbody : ∀ c a b, body a c = .ok b → R a b) :
    ∀ (l : List ControllerInfo) (a b : σ), listLoop body l a = .ok b → R a b := by
  intro l
  induction l with
  | nil =>
    intro a b h
    simp only [listLoop, Except.ok.injEq] at h
    subst h
    exact hrefl a
  | cons c rest ih =>
    intro a b h
    simp only [listLoop] at h
    split at h
    · simp at h
    · rename_i a1 e1
      exact htrans a a1 b (hbody c a a1 e1) (ih a1 b h)

theorem vset_length {v w : List Dbl} {i : Nat} {x : Dbl} (h : vset v i x = .ok w) :
    w.length = v.length := by
  unfold vset at h
  split_ifs at h
  simp only [Except.ok.injEq] at h
  subst h
  simp

theorem readJointBody_frame (pos vel current : List Dbl) (i : Nat)
    (a b : UrHardwareInterface) (h : readJointBody pos vel current i a = .ok b) :
    a.SensedOnly b := by
  unfold readJointBody at h
  split at h
  · split_ifs at h
    · split at h
      · split at h
        · rename_i e1 e2 e3
          simp only [Except.ok.injEq] at h
          subst h
          exact ⟨rfl, vset_length e1, vset_length e2, vset_length e3, rfl, rfl⟩
        · simp at h
      · simp at h
    · split at h
      · rename_i e1 e2 e3
        simp only [Except.ok.injEq] at h
        subst h
        exact ⟨rfl, vset_length e1, vset_length e2, vset_length e3, rfl, rfl⟩
      · simp at h
  · simp at h

theorem readWrenchBody_frame (tcp : List Dbl) (i : Nat)
    (a b : UrHardwareInterface) (h : readWrenchBody tcp i a = .ok b) :
    a.SensedOnly b := by
  unfold readWrenchBody at h
  split at h
  · split_ifs at h
    · split at h
      · split at h
        · rename_i e1 e2
          simp only [Except.ok.injEq] at h
          subst h
          exact ⟨rfl, rfl, rfl, rfl, vset_length e1, vset_length e2⟩
        · simp at h
      · simp at h
    · split at h
      · rename_i e1 e2
        simp only [Except.ok.injEq] at h
        subst h
        exact ⟨rfl, rfl, rfl, rfl, vset_length e1, vset_length e2⟩
      · simp at h
  · simp at h

theorem sensedOnly_refl (a : UrHardwareInterface) : a.SensedOnly a :=
  ⟨rfl, rfl, rfl, rfl, rfl, rfl⟩

theorem sensedOnly_trans (a b c : UrHardwareInterface) (h1 : a.SensedOnly b)
    (h2 : b.SensedOnly c) : a.SensedOnly c := by
  obtain ⟨e1, p1, v1, f1, w1, t1⟩ := h1
  obtain ⟨e2, p2, v2, f2, w2, t2⟩ := h2
  refine ⟨?_, p2.trans p1, v2.trans v1, f2.trans f1, w2.trans w1, t2.trans t1⟩
  rw [e2, e1]

/-- A returning `read()` changes nothing but the sensed joint state and wrench, and
keeps the sizes of those. -/
theorem read_frame {s s1 : UrHardwareInterface} {pos vel current tcp : List Dbl}
    (h : s.read pos vel current tcp = .ok s1) : s.SensedOnly s1 := by
  unfold read at h
  split at h
  · simp at h
  · rename_i s2 e2
    exact sensedOnly_trans _ _ _
      (forLoop_rel SensedOnly sensedOnly_refl sensedOnly_trans _
        (readJointBody_frame pos vel current) _ _ _ _ e2)
      (forLoop_rel SensedOnly sensedOnly_refl sensedOnly_trans _
        (readWrenchBody_frame tcp) _ _ _ _ h)

theorem firstInterface_ok {c : ControllerInfo} (h : c.claimed_resources ≠ []) :
    ∃ r rest, c.claimed_resources = r :: rest ∧ firstInterface c = .ok r.hardware_interface := by
  unfold firstInterface
  cases hc : c.claimed_resources with
  | nil => exact absurd hc h
  | cons r rest => exact ⟨r, rest, rfl, rfl⟩

theorem position_ne_velocity : positionInterface ≠ velocityInterface := by decide

theorem velocity_ne_position : velocityInterface ≠ positionInterface := by decide

/-- The first loop of `doSwitch`: the flags after it, and the driver calls it makes. -/
theorem stopLoop_spec (l : List ControllerInfo) (hl : Claiming l) :
    ∀ (s : UrHardwareInterface) (ev : List DriverEvent),
      ∃ ev1, listLoop stopBody l (s, ev) = .ok
          ({ s with
              velocity_interface_running_ :=
                s.velocity_interface_running_ && !l.any (hasKind velocityInterface)
              position_interface_running_ :=
                s.position_interface_running_ && !l.any (hasKind positionInterface) },
            ev ++ ev1) ∧
        ev1.map DriverEvent.call
          = List.replicate (l.countP (hasKind positionInterface)) (.closeServo []) ∧
        ∀ e, e ∈ ev1 → e.position_running = false := by
  induction l with
  | nil =>
    intro s ev
    refine ⟨[], ?_, rfl, ?_⟩
    · simp [listLoop]
    · intro e he
      simp at he
  | cons c rest ih =>
    intro s ev
    obtain ⟨r, rs, hc, hf⟩ := firstInterface_ok (hl c (List.mem_cons_self _ _))
    have hrest : Claiming rest := fun d hd => hl d (List.mem_cons_of_mem _ hd)
    by_cases hp : r.hardware_interface = positionInterface
    · obtain ⟨ev1, hrun, hcalls, hflags⟩ := ih hrest
        { s with position_interface_running_ := false }
        (ev ++ [⟨.closeServo [], s.velocity_interface_running_, false⟩])
      refine ⟨⟨.closeServo [], s.velocity_interface_running_, false⟩ :: ev1, ?_, ?_, ?_⟩
      · simp only [listLoop, stopBody, hf, hp, position_ne_velocity, if_true, if_false,
          observe]
        rw [hrun]
        simp [hasKind, hc, hp, position_ne_velocity]
      · simp [hasKind, hc, hp, hcalls, List.replicate_succ]
      · intro e he
        rcases List.mem_cons.mp he with h1 | h1
        · subst h1; rfl
        · exact hflags e h1
    · by_cases hv : r.hardware_interface = velocityInterface
      · obtain ⟨ev1, hrun, hcalls, hflags⟩ := ih hrest
          { s with velocity_interface_running_ := false } ev
        refine ⟨ev1, ?_, ?_, hflags⟩
        · simp only [listLoop, stopBody, hf, hv, velocity_ne_position, if_true, if_false]
          rw [hrun]
          simp [hasKind, hc, hv, velocity_ne_position]
        · simp [hasKind, hc, hp, hcalls]
      · obtain ⟨ev1, hrun, hcalls, hflags⟩ := ih hrest s ev
        refine ⟨ev1, ?_, ?_, hflags⟩
        · simp only [listLoop, stopBody, hf, hp, hv, if_false]
          rw [hrun]
          simp [hasKind, hc, hp, hv]
        · simp [hasKind, hc, hp, hcalls]

/-- The second loop of `doSwitch`: the flags after it, and the driver calls it makes. -/
theorem startLoop_spec (l : List ControllerInfo) (hl : Claiming l) :
    ∀ (s : UrHardwareInterface) (ev : List DriverEvent),
      ∃ ev1, listLoop startBody l (s, ev) = .ok
          ({ s with
              velocity_interface_running_ :=
                s.velocity_interface_running_ || l.any (hasKind velocityInterface)
              position_interface_running_ :=
                s.position_interface_running_ || l.any (hasKind positionInterface) },
            ev ++ ev1) ∧
        ev1.map DriverEvent.call
          = List.replicate (l.countP (hasKind positionInterface)) .uploadProg ∧
        ∀ e, e ∈ ev1 → e.position_running = true := by
  induction l with
  | nil =>
    intro s ev
    refine ⟨[], ?_, rfl, ?_⟩
    · simp [listLoop]
    · intro e he
      simp at he
  | cons c rest ih =>
    intro s ev
    obtain ⟨r, rs, hc, hf⟩ := firstInterface_ok (hl c (List.mem_cons_self _ _))
    have hrest : Claiming rest := fun d hd => hl d (List.mem_cons_of_mem _ hd)
    by_cases hp : r.hardware_interface = positionInterface
    · obtain ⟨ev1, hrun, hcalls, hflags⟩ := ih hrest
        { s with position_interface_running_ := true }
        (ev ++ [⟨.uploadProg, s.velocity_interface_running_, true⟩])
      refine ⟨⟨.uploadProg, s.velocity_interface_running_, true⟩ :: ev1, ?_, ?_, ?_⟩
      · simp only [listLoop, startBody, hf, hp, position_ne_velocity, if_true, if_false,
          observe]
        rw [hrun]
        simp [hasKind, hc, hp, position_ne_velocity]
      · simp [hasKind, hc, hp, hcalls, List.replicate_succ]
      · intro e he
        rcases List.mem_cons.mp he with h1 | h1
        · subst h1; rfl
        · exact hflags e h1
    · by_cases hv : r.hardware_interface = velocityInterface
      · obtain ⟨ev1, hrun, hcalls, hflags⟩ := ih hrest
          { s with velocity_interface_running_ := true } ev
        refine ⟨ev1, ?_, ?_, hflags⟩
        · simp only [listLoop, startBody, hf, hv, velocity_ne_position, if_true, if_false]
          rw [hrun]
          simp [hasKind, hc, hv, velocity_ne_position]
        · simp [hasKind, hc, hp, hcalls]
      · obtain ⟨ev1, hrun, hcalls, hflags⟩ := ih hrest s ev
        refine ⟨ev1, ?_, ?_, hflags⟩
        · simp only [listLoop, startBody, hf, hp, hv, if_false]
          rw [hrun]
          simp [hasKind, hc, hp, hv]
        · simp [hasKind, hc, hp, hcalls]

/-- With every controller claiming a resource, `doSwitch` returns: the flags are those
left by all stops followed by all starts, and the driver sees one `closeServo` per
stopped position controller, then one `uploadProg` per started position controller. -/
theorem doSwitch_spec (s : UrHardwareInterface) (start_list stop_list : List ControllerInfo)
    (hstart : Claiming start_list) (hstop : Claiming stop_list) :
    ∃ ev1 ev2, s.doSwitch start_list stop_list = .ok
        ({ s with
            velocity_interface_running_ :=
              (s.velocity_interface_running_ && !stop_list.any (hasKind velocityInterface))
                || start_list.any (hasKind velocityInterface)
            position_interface_running_ :=
              (s.position_interface_running_ && !stop_list.any (hasKind positionInterface))
                || start_list.any (hasKind positionInterface) },
          ev1 ++ ev2) ∧
      ev1.map DriverEvent.call
        = List.replicate (stop_list.countP (hasKind positionInterface)) (.closeServo []) ∧
      ev2.map DriverEvent.call
        = List.replicate (start_list.countP (hasKind positionInterface)) .uploadProg ∧
      (∀ e, e ∈ ev1 → e.position_running = false) ∧
      (∀ e, e ∈ ev2 → e.position_running = true) := by
  obtain ⟨ev1, hrun1, hc1, hf1⟩ := stopLoop_spec stop_list hstop s []
  obtain ⟨ev2, hrun2, hc2, hf2⟩ := startLoop_spec start_list hstart
    { s with
      velocity_interface_running_ :=
        s.velocity_interface_running_ && !stop_list.any (hasKind velocityInterface)
      position_interface_running_ :=
        s.position_interface_running_ && !stop_list.any (hasKind positionInterface) }
    ([] ++ ev1)
  refine ⟨ev1, ev2, ?_, hc1, hc2, hf1, hf2⟩
  unfold doSwitch
  rw [hrun1]
  simp only []
  rw [hrun2]
  simp

theorem flagsOnly_refl (a : UrHardwareInterface) : a.FlagsOnly a := rfl

theorem flagsOnly_trans (a b c : UrHardwareInterface) (h1 : a.FlagsOnly b)
    (h2 : b.FlagsOnly c) : a.FlagsOnly c := by
  unfold FlagsOnly at *
  rw [h2, h1]

theorem stopBody_frame (c : ControllerInfo) (a b : UrHardwareInterface × List DriverEvent)
    (h : stopBody a c = .ok b) : a.1.FlagsOnly b.1 := by
  unfold stopBody at h
  split at h
  · simp at h
  · simp only [] at h
    split_ifs at h <;>
      (simp only [Except.ok.injEq] at h; subst h; rfl)

theorem startBody_frame (c : ControllerInfo) (a b : UrHardwareInterface × List DriverEvent)
    (h : startBody a c = .ok b) : a.1.FlagsOnly b.1 := by
  unfold startBody at h
  split at h
  · simp at h
  · simp only [] at h
    split_ifs at h <;>
      (simp only [Except.ok.injEq] at h; subst h; rfl)

/-- A returning `doSwitch` changes nothing but the two mode flags. -/
theorem doSwitch_frame {s s1 : UrHardwareInterface} {start_list stop_list : List ControllerInfo}
    {ev : List DriverEvent} (h : s.doSwitch start_list stop_list = .ok (s1, ev)) :
    s.FlagsOnly s1 := by
  unfold doSwitch at h
  split at h
  · simp at h
  · rename_i st e1
    exact flagsOnly_trans _ _ _
      (listLoop_rel (fun a b => a.1.FlagsOnly b.1) (fun a => flagsOnly_refl a.1)
        (fun a b c => flagsOnly_trans a.1 b.1 c.1) _ stopBody_frame _ _ _ e1)
      (listLoop_rel (fun a b => a.1.FlagsOnly b.1) (fun a => flagsOnly_refl a.1)
        (fun a b c => flagsOnly_trans a.1 b.1 c.1) _ startBody_frame _ _ _ h)

/-- The scan of the stop list ends with `error` cleared exactly when some stopped
controller is of the kind looked for. -/
theorem stopScan_spec (kind : String) (l : List ControllerInfo) (hl : Claiming l) :
    stopScan kind l = .ok (!l.any (hasKind kind)) := by
  induction l with
  | nil => rfl
  | cons c rest ih =>
    obtain ⟨r, rs, hc, hf⟩ := firstInterface_ok (hl c (List.mem_cons_self _ _))
    have hrest : Claiming rest := fun d hd => hl d (List.mem_cons_of_mem _ hd)
    by_cases hk : r.hardware_interface = kind
    · simp [stopScan, hf, hk, hasKind, hc]
    · simp [stopScan, hf, hk, hasKind, hc, ih hrest]

/-- The test `canSwitch` applies to one started controller, as a boolean. -/
theorem canSwitchBody_spec (s : UrHardwareInterface) (stop_list : List ControllerInfo)
    (hstop : Claiming stop_list) (c : ControllerInfo) (hc : c.claimed_resources ≠ []) :
    canSwitchBody s stop_list c = .ok (startAllowed s stop_list c) := by
  obtain ⟨r, rs, hcr, hf⟩ := firstInterface_ok hc
  unfold canSwitchBody startAllowed
  rw [hf]
  simp only [stopScan_spec _ _ hstop]
  by_cases hv : r.hardware_interface = velocityInterface
  · cases s.velocity_interface_running_ <;> cases s.position_interface_running_ <;>
      cases stop_list.any (hasKind positionInterface) <;>
      simp [hv, hasKind, hcr, velocity_ne_position]
  · by_cases hp : r.hardware_interface = positionInterface
    · cases s.velocity_interface_running_ <;> cases s.position_interface_running_ <;>
        cases stop_list.any (hasKind velocityInterface) <;>
        simp [hp, hasKind, hcr, position_ne_velocity]
    · simp [hv, hp, hasKind, hcr]

/-- With every controller claiming a resource, `canSwitch` returns the conjunction of
the per-controller tests. -/
theorem canSwitch_all (s : UrHardwareInterface) (start_list stop_list : List ControllerInfo)
    (hstart : Claiming start_list) (hstop : Claiming stop_list) :
    s.canSwitch start_list stop_list = .ok (start_list.all (startAllowed s stop_list)) := by
  induction start_list with
  | nil => rfl
  | cons c rest ih =>
    have hrest : Claiming rest := fun d hd => hstart d (List.mem_cons_of_mem _ hd)
    unfold canSwitch
    rw [canSwitchBody_spec s stop_list hstop c (hstart c (List.mem_cons_self _ _))]
    cases hb : startAllowed s stop_list c with
    | false => simp [List.all_cons, hb]
    | true => simp [List.all_cons, hb, ih hrest]

theorem claiming_velocityController : Claiming [velocityController] := by
  intro c hc
  simp only [List.mem_singleton] at hc
  subst hc
  simp [velocityController]

theorem claiming_positionController : Claiming [positionController] := by
  intro c hc
  simp only [List.mem_singleton] at hc
  subst hc
  simp [positionController]

theorem hasKind_claims {kind : String} {c : ControllerInfo} (h : hasKind kind c = true) :
    ∃ r rs, c.claimed_resources = r :: rs ∧ r.hardware_interface = kind := by
  unfold hasKind at h
  split at h
  · exact absurd h (by decide)
  · rename_i r rs hc
    exact ⟨r, rs, hc, of_decide_eq_true h⟩

theorem hasKind_velocity_not_position {c : ControllerInfo}
    (h : hasKind velocityInterface c = true) : hasKind positionInterface c = false := by
  obtain ⟨r, rs, hc, hk⟩ := hasKind_claims h
  simp [hasKind, hc, hk, velocity_ne_position]

theorem hasKind_position_not_velocity {c : ControllerInfo}
    (h : hasKind positionInterface c = true) : hasKind velocityInterface c = false := by
  obtain ⟨r, rs, hc, hk⟩ := hasKind_claims h
  simp [hasKind, hc, hk, position_ne_velocity]

/-- Invariant of the joint loop of `read()`: run from index `i`, it leaves the entries
below `i` alone and stores the filtered sample at every index from `i` on. -/
theorem readJointLoop_spec (s : UrHardwareInterface) (n : Nat) (pos vel current : List Dbl)
    (hpos : n ≤ pos.length) (hvel : n ≤ vel.length) (hcur : n ≤ current.length) :
    ∀ (k i : Nat) (ps vs es : List Dbl), i + k = n →
      ps.length = n → vs.length = n → es.length = n →
      ∃ ps1 vs1 es1,
        forLoop (readJointBody pos vel current) k i
            { s with joint_position_ := ps, joint_velocity_ := vs, joint_effort_ := es }
          = .ok { s with joint_position_ := ps1, joint_velocity_ := vs1,
                         joint_effort_ := es1 } ∧
        ps1.length = n ∧ vs1.length = n ∧ es1.length = n ∧
        (∀ j, j < i → ps1.getD j 0 = ps.getD j 0 ∧ vs1.getD j 0 = vs.getD j 0 ∧
          es1.getD j 0 = es.getD j 0) ∧
        (∀ j, i ≤ j → j < n →
          ps1.getD j 0 = specFilter s.low_pass_filter s.pos_alpha (pos.getD j 0) (ps.getD j 0) ∧
          vs1.getD j 0 = specFilter s.low_pass_filter s.vel_alpha (vel.getD j 0) (vs.getD j 0) ∧
          es1.getD j 0
            = specFilter s.low_pass_filter s.eff_alpha (current.getD j 0) (es.getD j 0)) := by
  intro k
  induction k with
  | zero =>
    intro i ps vs es hik hp hv he
    refine ⟨ps, vs, es, rfl, hp, hv, he, fun j _ => ⟨rfl, rfl, rfl⟩, ?_⟩
    intro j h1 h2
    omega
  | succ k ih =>
    intro i ps vs es hik hp hv he
    obtain ⟨ps1, vs1, es1, hrun, hp1, hv1, he1, hlow, hhigh⟩ :=
      ih (i + 1)
        (ps.set i (specFilter s.low_pass_filter s.pos_alpha (pos.getD i 0) (ps.getD i 0)))
        (vs.set i (specFilter s.low_pass_filter s.vel_alpha (vel.getD i 0) (vs.getD i 0)))
        (es.set i (specFilter s.low_pass_filter s.eff_alpha (current.getD i 0) (es.getD i 0)))
        (by omega) (by simpa using hp) (by simpa using hv) (by simpa using he)
    refine ⟨ps1, vs1, es1, ?_, hp1, hv1, he1, ?_, ?_⟩
    · have e1 : vget pos i = .ok (pos.getD i 0) := vget_ok (by omega)
      have e2 : vget vel i = .ok (vel.getD i 0) := vget_ok (by omega)
      have e3 : vget current i = .ok (current.getD i 0) := vget_ok (by omega)
      have e4 : vget ps i = .ok (ps.getD i 0) := vget_ok (by omega)
      have e5 : vget vs i = .ok (vs.getD i 0) := vget_ok (by omega)
      have e6 : vget es i = .ok (es.getD i 0) := vget_ok (by omega)
      cases hf : s.low_pass_filter with
      | true =>
        simp only [hf, specFilter, if_true] at hrun
        simp only [forLoop, readJointBody, e1, e2, e3, e4, e5, e6, hf, if_true, blend,
          vset_ok _ (show i < ps.length by omega), vset_ok _ (show i < vs.length by omega),
          vset_ok _ (show i < es.length by omega)]
        exact hrun
      | false =>
        simp only [hf, specFilter, Bool.false_eq_true, if_false] at hrun
        simp only [forLoop, readJointBody, e1, e2, e3, hf, Bool.false_eq_true, if_false,
          vset_ok _ (show i < ps.length by omega), vset_ok _ (show i < vs.length by omega),
          vset_ok _ (show i < es.length by omega)]
        exact hrun
    · intro j hji
      have h := hlow j (by omega)
      rw [getD_set_other _ (by omega), getD_set_other _ (by omega),
        getD_set_other _ (by omega)] at h
      exact h
    · intro j hij hjn
      by_cases hEq : j = i
      · subst hEq
        have h := hlow j (by omega)
        rw [getD_set_same _ (by omega), getD_set_same _ (by omega),
          getD_set_same _ (by omega)] at h
        exact h
      · have h := hhigh j (by omega) hjn
        rw [getD_set_other _ (by omega), getD_set_other _ (by omega),
          getD_set_other _ (by omega)] at h
        exact h

/-- Invariant of the wrench loop of `read()`. -/
theorem readWrenchLoop_spec (s : UrHardwareInterface) (tcp : List Dbl) (htcp : 6 ≤ tcp.length) :
    ∀ (k i : Nat) (fs ts : List Dbl), i + k = 3 → fs.length = 3 → ts.length = 3 →
      ∃ fs1 ts1,
        forLoop (readWrenchBody tcp) k i { s with robot_force_ := fs, robot_torque_ := ts }
          = .ok { s with robot_force_ := fs1, robot_torque_ := ts1 } ∧
        fs1.length = 3 ∧ ts1.length = 3 ∧
        (∀ j, j < i → fs1.getD j 0 = fs.getD j 0 ∧ ts1.getD j 0 = ts.getD j 0) ∧
        (∀ j, i ≤ j → j < 3 →
          fs1.getD j 0 = specFilter s.low_pass_filter s.frc_alpha (tcp.getD j 0) (fs.getD j 0) ∧
          ts1.getD j 0
            = specFilter s.low_pass_filter s.trq_alpha (tcp.getD (j + 3) 0) (ts.getD j 0)) := by
  intro k
  induction k with
  | zero =>
    intro i fs ts hik hf ht
    refine ⟨fs, ts, rfl, hf, ht, fun j _ => ⟨rfl, rfl⟩, ?_⟩
    intro j h1 h2
    omega
  | succ k ih =>
    intro i fs ts hik hf ht
    obtain ⟨fs1, ts1, hrun, hf1, ht1, hlow, hhigh⟩ :=
      ih (i + 1)
        (fs.set i (specFilter s.low_pass_filter s.frc_alpha (tcp.getD i 0) (fs.getD i 0)))
        (ts.set i (specFilter s.low_pass_filter s.trq_alpha (tcp.getD (i + 3) 0) (ts.getD i 0)))
        (by omega) (by simpa using hf) (by simpa using ht)
    refine ⟨fs1, ts1, ?_, hf1, ht1, ?_, ?_⟩
    · have e1 : vget tcp i = .ok (tcp.getD i 0) := vget_ok (by omega)
      have e2 : vget tcp (i + 3) = .ok (tcp.getD (i + 3) 0) := vget_ok (by omega)
      have e3 : vget fs i = .ok (fs.getD i 0) := vget_ok (by omega)
      have e4 : vget ts i = .ok (ts.getD i 0) := vget_ok (by omega)
      cases hflag : s.low_pass_filter with
      | true =>
        simp only [hflag, specFilter, if_true] at hrun
        simp only [forLoop, readWrenchBody, e1, e2, e3, e4, hflag, if_true, blend,
          vset_ok _ (show i < fs.length by omega), vset_ok _ (show i < ts.length by omega)]
        exact hrun
      | false =>
        simp only [hflag, specFilter, Bool.false_eq_true, if_false] at hrun
        simp only [forLoop, readWrenchBody, e1, e2, hflag, Bool.false_eq_true, if_false,
          vset_ok _ (show i < fs.length by omega), vset_ok _ (show i < ts.length by omega)]
        exact hrun
    · intro j hji
      have h := hlow j (by omega)
      rw [getD_set_other _ (by omega), getD_set_other _ (by omega)] at h
      exact h
    · intro j hij hjn
      by_cases hEq : j = i
      · subst hEq
        have h := hlow j (by omega)
        rw [getD_set_same _ (by omega), getD_set_same _ (by omega)] at h
        exact h
      · have h := hhigh j (by omega) hjn
        rw [getD_set_other _ (by omega), getD_set_other _ (by omega)] at h
        exact h

/-- With the driver delivering enough values, `read()` returns and every sensed element
is the filter applied to the raw sample and the old value at the same index. -/
theorem read_spec (s : UrHardwareInterface) (pos vel current tcp : List Dbl)
    (hs : s.Sized) (hw : s.WrenchSized) (hpos : s.num_joints_ ≤ pos.length)
    (hvel : s.num_joints_ ≤ vel.length) (hcur : s.num_joints_ ≤ current.length)
    (htcp : 6 ≤ tcp.length) :
    ∃ ps vs es fs ts,
      s.read pos vel current tcp = .ok
        { s with joint_position_ := ps, joint_velocity_ := vs, joint_effort_ := es,
                 robot_force_ := fs, robot_torque_ := ts } ∧
      (∀ j, j < s.num_joints_ →
        ps.getD j 0
          = specFilter s.low_pass_filter s.pos_alpha (pos.getD j 0) (s.joint_position_.getD j 0) ∧
        vs.getD j 0
          = specFilter s.low_pass_filter s.vel_alpha (vel.getD j 0) (s.joint_velocity_.getD j 0) ∧
        es.getD j 0
          = specFilter s.low_pass_filter s.eff_alpha (current.getD j 0)
              (s.joint_effort_.getD j 0)) ∧
      (∀ j, j < 3 →
        fs.getD j 0
          = specFilter s.low_pass_filter s.frc_alpha (tcp.getD j 0) (s.robot_force_.getD j 0) ∧
        ts.getD j 0
          = specFilter s.low_pass_filter s.trq_alpha (tcp.getD (j + 3) 0)
              (s.robot_torque_.getD j 0)) := by
  obtain ⟨ps, vs, es, hrun1, _, _, _, _, hj⟩ :=
    readJointLoop_spec s s.num_joints_ pos vel current hpos hvel hcur s.num_joints_ 0
      s.joint_position_ s.joint_velocity_ s.joint_effort_ (by omega)
      hs.position hs.velocity hs.effort
  obtain ⟨fs, ts, hrun2, _, _, _, hk⟩ :=
    readWrenchLoop_spec
      { s with joint_position_ := ps, joint_velocity_ := vs, joint_effort_ := es }
      tcp htcp 3 0 s.robot_force_ s.robot_torque_ (by omega) hw.force hw.torque
  refine ⟨ps, vs, es, fs, ts, ?_, fun j hjn => hj j (Nat.zero_le j) hjn,
    fun j hjn => hk j (Nat.zero_le j) hjn⟩
  unfold read
  have hrun1a : forLoop (readJointBody pos vel current) s.num_joints_ 0 s
      = .ok { s with joint_position_ := ps, joint_velocity_ := vs, joint_effort_ := es } :=
    hrun1
  rw [hrun1a]
  exact hrun2

theorem specFilter_on (alpha raw old : Dbl) : specFilter true alpha raw old = blend alpha raw old :=
  rfl

theorem filteringState_sized : filteringState.Sized :=
  ⟨rfl, rfl, rfl, rfl, rfl, rfl, rfl⟩

theorem filteringState_wrenchSized : filteringState.WrenchSized :=
  ⟨rfl, rfl⟩

theorem zeroAlphaState_sized : zeroAlphaState.Sized :=
  ⟨rfl, rfl, rfl, rfl, rfl, rfl, rfl⟩

theorem zeroAlphaState_wrenchSized : zeroAlphaState.WrenchSized :=
  ⟨rfl, rfl⟩

theorem vget_ok_lt {v : List Dbl} {i : Nat} {x : Dbl} (h : vget v i = .ok x) : i < v.length := by
  unfold vget at h
  split at h
  · rename_i y hy
    by_contra hc
    rw [List.getElem?_eq_none (Nat.le_of_not_lt hc)] at hy
    simp at hy
  · simp at h

/-- A loop that returns has passed every index of its range through a returning body. -/
theorem forLoop_ok_good {σ : Type} (body : Nat → σ → Except Fault σ) (Good : Nat → Prop)
    (hbody : ∀ i a b, body i a = .ok b → Good i) :
    ∀ (k i : Nat) (a b : σ), forLoop body k i a = .ok b → ∀ j, i ≤ j → j < i + k → Good j := by
  intro k
  induction k with
  | zero =>
    intro i a b _ j h1 h2
    omega
  | succ k ih =>
    intro i a b h j h1 h2
    simp only [forLoop] at h
    split at h
    · rename_i a1 e1
      by_cases hji : j = i
      · subst hji
        exact hbody j a a1 e1
      · exact ih (i + 1) a1 b h j (by omega) (by omega)
    · simp at h

/-- A loop whose body can only fail with an out-of-range access can only fail so. -/
theorem forLoop_error_kind {σ : Type} (body : Nat → σ → Except Fault σ)
    (hbody : ∀ i a e, body i a = .error e → e = .undefinedAccess) :
    ∀ (k i : Nat) (a : σ) (e : Fault), forLoop body k i a = .error e → e = .undefinedAccess := by
  intro k
  induction k with
  | zero =>
    intro i a e h
    simp [forLoop] at h
  | succ k ih =>
    intro i a e h
    simp only [forLoop] at h
    split at h
    · rename_i a1 e1
      exact ih (i + 1) a1 e h
    · rename_i e1 he1
      simp only [Except.error.injEq] at h
      subst h
      exact hbody i a _ he1

theorem readJointBody_good (pos vel current : List Dbl) (i : Nat) (a b : UrHardwareInterface)
    (h : readJointBody pos vel current i a = .ok b) :
    i < pos.length ∧ i < vel.length ∧ i < current.length := by
  unfold readJointBody at h
  split at h
  · rename_i e1 e2 e3
    exact ⟨vget_ok_lt e1, vget_ok_lt e2, vget_ok_lt e3⟩
  · simp at h

theorem readWrenchBody_good (tcp : List Dbl) (i : Nat) (a b : UrHardwareInterface)
    (h : readWrenchBody tcp i a = .ok b) : i + 3 < tcp.length := by
  unfold readWrenchBody at h
  split at h
  · rename_i e1 e2
    exact vget_ok_lt e2
  · simp at h

theorem readJointBody_error (pos vel current : List Dbl) (i : Nat) (a : UrHardwareInterface)
    (e : Fault) (h : readJointBody pos vel current i a = .error e) : e = .undefinedAccess := by
  unfold readJointBody at h
  split at h
  · split_ifs at h
    · split at h
      · split at h
        · simp at h
        · simp only [Except.error.injEq] at h; exact h.symm
      · simp only [Except.error.injEq] at h; exact h.symm
    · split at h
      · simp at h
      · simp only [Except.error.injEq] at h; exact h.symm
  · simp only [Except.error.injEq] at h; exact h.symm

theorem readWrenchBody_error (tcp : List Dbl) (i : Nat) (a : UrHardwareInterface)
    (e : Fault) (h : readWrenchBody tcp i a = .error e) : e = .undefinedAccess := by
  unfold readWrenchBody at h
  split at h
  · split_ifs at h
    · split at h
      · split at h
        · simp at h
        · simp only [Except.error.injEq] at h; exact h.symm
      · simp only [Except.error.injEq] at h; exact h.symm
    · split at h
      · simp at h
      · simp only [Except.error.injEq] at h; exact h.symm
  · simp only [Except.error.injEq] at h; exact h.symm

/-- A returning `read()` has found enough values in every vector of the driver. -/
theorem read_ok_delivered {s s1 : UrHardwareInterface} {pos vel current tcp : List Dbl}
    (h : s.read pos vel current tcp = .ok s1) :
    s.num_joints_ ≤ pos.length ∧ s.num_joints_ ≤ vel.length ∧
      s.num_joints_ ≤ current.length ∧ 6 ≤ tcp.length := by
  unfold read at h
  split at h
  · simp at h
  · rename_i s2 e2
    have hg := forLoop_ok_good _ _ (readJointBody_good pos vel current) _ _ _ _ e2
    have hw := forLoop_ok_good _ (fun i => i + 3 < tcp.length) (readWrenchBody_good tcp)
      _ _ _ _ h 2 (by omega) (by omega)
    refine ⟨?_, ?_, ?_, by omega⟩
    · by_contra hc
      have := (hg (s.num_joints_ - 1) (by omega) (by omega)).1
      omega
    · by_contra hc
      have := (hg (s.num_joints_ - 1) (by omega) (by omega)).2.1
      omega
    · by_contra hc
      have := (hg (s.num_joints_ - 1) (by omega) (by omega)).2.2
      omega

/-- The only way `read()` fails is an out-of-range access. -/
theorem read_error_kind {s : UrHardwareInterface} {pos vel current tcp : List Dbl} {e : Fault}
    (h : s.read pos vel current tcp = .error e) : e = .undefinedAccess := by
  unfold read at h
  split at h
  · rename_i e1 he1
    simp only [Except.error.injEq] at h
    subst h
    exact forLoop_error_kind _ (readJointBody_error pos vel current) _ _ _ _ he1
  · exact forLoop_error_kind _ (readWrenchBody_error tcp) _ _ _ _ h

/-- Consecutive velocity-mode `write()` calls with nothing in between: they all return,
the command side of the object stays as it is, and each previous command is the limiter
iterated on the initial one. -/
theorem writes_spec (k : Nat) :
    ∀ (s : UrHardwareInterface), s.Sized → 6 ≤ s.num_joints_ →
      s.velocity_interface_running_ = true →
      ∃ sk, s.run (List.replicate k HostOp.write) = .ok sk ∧ sk.Sized ∧
        sk.num_joints_ = s.num_joints_ ∧ sk.velocity_interface_running_ = true ∧
        sk.joint_velocity_command_ = s.joint_velocity_command_ ∧
        sk.joint_velocity_limits_ = s.joint_velocity_limits_ ∧
        sk.max_vel_change_ = s.max_vel_change_ ∧
        ∀ i, i < s.num_joints_ →
          sk.prev_joint_velocity_command_.getD i 0
            = (fun x => limitVelocity (s.joint_velocity_command_.getD i 0) x s.max_vel_change_
                (s.joint_velocity_limits_.getD i 0))^[k]
                (s.prev_joint_velocity_command_.getD i 0) := by
  induction k with
  | zero =>
    intro s hs _ hv
    exact ⟨s, rfl, hs, rfl, hv, rfl, rfl, rfl, fun i _ => rfl⟩
  | succ k ih =>
    intro s hs h6 hv
    obtain ⟨cmd, _, hw, hlen, hval⟩ := write_velocity s hs h6 hv
    obtain ⟨sk, hrun, hsk, hn, hvk, hj, hl, hm, hp⟩ :=
      ih { s with prev_joint_velocity_command_ := cmd }
        ⟨hs.position, hs.velocity, hs.effort, hs.positionCommand, hs.velocityCommand, hlen,
          hs.limits⟩ h6 hv
    refine ⟨sk, ?_, hsk, hn, hvk, hj, hl, hm, ?_⟩
    · simp only [List.replicate_succ, run, step, hw]
      exact hrun
    · intro i hi
      rw [Function.iterate_succ_apply, ← hval i hi]
      exact hp i hi

theorem setLimit_eq {i : Nat} (deg : Dbl) {s : UrHardwareInterface}
    (h : i < s.joint_velocity_limits_.length) :
    setLimit i deg s = .ok
      { s with
        joint_velocity_limits_ :=
          s.joint_velocity_limits_.set i (s.vel_limit_alpha * deg * M_PI / 180) } := by
  simp [setLimit, vset, h]

/-- With at least six joint names `init()` returns. -/
theorem init_ok (boot : UrHardwareInterface) (joints : List String) (h6 : 6 ≤ joints.length) :
    ∃ s0, boot.init joints = .ok s0 := by
  obtain ⟨prevs1, lims1, hrun, _, hl1, _, _⟩ :=
    initLoop_spec
      { boot with
        joint_names_ := joints
        num_joints_ := joints.length
        joint_position_ := resize boot.joint_position_ joints.length
        joint_velocity_ := resize boot.joint_velocity_ joints.length
        joint_effort_ := resize boot.joint_effort_ joints.length
        joint_position_command_ := resize boot.joint_position_command_ joints.length
        joint_velocity_command_ := resize boot.joint_velocity_command_ joints.length }
      joints.length joints.length 0
      (resize boot.prev_joint_velocity_command_ joints.length)
      (resize boot.joint_velocity_limits_ joints.length) (by omega)
      (length_resize _ _) (length_resize _ _)
  simp only [] at hrun
  have h0 : ¬ joints.length = 0 := by omega
  unfold init
  simp only [h0, if_false]
  rw [hrun]
  simp only []
  rw [setLimit_eq 131 (show 0 < _ by simp only []; omega)]
  simp only []
  rw [setLimit_eq 131 (show 1 < _ by simp only [List.length_set]; omega)]
  simp only []
  rw [setLimit_eq 191 (show 2 < _ by simp only [List.length_set]; omega)]
  simp only []
  rw [setLimit_eq 191 (show 3 < _ by simp only [List.length_set]; omega)]
  simp only []
  rw [setLimit_eq 191 (show 4 < _ by simp only [List.length_set]; omega)]
  simp only []
  rw [setLimit_eq 191 (show 5 < _ by simp only [List.length_set]; omega)]
  exact ⟨_, rfl⟩

theorem listLoop_ok_good {σ : Type} (body : σ → ControllerInfo → Except Fault σ)
    (Good : ControllerInfo → Prop) (hbody : ∀ c a b, body a c = .ok b → Good c) :
    ∀ (l : List ControllerInfo) (a b : σ), listLoop body l a = .ok b → ∀ c, c ∈ l → Good c := by
  intro l
  induction l with
  | nil =>
    intro a b _ c hc
    simp at hc
  | cons d rest ih =>
    intro a b h c hc
    simp only [listLoop] at h
    split at h
    · simp at h
    · rename_i a1 e1
      rcases List.mem_cons.mp hc with h1 | h1
      · subst h1
        exact hbody c a a1 e1
      · exact ih a1 b h c h1

theorem firstInterface_claims {c : ControllerInfo} {h : String}
    (hf : firstInterface c = .ok h) : c.claimed_resources ≠ [] := by
  unfold firstInterface at hf
  split at hf
  · simp at hf
  · rename_i r rs hc
    rw [hc]
    simp

theorem stopBody_good (c : ControllerInfo) (a b : UrHardwareInterface × List DriverEvent)
    (h : stopBody a c = .ok b) : c.claimed_resources ≠ [] := by
  unfold stopBody at h
  split at h
  · simp at h
  · rename_i x hx
    exact firstInterface_claims hx

theorem startBody_good (c : ControllerInfo) (a b : UrHardwareInterface × List DriverEvent)
    (h : startBody a c = .ok b) : c.claimed_resources ≠ [] := by
  unfold startBody at h
  split at h
  · simp at h
  · rename_i x hx
    exact firstInterface_claims hx

/-- A returning `doSwitch` has found a first claimed resource in every controller. -/
theorem doSwitch_ok_claiming {s : UrHardwareInterface}
    {start_list stop_list : List ControllerInfo} {st : UrHardwareInterface × List DriverEvent}
    (h : s.doSwitch start_list stop_list = .ok st) :
    Claiming start_list ∧ Claiming stop_list := by
  unfold doSwitch at h
  split at h
  · simp at h
  · rename_i st1 e1
    exact ⟨listLoop_ok_good _ _ startBody_good _ _ _ h,
      listLoop_ok_good _ _ stopBody_good _ _ _ e1⟩

/-- One accepted switch with a start list of a single kind keeps the two modes
exclusive. -/
theorem guarded_switch_keeps_exclusion {s : UrHardwareInterface}
    {start_list stop_list : List ControllerInfo} {st : UrHardwareInterface × List DriverEvent}
    (hinv : ¬ (s.velocity_interface_running_ = true ∧ s.position_interface_running_ = true))
    (hsingle : ¬ (start_list.any (hasKind velocityInterface) = true ∧
      start_list.any (hasKind positionInterface) = true))
    (hcan : s.canSwitch start_list stop_list = .ok true)
    (hdo : s.doSwitch start_list stop_list = .ok st) :
    ¬ (st.1.velocity_interface_running_ = true ∧ st.1.position_interface_running_ = true) := by
  obtain ⟨hstart, hstop⟩ := doSwitch_ok_claiming hdo
  rw [canSwitch_all s start_list stop_list hstart hstop] at hcan
  simp only [Except.ok.injEq, List.all_eq_true] at hcan
  obtain ⟨ev1, ev2, hrun, _⟩ := doSwitch_spec s start_list stop_list hstart hstop
  rw [hrun] at hdo
  simp only [Except.ok.injEq] at hdo
  subst hdo
  have hV : start_list.any (hasKind velocityInterface) = true →
      s.velocity_interface_running_ = false ∧
        (s.position_interface_running_ = true →
          stop_list.any (hasKind positionInterface) = true) := by
    intro h
    obtain ⟨c, hc, hk⟩ := List.any_eq_true.mp h
    have := hcan c hc
    simp only [startAllowed, hk, hasKind_velocity_not_position hk] at this
    revert this
    cases s.velocity_interface_running_ <;> cases s.position_interface_running_ <;>
      cases stop_list.any (hasKind positionInterface) <;> simp
  have hP : start_list.any (hasKind positionInterface) = true →
      s.position_interface_running_ = false ∧
        (s.velocity_interface_running_ = true →
          stop_list.any (hasKind velocityInterface) = true) := by
    intro h
    obtain ⟨c, hc, hk⟩ := List.any_eq_true.mp h
    have := hcan c hc
    simp only [startAllowed, hk, hasKind_position_not_velocity hk] at this
    revert this
    cases s.velocity_interface_running_ <;> cases s.position_interface_running_ <;>
      cases stop_list.any (hasKind velocityInterface) <;> simp
  show ¬ (((s.velocity_interface_running_ && !stop_list.any (hasKind velocityInterface))
        || start_list.any (hasKind velocityInterface)) = true ∧
      ((s.position_interface_running_ && !stop_list.any (hasKind positionInterface))
        || start_list.any (hasKind positionInterface)) = true)
  revert hinv hsingle hV hP
  cases s.velocity_interface_running_ <;> cases s.position_interface_running_ <;>
    cases start_list.any (hasKind velocityInterface) <;>
    cases start_list.any (hasKind positionInterface) <;>
    cases stop_list.any (hasKind velocityInterface) <;>
    cases stop_list.any (hasKind positionInterface) <;> simp

/-- The host's protocol keeps the two modes exclusive over any sequence of requests
with single-kind start lists. -/
theorem switchRun_inv (reqs : List (List ControllerInfo × List ControllerInfo)) :
    ∀ (s0 s : UrHardwareInterface),
      ¬ (s0.velocity_interface_running_ = true ∧ s0.position_interface_running_ = true) →
      (∀ req, req ∈ reqs →
        ¬ (req.1.any (hasKind velocityInterface) = true ∧
          req.1.any (hasKind positionInterface) = true)) →
      s0.switchRun reqs = .ok s →
      ¬ (s.velocity_interface_running_ = true ∧ s.position_interface_running_ = true) := by
  induction reqs with
  | nil =>
    intro s0 s hinv0 _ hrun
    simp only [switchRun, Except.ok.injEq] at hrun
    subst hrun
    exact hinv0
  | cons req rest ih =>
    intro s0 s hinv0 hsingle hrun
    have hrest : ∀ r, r ∈ rest →
        ¬ (r.1.any (hasKind velocityInterface) = true ∧
          r.1.any (hasKind positionInterface) = true) :=
      fun r hr => hsingle r (List.mem_cons_of_mem _ hr)
    simp only [switchRun] at hrun
    split at hrun
    · simp at hrun
    · exact ih s0 s hinv0 hrest hrun
    · rename_i hcan
      split at hrun
      · simp at hrun
      · rename_i st hdo
        exact ih st.1 s
          (guarded_switch_keeps_exclusion hinv0 (hsingle req (List.mem_cons_self _ _))
            hcan hdo) hrest hrun

theorem demoSwitches_single_kind :
    ∀ req, req ∈ demoSwitches →
      ¬ (req.1.any (hasKind velocityInterface) = true ∧
        req.1.any (hasKind positionInterface) = true) := by
  decide

/-! ## The two if-chains of the limiter -/

/-- A NaN command passes both if-chains. -/
theorem limitVelocity_nan (p m l : Dbl) : limitVelocity nan p m l = nan := by
  simp [limitVelocity]

/-- The first if-chain never produces a NaN from a command that is not one. -/
theorem slew_ne_nan {d lo hi : Dbl} (hd : d ≠ nan) :
    (if d > hi then hi else if d < lo then lo else d) ≠ nan := by
  split_ifs with h1 h2
  · exact ne_nan_of_lt_left h1
  · exact ne_nan_of_lt_right h2
  · exact hd

/-- The second if-chain keeps a value that is not NaN inside `[-limit, limit]`. -/
theorem hard_bound {c l : Dbl} (hc : c ≠ nan) (hl : (0 : Dbl) ≤ l) :
    -l ≤ (if c > l then l else if c < -l then -l else c) ∧
      (if c > l then l else if c < -l then -l else c) ≤ l := by
  rw [zero_eq] at hl
  cases c <;> cases l <;> simp at hc hl ⊢
  all_goals first
    | exact hl
    | (split_ifs <;> simp <;> (try constructor) <;> linarith)

/-- The hard clamp of lines 299-303 keeps a command that is not NaN inside
`[-limit, limit]`. -/
theorem limitVelocity_bound (desired prev max_vel_change limit : Dbl)
    (hd : desired ≠ nan) (h : (0 : Dbl) ≤ limit) :
    -limit ≤ limitVelocity desired prev max_vel_change limit ∧
      limitVelocity desired prev max_vel_change limit ≤ limit := by
  unfold limitVelocity
  exact hard_bound (slew_ne_nan hd) h

/-- An if-chain of the limiter is the clamp of the specification when the value is not
a NaN and the lower bound is not above the upper one. -/
theorem ifChain_eq_clamp {x lo hi : Dbl} (hx : x ≠ nan) (h : lo ≤ hi) :
    (if x > hi then hi else if x < lo then lo else x) = clamp x lo hi := by
  unfold clamp Dbl.max Dbl.min
  cases x <;> cases lo <;> cases hi <;> simp at hx h ⊢ <;> (try split_ifs) <;>
    (try simp_all) <;> (try linarith)

/-- Between its bounds: the first if-chain of the limiter. -/
theorem ifChain_between {x lo hi : Dbl} (hx : x ≠ nan) (h : lo ≤ hi) :
    lo ≤ (if x > hi then hi else if x < lo then lo else x) ∧
      (if x > hi then hi else if x < lo then lo else x) ≤ hi := by
  cases x <;> cases lo <;> cases hi <;> simp at hx h ⊢ <;> (try split_ifs) <;>
    (try simp_all)

/-- The second if-chain keeps a value between two bounds that the hard bound contains. -/
theorem hard_between {c lo hi l : Dbl} (h1 : lo ≤ c) (h2 : c ≤ hi) (h3 : lo ≤ l)
    (h4 : -l ≤ hi) :
    lo ≤ (if c > l then l else if c < -l then -l else c) ∧
      (if c > l then l else if c < -l then -l else c) ≤ hi := by
  cases c <;> cases lo <;> cases hi <;> cases l <;> simp at h1 h2 h3 h4 ⊢ <;>
    (try split_ifs) <;> (try simp_all) <;> (try linarith)

/-- For a desired and a previous command that are not NaN, a finite non-negative step
and a non-negative limit, the if-chains of `write()` are the two clamps. -/
theorem limitVelocity_eq_specLimiter (desired prev maxStep limit : Dbl)
    (hd : desired ≠ nan) (hp : prev ≠ nan) (hm : (0 : Dbl) ≤ maxStep)
    (hf : maxStep.IsFinite) (hl : (0 : Dbl) ≤ limit) :
    limitVelocity desired prev maxStep limit = specLimiter desired prev maxStep limit := by
  cases maxStep with
  | nan => exact absurd hf (by simp [IsFinite])
  | ninf => exact absurd hf (by simp [IsFinite])
  | pinf => exact absurd hf (by simp [IsFinite])
  | fin y =>
    rw [zero_eq] at hm
    simp only [fin_le_fin] at hm
    have hlh : prev - fin y ≤ prev + fin y := sub_le_add_of_nonneg hp hm
    have hll : -limit ≤ limit := by
      rw [zero_eq] at hl
      cases limit <;> simp at hl ⊢
      linarith
    unfold limitVelocity specLimiter
    simp only []
    rw [ifChain_eq_clamp hd hlh]
    have hc : clamp desired (prev - fin y) (prev + fin y) ≠ nan := by
      rw [← ifChain_eq_clamp hd hlh]
      exact slew_ne_nan hd
    exact ifChain_eq_clamp hc hll

/-- From a previous command inside the hard bound, the issued command stays between the
rounded `prev - maxStep` and the rounded `prev + maxStep`. -/
theorem limitVelocity_slew (desired prev limit : Dbl) (y : ℚ) (hd : desired ≠ nan)
    (hy : 0 ≤ y) (hl : limit.IsDouble) (h1 : -limit ≤ prev) (h2 : prev ≤ limit) :
    prev - fin y ≤ limitVelocity desired prev (fin y) limit ∧
      limitVelocity desired prev (fin y) limit ≤ prev + fin y := by
  have hp : prev ≠ nan := ne_nan_of_le_left h2
  have hlh : prev - fin y ≤ prev + fin y := sub_le_add_of_nonneg hp hy
  obtain ⟨a, b⟩ := ifChain_between (x := desired) hd hlh
  unfold limitVelocity
  simp only []
  exact hard_between a b (sub_le_of_le h2 hl hy) (le_add_of_le h1 (isDouble_neg hl) hy)

/-! ## Evaluation of the limiter -/

/-- The limiter follows the upper slew bound when the desired command is above it and
the bound is inside the hard limit. -/
theorem limitVelocity_rising {d p m l : Dbl} {h : ℚ} (hs : p + m = fin h) (h1 : fin h < d)
    (h2 : fin h ≤ l) (h3 : -l ≤ fin h) : limitVelocity d p m l = fin h := by
  unfold limitVelocity
  simp only [hs, gt_iff_lt, h1, if_true]
  cases l <;> simp at h2 h3 ⊢
  rw [if_neg (not_lt.mpr h2), if_neg (not_lt.mpr h3)]

/-- The limiter follows the lower slew bound when the desired command is below it and
the bound is inside the hard limit. -/
theorem limitVelocity_falling {d p m l : Dbl} {h k : ℚ} (hs : p + m = fin h)
    (hk : p - m = fin k) (h0 : ¬ fin h < d) (h1 : d < fin k)
    (h2 : fin k ≤ l) (h3 : -l ≤ fin k) : limitVelocity d p m l = fin k := by
  unfold limitVelocity
  simp only [hs, hk, gt_iff_lt, h0, if_false, h1, if_true]
  cases l <;> simp at h2 h3 ⊢
  rw [if_neg (not_lt.mpr h2), if_neg (not_lt.mpr h3)]

/-- A joint at rest with no command stays at rest. -/
theorem limitVelocity_rest {l : Dbl} {y : ℚ} (hy : 0 ≤ y) (hl : (0 : Dbl) ≤ l) :
    limitVelocity 0 0 (fin y) l = 0 := by
  have a : fin 0 ≤ (0 : Dbl) + fin y := by
    rw [zero_eq, fin_add_fin]
    exact round_nonneg (by linarith)
  have b : (0 : Dbl) - fin y ≤ fin 0 := by
    rw [sub_eq, zero_eq, neg_fin, fin_add_fin]
    exact round_nonpos (by linarith)
  unfold limitVelocity
  simp only [gt_iff_lt]
  generalize (0 : Dbl) + fin y = hi at a
  generalize (0 : Dbl) - fin y = lo at b
  rw [zero_eq] at hl ⊢
  cases hi <;> cases lo <;> cases l <;> simp at a b hl ⊢ <;> (try split_ifs) <;>
    (try simp_all) <;> (try linarith)

/-! ## What `init()` leaves for the limiter -/

theorem isDouble_getD_set {l : List Dbl} {i : Nat} {x : Dbl}
    (hl : ∀ j, j < l.length → (l.getD j 0).IsDouble) (hx : x.IsDouble) :
    ∀ j, j < (l.set i x).length → ((l.set i x).getD j 0).IsDouble := by
  intro j hj
  rw [List.length_set] at hj
  by_cases h : i = j
  · subst h
    rw [getD_set_same x hj]
    exact hx
  · rw [getD_set_other x h]
    exact hl j hj

theorem getD_resize_ne_nan {v : List Dbl} (n j : Nat) (hv : ∀ x, x ∈ v → x ≠ nan) :
    (resize v n).getD j 0 ≠ nan := by
  unfold resize
  rw [List.getD_eq_getElem?_getD]
  cases hx : (List.take n v ++ List.replicate (n - v.length) 0)[j]? with
  | none => simp [zero_eq]
  | some x =>
    simp only [Option.getD_some]
    have hmem := List.getElem?_mem hx
    rcases List.mem_append.mp hmem with h | h
    · exact hv x (List.mem_of_mem_take h)
    · rw [(List.mem_replicate.mp h).2, zero_eq]
      simp

/-- After `init()` the desired commands are the resized vector of the constructor and
every velocity limit is the result of an arithmetic operation or the literal `2.0`. -/
theorem init_limiter_facts {boot s0 : UrHardwareInterface} {joints : List String}
    (h : boot.init joints = .ok s0) :
    s0.joint_velocity_command_ = resize boot.joint_velocity_command_ joints.length ∧
      ∀ j, j < s0.num_joints_ → (s0.joint_velocity_limits_.getD j 0).IsDouble := by
  unfold init at h
  simp only [] at h
  split_ifs at h with h0
  obtain ⟨prevs1, lims1, hrun, hp1, hl1, _, hhigh⟩ :=
    initLoop_spec
      { boot with
        joint_names_ := joints
        num_joints_ := joints.length
        joint_position_ := resize boot.joint_position_ joints.length
        joint_velocity_ := resize boot.joint_velocity_ joints.length
        joint_effort_ := resize boot.joint_effort_ joints.length
        joint_position_command_ := resize boot.joint_position_command_ joints.length
        joint_velocity_command_ := resize boot.joint_velocity_command_ joints.length }
      joints.length joints.length 0
      (resize boot.prev_joint_velocity_command_ joints.length)
      (resize boot.joint_velocity_limits_ joints.length) (by omega)
      (length_resize _ _) (length_resize _ _)
  simp only [] at hrun
  rw [hrun] at h
  simp only [] at h
  split at h
  · simp at h
  rename_i s1 e1
  split at h
  · simp at h
  rename_i s2 e2
  split at h
  · simp at h
  rename_i s3 e3
  split at h
  · simp at h
  rename_i s4 e4
  split at h
  · simp at h
  rename_i s5 e5
  split at h
  · simp at h
  rename_i s6 e6
  obtain ⟨b1, r1⟩ := setLimit_ok e1
  subst r1
  obtain ⟨b2, r2⟩ := setLimit_ok e2
  subst r2
  obtain ⟨b3, r3⟩ := setLimit_ok e3
  subst r3
  obtain ⟨b4, r4⟩ := setLimit_ok e4
  subst r4
  obtain ⟨b5, r5⟩ := setLimit_ok e5
  subst r5
  obtain ⟨b6, r6⟩ := setLimit_ok e6
  subst r6
  simp only [Except.ok.injEq] at h
  subst h
  refine ⟨rfl, ?_⟩
  have base : ∀ j, j < lims1.length → (lims1.getD j 0).IsDouble := by
    intro j hj
    rw [(hhigh j (Nat.zero_le j) (by rw [← hl1]; exact hj)).2]
    exact isDouble_natCast 2 (by norm_num)
  intro j hj
  have hj2 : j < joints.length := hj
  refine isDouble_getD_set (isDouble_getD_set (isDouble_getD_set (isDouble_getD_set
    (isDouble_getD_set (isDouble_getD_set base (isDouble_div _ _)) (isDouble_div _ _))
    (isDouble_div _ _)) (isDouble_div _ _)) (isDouble_div _ _)) (isDouble_div _ _) j ?_
  simp only [List.length_set]
  rw [hl1]
  exact hj2

/-- Every velocity limit of the initialised six-joint arm is a finite double between
`1` and `8`. -/
theorem readyState_limit_bounds :
    ∀ j, j < readyState.num_joints_ →
      ∃ r, readyState.joint_velocity_limits_.getD j 0 = fin r ∧ 1 ≤ r ∧ r ≤ 8 := by
  have e131 : (131 : Dbl) = fin 131 := ofNat_eq_fin 131
  have e191 : (191 : Dbl) = fin 191 := ofNat_eq_fin 191
  have a := ur_limit_bounds 131 (by norm_num) (by norm_num)
  have b := ur_limit_bounds 191 (by norm_num) (by norm_num)
  rw [← e131] at a
  rw [← e191] at b
  intro j hj
  have : j < 6 := hj
  interval_cases j
  · exact a
  · exact a
  · exact b
  · exact b
  · exact b
  · exact b

theorem readyState_limits :
    ∀ j, j < readyState.num_joints_ → 0 ≤ readyState.joint_velocity_limits_.getD j 0 := by
  intro j hj
  obtain ⟨r, e, r0, _⟩ := readyState_limit_bounds j hj
  rw [e, zero_eq]
  simp only [fin_le_fin]
  linarith

theorem readyState_init : bootState.init urJoints = .ok readyState := rfl

theorem demoOps_run : readyState.run demoOps = .ok commandedState := rfl

/-! ## The invariant of the control loop -/

/-- Each host operation keeps the loop invariant, provided a new step is finite and
non-negative and a new velocity command is not a NaN. -/
theorem step_keeps_inv {s s1 : UrHardwareInterface} (op : HostOp) (hinv : s.LimiterInv)
    (hop : ∀ inp, op = .setMaxVelChange inp → 0 ≤ inp ∧ inp.IsFinite)
    (hcmd : ∀ i x, op = .setVelocityCommand i x → x ≠ nan) (h : s.step op = .ok s1) :
    s1.LimiterInv := by
  obtain ⟨⟨z1, z2, z3, z4, z5, z6, z7⟩, h6, hm, hl, hd, hp⟩ := hinv
  cases op with
  | setVelocityCommand i x =>
    simp only [step, Except.ok.injEq] at h
    subst h
    refine ⟨⟨z1, z2, z3, z4, by simpa using z5, z6, z7⟩, h6, hm, hl, ?_, hp⟩
    intro j hj
    show (s.joint_velocity_command_.set i x).getD j 0 ≠ nan
    by_cases hij : i = j
    · subst hij
      rw [getD_set_same x (by rw [z5]; exact hj)]
      exact hcmd i x rfl
    · rw [getD_set_other x hij]
      exact hd j hj
  | setPositionCommand i x =>
    simp only [step, Except.ok.injEq] at h
    subst h
    exact ⟨⟨z1, z2, z3, by simpa using z4, z5, z6, z7⟩, h6, hm, hl, hd, hp⟩
  | setMaxVelChange inp =>
    simp only [step, setMaxVelChange, Except.ok.injEq] at h
    subst h
    exact ⟨⟨z1, z2, z3, z4, z5, z6, z7⟩, h6, hop inp rfl, hl, hd, hp⟩
  | read pos vel current tcp =>
    simp only [step] at h
    obtain ⟨e, p1, p2, p3, _, _⟩ := read_frame h
    rw [e]
    exact ⟨⟨p1.trans z1, p2.trans z2, p3.trans z3, z4, z5, z6, z7⟩, h6, hm, hl, hd, hp⟩
  | write =>
    simp only [step] at h
    cases hv : s.velocity_interface_running_ with
    | true =>
      obtain ⟨cmd, _, hw, hlen, hval⟩ :=
        write_velocity s ⟨z1, z2, z3, z4, z5, z6, z7⟩ h6 hv
      rw [hw] at h
      simp only [Except.ok.injEq] at h
      subst h
      refine ⟨⟨z1, z2, z3, z4, z5, hlen, z7⟩, h6, hm, hl, hd, ?_⟩
      intro j hj
      show -(s.joint_velocity_limits_.getD j 0) ≤ cmd.getD j 0 ∧
        cmd.getD j 0 ≤ s.joint_velocity_limits_.getD j 0
      rw [hval j hj]
      exact limitVelocity_bound _ _ _ _ (hd j hj) (hl j hj).1
    | false =>
      have hw : ∃ ev, s.write = .ok (s, ev) := by
        unfold write
        rw [hv]
        simp only [Bool.false_eq_true, if_false]
        split_ifs
        · exact ⟨_, rfl⟩
        · exact ⟨_, rfl⟩
      obtain ⟨ev, hw⟩ := hw
      rw [hw] at h
      simp only [Except.ok.injEq] at h
      subst h
      exact ⟨⟨z1, z2, z3, z4, z5, z6, z7⟩, h6, hm, hl, hd, hp⟩
  | doSwitch start_list stop_list =>
    simp only [step] at h
    split at h
    · simp at h
    · rename_i st e1
      simp only [Except.ok.injEq] at h
      subst h
      have hf : s.FlagsOnly st.1 :=
        doSwitch_frame (show s.doSwitch start_list stop_list = .ok (st.1, st.2) from e1)
      unfold FlagsOnly at hf
      rw [hf]
      exact ⟨⟨z1, z2, z3, z4, z5, z6, z7⟩, h6, hm, hl, hd, hp⟩

/-- A returning sequence of host operations keeps the loop invariant. -/
theorem run_keeps_inv (ops : List HostOp) :
    ∀ (s s1 : UrHardwareInterface), s.LimiterInv →
      (∀ inp, HostOp.setMaxVelChange inp ∈ ops → 0 ≤ inp ∧ inp.IsFinite) →
      (∀ i x, HostOp.setVelocityCommand i x ∈ ops → x ≠ nan) → s.run ops = .ok s1 →
      s1.LimiterInv := by
  induction ops with
  | nil =>
    intro s s1 hinv _ _ h
    simp only [run, Except.ok.injEq] at h
    subst h
    exact hinv
  | cons op rest ih =>
    intro s s1 hinv hops hcmds h
    simp only [run] at h
    split at h
    · simp at h
    · rename_i s2 e2
      have h2 : s2.LimiterInv :=
        step_keeps_inv op hinv
          (fun inp he => hops inp (by rw [he]; exact List.mem_cons_self _ _))
          (fun i x he => hcmds i x (by rw [he]; exact List.mem_cons_self _ _)) e2
      exact ih s2 s1 h2 (fun inp hmem => hops inp (List.mem_cons_of_mem _ hmem))
        (fun i x hmem => hcmds i x (List.mem_cons_of_mem _ hmem)) h

/-- The invariant holds right after `init()`. -/
theorem init_limiterInv {boot s0 : UrHardwareInterface} {joints : List String}
    (hinit : boot.init joints = .ok s0)
    (hlim : ∀ j, j < s0.num_joints_ → 0 ≤ s0.joint_velocity_limits_.getD j 0)
    (hstep : 0 ≤ boot.max_vel_change_ ∧ boot.max_vel_change_.IsFinite)
    (hboot : ∀ x, x ∈ boot.joint_velocity_command_ → x ≠ nan) : s0.LimiterInv := by
  obtain ⟨hsz, h6, _, _, hzero, _, _, hm⟩ := init_spec hinit
  obtain ⟨hc, hdbl⟩ := init_limiter_facts hinit
  refine ⟨hsz, h6, by rw [hm]; exact hstep, fun j hj => ⟨hlim j hj, hdbl j hj⟩, ?_, ?_⟩
  · intro j _
    rw [hc]
    exact getD_resize_ne_nan _ _ hboot
  · intro j hj
    rw [hzero j hj]
    have h0 := hlim j hj
    exact ⟨neg_nonpos_of_nonneg h0, h0⟩

/-! ## The ramp with step `0.1` -/

theorem round_tenth : Dbl.round (1 / 10) = Dbl.fin (3602879701896397 / 36028797018963968) := by
  have h := Dbl.round_eval_near (q := 1 / 10) (-4) (7205759403792794) (by norm_num)
    (by norm_num [abs_of_pos]) (by norm_num [abs_of_pos]) (by norm_num [abs_lt])
    (Dbl.lt_overflowBound (-2) (by norm_num) (by norm_num [abs_lt]))
  rw [h]
  congr 1
  norm_num

theorem round_ramp2 : Dbl.round (3602879701896397 / 18014398509481984) = Dbl.fin (3602879701896397 / 18014398509481984) := by
  have h := Dbl.round_eval_near (q := 3602879701896397 / 18014398509481984) (-3) (7205759403792794) (by norm_num)
    (by norm_num [abs_of_pos]) (by norm_num [abs_of_pos]) (by norm_num [abs_lt])
    (Dbl.lt_overflowBound (-1) (by norm_num) (by norm_num [abs_lt]))
  rw [h]
  congr 1
  norm_num

theorem round_ramp3 : Dbl.round (10808639105689191 / 36028797018963968) = Dbl.fin (1351079888211149 / 4503599627370496) := by
  have h := Dbl.round_eval_tie (q := 10808639105689191 / 36028797018963968) (-2) (5404319552844595) (by norm_num)
    (by norm_num [abs_of_pos]) (by norm_num [abs_of_pos]) (by norm_num)
    (Dbl.lt_overflowBound (0) (by norm_num) (by norm_num [abs_lt]))
  rw [h]
  congr 1
  norm_num

theorem round_ramp4 : Dbl.round (14411518807585589 / 36028797018963968) = Dbl.fin (3602879701896397 / 9007199254740992) := by
  have h := Dbl.round_eval_tie (q := 14411518807585589 / 36028797018963968) (-2) (7205759403792794) (by norm_num)
    (by norm_num [abs_of_pos]) (by norm_num [abs_of_pos]) (by norm_num)
    (Dbl.lt_overflowBound (0) (by norm_num) (by norm_num [abs_lt]))
  rw [h]
  congr 1
  norm_num

theorem round_ramp5 : Dbl.round (18014398509481985 / 36028797018963968) = Dbl.fin (1 / 2) := by
  have h := Dbl.round_eval_near (q := 18014398509481985 / 36028797018963968) (-1) (4503599627370496) (by norm_num)
    (by norm_num [abs_of_pos]) (by norm_num [abs_of_pos]) (by norm_num [abs_lt])
    (Dbl.lt_overflowBound (1) (by norm_num) (by norm_num [abs_lt]))
  rw [h]
  congr 1
  norm_num

theorem round_ramp6 : Dbl.round (21617278211378381 / 36028797018963968) = Dbl.fin (5404319552844595 / 9007199254740992) := by
  have h := Dbl.round_eval_near (q := 21617278211378381 / 36028797018963968) (-1) (5404319552844595) (by norm_num)
    (by norm_num [abs_of_pos]) (by norm_num [abs_of_pos]) (by norm_num [abs_lt])
    (Dbl.lt_overflowBound (1) (by norm_num) (by norm_num [abs_lt]))
  rw [h]
  congr 1
  norm_num

theorem round_tenth_times6 : Dbl.round (10808639105689191 / 18014398509481984) = Dbl.fin (1351079888211149 / 2251799813685248) := by
  have h := Dbl.round_eval_tie (q := 10808639105689191 / 18014398509481984) (-1) (5404319552844595) (by norm_num)
    (by norm_num [abs_of_pos]) (by norm_num [abs_of_pos]) (by norm_num)
    (Dbl.lt_overflowBound (1) (by norm_num) (by norm_num [abs_lt]))
  rw [h]
  congr 1
  norm_num

theorem round_ramp3_diff : Dbl.round (1801439850948199 / 18014398509481984) = Dbl.fin (1801439850948199 / 18014398509481984) := by
  have h := Dbl.round_eval_near (q := 1801439850948199 / 18014398509481984) (-4) (7205759403792796) (by norm_num)
    (by norm_num [abs_of_pos]) (by norm_num [abs_of_pos]) (by norm_num [abs_lt])
    (Dbl.lt_overflowBound (-2) (by norm_num) (by norm_num [abs_lt]))
  rw [h]
  congr 1
  norm_num

theorem lit_tenth : lit (1 / 10) = fin (3602879701896397 / 36028797018963968) := round_tenth

theorem isDouble_tenth : IsDouble (fin (3602879701896397 / 36028797018963968)) := by
  have h := round_isDouble (1 / 10)
  rw [round_tenth] at h
  exact h

/-- The first six values that the limiter issues from rest with step `0.1` under a held
command of `100`, for a limit of at least `1`. -/
theorem tenth_ramp_steps {l : Dbl} {r : ℚ} (hl : l = fin r) (hr : 1 ≤ r) :
    limitVelocity 100 0 (lit (1 / 10)) l = fin (3602879701896397 / 36028797018963968) ∧
      limitVelocity 100 (fin (3602879701896397 / 36028797018963968)) (lit (1 / 10)) l = fin (3602879701896397 / 18014398509481984) ∧
      limitVelocity 100 (fin (3602879701896397 / 18014398509481984)) (lit (1 / 10)) l = fin (1351079888211149 / 4503599627370496) ∧
      limitVelocity 100 (fin (1351079888211149 / 4503599627370496)) (lit (1 / 10)) l = fin (3602879701896397 / 9007199254740992) ∧
      limitVelocity 100 (fin (3602879701896397 / 9007199254740992)) (lit (1 / 10)) l = fin (1 / 2) ∧
      limitVelocity 100 (fin (1 / 2)) (lit (1 / 10)) l = fin (5404319552844595 / 9007199254740992) := by
  subst hl
  have e100 : (100 : Dbl) = fin 100 := ofNat_eq_fin 100
  rw [lit_tenth, e100]
  refine ⟨?_, ?_, ?_, ?_, ?_, ?_⟩
  · apply limitVelocity_rising (h := 3602879701896397 / 36028797018963968) (zero_add_of_isDouble isDouble_tenth)
    · simp only [fin_lt_fin]; norm_num
    · simp only [fin_le_fin]; linarith
    · simp only [neg_fin, fin_le_fin]; linarith
  · apply limitVelocity_rising (h := 3602879701896397 / 18014398509481984) (by
        rw [fin_add_fin, show (3602879701896397 / 36028797018963968 + 3602879701896397 / 36028797018963968 : ℚ) = 3602879701896397 / 18014398509481984 by norm_num]
        exact round_ramp2)
    · simp only [fin_lt_fin]; norm_num
    · simp only [fin_le_fin]; linarith
    · simp only [neg_fin, fin_le_fin]; linarith
  · apply limitVelocity_rising (h := 1351079888211149 / 4503599627370496) (by
        rw [fin_add_fin, show (3602879701896397 / 18014398509481984 + 3602879701896397 / 36028797018963968 : ℚ) = 10808639105689191 / 36028797018963968 by norm_num]
        exact round_ramp3)
    · simp only [fin_lt_fin]; norm_num
    · simp only [fin_le_fin]; linarith
    · simp only [neg_fin, fin_le_fin]; linarith
  · apply limitVelocity_rising (h := 3602879701896397 / 9007199254740992) (by
        rw [fin_add_fin, show (1351079888211149 / 4503599627370496 + 3602879701896397 / 36028797018963968 : ℚ) = 14411518807585589 / 36028797018963968 by norm_num]
        exact round_ramp4)
    · simp only [fin_lt_fin]; norm_num
    · simp only [fin_le_fin]; linarith
    · simp only [neg_fin, fin_le_fin]; linarith
  · apply limitVelocity_rising (h := 1 / 2) (by
        rw [fin_add_fin, show (3602879701896397 / 9007199254740992 + 3602879701896397 / 36028797018963968 : ℚ) = 18014398509481985 / 36028797018963968 by norm_num]
        exact round_ramp5)
    · simp only [fin_lt_fin]; norm_num
    · simp only [fin_le_fin]; linarith
    · simp only [neg_fin, fin_le_fin]; linarith
  · apply limitVelocity_rising (h := 5404319552844595 / 9007199254740992) (by
        rw [fin_add_fin, show (1 / 2 + 3602879701896397 / 36028797018963968 : ℚ) = 21617278211378381 / 36028797018963968 by norm_num]
        exact round_ramp6)
    · simp only [fin_lt_fin]; norm_num
    · simp only [fin_le_fin]; linarith
    · simp only [neg_fin, fin_le_fin]; linarith

/-! ## The default ramp -/

/-- The default step `0.12` is a finite double between `0` and `1`. -/
theorem rampState_step : ∃ r, rampState.max_vel_change_ = fin r ∧ 0 ≤ r ∧ r ≤ 1 ∧
    IsDouble (fin r) := by
  obtain ⟨r, e, r0, r1⟩ := lit_unit (q := 12 / 100) (by norm_num) (by norm_num)
  refine ⟨r, e, r0, r1, ?_⟩
  rw [← e]
  exact isDouble_lit _

theorem rampState_step_ok :
    (0 : Dbl) ≤ rampState.max_vel_change_ ∧ rampState.max_vel_change_.IsFinite :=
  lit_unit_step (by norm_num) (by norm_num)

/-- The limiter on the two examples of the specification: from rest with step `0.12` and
limit `2.0`, a desired `100` gives `0.12` and a desired `-100` gives `-0.12`. -/
theorem limitVelocity_examples :
    limitVelocity 100 0 (lit (12 / 100)) 2 = lit (12 / 100) ∧
      limitVelocity (-100) 0 (lit (12 / 100)) 2 = -(lit (12 / 100)) := by
  obtain ⟨r, e, r0, r1, hd⟩ := rampState_step
  have e' : lit (12 / 100) = fin r := e
  have e100 : (100 : Dbl) = fin 100 := ofNat_eq_fin 100
  have e2 : (2 : Dbl) = fin 2 := ofNat_eq_fin 2
  rw [e', e100, e2]
  constructor
  · apply limitVelocity_rising (zero_add_of_isDouble hd)
    · simp only [fin_lt_fin]; linarith
    · simp only [fin_le_fin]; linarith
    · simp only [neg_fin, fin_le_fin]; linarith
  · rw [neg_fin, neg_fin]
    apply limitVelocity_falling (zero_add_of_isDouble hd) (zero_sub_of_isDouble hd)
    · simp only [fin_lt_fin]; intro h; linarith
    · simp only [fin_lt_fin]; linarith
    · simp only [fin_le_fin]; linarith
    · simp only [neg_fin, fin_le_fin]; linarith

/-- The function `write()` evaluated on `rampState`. -/
theorem rampState_write :
    rampState.write = .ok
      ({ rampState with
          prev_joint_velocity_command_ := [lit (12 / 100), -(lit (12 / 100)), 0, 0, 0, 0] },
        [⟨.setSpeed (lit (12 / 100)) (-(lit (12 / 100))) 0 0 0 0 (lit (12 / 100) * 125),
          true, false⟩]) := by
  obtain ⟨cmd, _, hw, hlen, hval⟩ := write_velocity rampState rampState_sized (by decide) rfl
  obtain ⟨r, e, r0, r1, hd⟩ := rampState_step
  have e2 : (2 : Dbl) = fin 2 := ofNat_eq_fin 2
  have hrest : limitVelocity 0 0 rampState.max_vel_change_ 2 = 0 := by
    rw [e]
    exact limitVelocity_rest r0 (by rw [e2, zero_eq]; simp)
  have hc : cmd = [lit (12 / 100), -(lit (12 / 100)), 0, 0, 0, 0] := by
    have hlen6 : cmd.length = 6 := hlen
    apply eq_of_getD (by rw [hlen6]; rfl)
    intro j hj
    rw [hlen6] at hj
    rw [hval j hj]
    interval_cases j
    · exact limitVelocity_examples.1
    · exact limitVelocity_examples.2
    · exact hrest
    · exact hrest
    · exact hrest
    · exact hrest
  rw [hc] at hw
  exact hw

/-! ## C2: the hard speed bound -/

/-- C2, counterexample: with the host's desired command for the first joint a NaN (the
limit being `2.0`), a velocity-mode `write()` returns with `cmd[0]` a NaN, which all
four comparisons of the limiter let through, and neither `-limit <= cmd[0]` nor
`cmd[0] <= limit` holds. -/
theorem write_nan_command_escapes_bound :
    nanCommandState.Sized ∧ 6 ≤ nanCommandState.num_joints_ ∧
      nanCommandState.velocity_interface_running_ = true ∧
      nanCommandState.joint_velocity_command_.getD 0 0 = nan ∧
      (0 : Dbl) ≤ nanCommandState.joint_velocity_limits_.getD 0 0 ∧
      ∃ cmd s1 ev, nanCommandState.writeLimiter = .ok (cmd, s1) ∧
        nanCommandState.write = .ok (s1, ev) ∧ cmd.getD 0 0 = nan ∧
        ¬ (-(nanCommandState.joint_velocity_limits_.getD 0 0) ≤ cmd.getD 0 0) ∧
        ¬ (cmd.getD 0 0 ≤ nanCommandState.joint_velocity_limits_.getD 0 0) := by
  have hs : nanCommandState.Sized := ⟨rfl, rfl, rfl, rfl, rfl, rfl, rfl⟩
  obtain ⟨cmd, hlim, hw, _, hval⟩ := write_velocity nanCommandState hs (by decide) rfl
  have h0 : cmd.getD 0 0 = nan := by
    rw [hval 0 (by decide)]
    exact limitVelocity_nan _ _ _
  refine ⟨hs, by decide, rfl, rfl, by decide, cmd, _, _, hlim, hw, h0, ?_, ?_⟩
  · rw [h0]; simp
  · rw [h0]; simp

/-- C2 (hard speed bound), amended: a velocity-mode `write()` returns, and for every
joint `i` whose `joint_velocity_limits_[i]` is non-negative and whose desired command is
not a NaN the computed `cmd[i]` lies between `-joint_velocity_limits_[i]` and
`joint_velocity_limits_[i]`, whatever the previously issued command and
`max_vel_change_` are; a desired command that is a NaN is issued as a NaN. -/
theorem write_hard_speed_bound (s : UrHardwareInterface) (hs : s.Sized)
    (h6 : 6 ≤ s.num_joints_) (hv : s.velocity_interface_running_ = true) :
    ∃ cmd s1 ev, s.writeLimiter = .ok (cmd, s1) ∧ s.write = .ok (s1, ev) ∧
      ∀ i, i < s.num_joints_ →
        ((0 : Dbl) ≤ s.joint_velocity_limits_.getD i 0 →
          s.joint_velocity_command_.getD i 0 ≠ nan →
          -(s.joint_velocity_limits_.getD i 0) ≤ cmd.getD i 0 ∧
            cmd.getD i 0 ≤ s.joint_velocity_limits_.getD i 0) ∧
        (s.joint_velocity_command_.getD i 0 = nan → cmd.getD i 0 = nan) := by
  obtain ⟨cmd, hlim, hw, _, hval⟩ := write_velocity s hs h6 hv
  refine ⟨cmd, _, _, hlim, hw, ?_⟩
  intro i hi
  rw [hval i hi]
  refine ⟨fun hl hd => limitVelocity_bound _ _ _ _ hd hl, fun hd => ?_⟩
  rw [hd]
  exact limitVelocity_nan _ _ _

theorem write_hard_speed_bound_witness :
    rampState.Sized ∧ 6 ≤ rampState.num_joints_ ∧
      rampState.velocity_interface_running_ = true ∧
      ∃ cmd s1 ev, rampState.writeLimiter = .ok (cmd, s1) ∧ rampState.write = .ok (s1, ev) ∧
        ∀ i, i < rampState.num_joints_ →
          ((0 : Dbl) ≤ rampState.joint_velocity_limits_.getD i 0 →
            rampState.joint_velocity_command_.getD i 0 ≠ nan →
            -(rampState.joint_velocity_limits_.getD i 0) ≤ cmd.getD i 0 ∧
              cmd.getD i 0 ≤ rampState.joint_velocity_limits_.getD i 0) ∧
          (rampState.joint_velocity_command_.getD i 0 = nan → cmd.getD i 0 = nan) :=
  ⟨rampState_sized, by decide, rfl,
    write_hard_speed_bound rampState rampState_sized (by decide) rfl⟩

/-! ## C4: the two-stage clamp -/

/-- C4, counterexample: with the desired command a NaN, the previous command `0`, the
step `0.12` and the limit `2.0` (all of them allowed by the claim), `write()` issues a
NaN, while `clamp(clamp(desired, prev - maxStep, prev + maxStep), -limit, +limit)` with
`clamp(x, lo, hi) = max(lo, min(x, hi))` is a number. -/
theorem write_nan_command_differs_from_clamp :
    (0 : Dbl) ≤ nanCommandState.max_vel_change_ ∧
      (0 : Dbl) ≤ nanCommandState.joint_velocity_limits_.getD 0 0 ∧
      ∃ cmd s1 ev, nanCommandState.writeLimiter = .ok (cmd, s1) ∧
        nanCommandState.write = .ok (s1, ev) ∧ cmd.getD 0 0 = nan ∧
        specLimiter (nanCommandState.joint_velocity_command_.getD 0 0)
          (nanCommandState.prev_joint_velocity_command_.getD 0 0)
          nanCommandState.max_vel_change_
          (nanCommandState.joint_velocity_limits_.getD 0 0) = -(lit (12 / 100)) ∧
        cmd.getD 0 0 ≠ specLimiter (nanCommandState.joint_velocity_command_.getD 0 0)
          (nanCommandState.prev_joint_velocity_command_.getD 0 0)
          nanCommandState.max_vel_change_
          (nanCommandState.joint_velocity_limits_.getD 0 0) := by
  have hs : nanCommandState.Sized := ⟨rfl, rfl, rfl, rfl, rfl, rfl, rfl⟩
  obtain ⟨cmd, hlim, hw, _, hval⟩ := write_velocity nanCommandState hs (by decide) rfl
  have h0 : cmd.getD 0 0 = nan := by
    rw [hval 0 (by decide)]
    exact limitVelocity_nan _ _ _
  obtain ⟨r, e, r0, r1, hd⟩ := rampState_step
  have e' : lit (12 / 100) = fin r := e
  have e2 : (2 : Dbl) = fin 2 := ofNat_eq_fin 2
  have hspec : specLimiter nan 0 (lit (12 / 100)) 2 = -(lit (12 / 100)) := by
    rw [e', e2]
    unfold specLimiter clamp
    rw [zero_sub_of_isDouble hd, zero_add_of_isDouble hd]
    have a2 : (-2 : ℚ) < -r := by linarith
    have a3 : ¬ ((2 : ℚ) < -r) := by intro h; linarith
    simp [Dbl.max, Dbl.min, a2, a3]
  refine ⟨rampState_step_ok.1, by decide, cmd, _, _, hlim, hw, h0, hspec, ?_⟩
  rw [h0]
  show nan ≠ specLimiter nan 0 (lit (12 / 100)) 2
  rw [hspec, e']
  simp

/-- C4 (two-stage clamp), amended: with `max_vel_change_` finite and non-negative, a
velocity-mode `write()` computes, for every joint with a non-negative limit whose
desired and previously issued commands are not NaN, the value
`clamp(clamp(desired, prev - maxStep, prev + maxStep), -limit, +limit)` of the
specification, where `clamp(x, lo, hi) = max(lo, min(x, hi))` and the sum and the
difference are rounded to doubles. -/
theorem write_limiter_is_two_stage_clamp (s : UrHardwareInterface) (hs : s.Sized)
    (h6 : 6 ≤ s.num_joints_) (hv : s.velocity_interface_running_ = true)
    (hm : (0 : Dbl) ≤ s.max_vel_change_) (hf : s.max_vel_change_.IsFinite) :
    ∃ cmd s1 ev, s.writeLimiter = .ok (cmd, s1) ∧ s.write = .ok (s1, ev) ∧
      ∀ i, i < s.num_joints_ → (0 : Dbl) ≤ s.joint_velocity_limits_.getD i 0 →
        s.joint_velocity_command_.getD i 0 ≠ nan →
        s.prev_joint_velocity_command_.getD i 0 ≠ nan →
        cmd.getD i 0 = specLimiter (s.joint_velocity_command_.getD i 0)
          (s.prev_joint_velocity_command_.getD i 0) s.max_vel_change_
          (s.joint_velocity_limits_.getD i 0) := by
  obtain ⟨cmd, hlim, hw, _, hval⟩ := write_velocity s hs h6 hv
  refine ⟨cmd, _, _, hlim, hw, ?_⟩
  intro i hi hl hd hp
  rw [hval i hi]
  exact limitVelocity_eq_specLimiter _ _ _ _ hd hp hm hf hl

theorem write_limiter_is_two_stage_clamp_witness :
    (rampState.Sized ∧ 6 ≤ rampState.num_joints_ ∧
      rampState.velocity_interface_running_ = true ∧ (0 : Dbl) ≤ rampState.max_vel_change_ ∧
      rampState.max_vel_change_.IsFinite) ∧
    (∃ cmd s1 ev, rampState.writeLimiter = .ok (cmd, s1) ∧ rampState.write = .ok (s1, ev) ∧
      ∀ i, i < rampState.num_joints_ → (0 : Dbl) ≤ rampState.joint_velocity_limits_.getD i 0 →
        rampState.joint_velocity_command_.getD i 0 ≠ nan →
        rampState.prev_joint_velocity_command_.getD i 0 ≠ nan →
        cmd.getD i 0 = specLimiter (rampState.joint_velocity_command_.getD i 0)
          (rampState.prev_joint_velocity_command_.getD i 0) rampState.max_vel_change_
          (rampState.joint_velocity_limits_.getD i 0)) ∧
    limitVelocity 100 0 (lit (12 / 100)) 2 = lit (12 / 100) ∧
    limitVelocity (-100) 0 (lit (12 / 100)) 2 = -(lit (12 / 100)) ∧
    rampState.write = .ok
      ({ rampState with
          prev_joint_velocity_command_ := [lit (12 / 100), -(lit (12 / 100)), 0, 0, 0, 0] },
        [⟨.setSpeed (lit (12 / 100)) (-(lit (12 / 100))) 0 0 0 0 (lit (12 / 100) * 125),
          true, false⟩]) :=
  ⟨⟨rampState_sized, by decide, rfl, rampState_step_ok.1, rampState_step_ok.2⟩,
    write_limiter_is_two_stage_clamp rampState rampState_sized (by decide) rfl
      rampState_step_ok.1 rampState_step_ok.2,
    limitVelocity_examples.1, limitVelocity_examples.2, rampState_write⟩

/-! ## C5: the stored previous command -/

/-- C5 (stored previous command): a velocity-mode `write()` returns; afterwards
`prev_joint_velocity_command_` is the vector `cmd` of final clamped values, whose first
six entries are the ones handed to `setSpeed`, each entry being the limited value and
not the desired one, and `joint_velocity_command_` is unchanged. -/
theorem write_stores_issued_command (s : UrHardwareInterface) (hs : s.Sized)
    (h6 : 6 ≤ s.num_joints_) (hv : s.velocity_interface_running_ = true) :
    ∃ cmd s1, s.writeLimiter = .ok (cmd, s1) ∧
      s.write = .ok (s1,
        [⟨.setSpeed (cmd.getD 0 0) (cmd.getD 1 0) (cmd.getD 2 0) (cmd.getD 3 0)
            (cmd.getD 4 0) (cmd.getD 5 0) (s.max_vel_change_ * 125),
          true, s.position_interface_running_⟩]) ∧
      s1.prev_joint_velocity_command_ = cmd ∧
      s1.joint_velocity_command_ = s.joint_velocity_command_ ∧
      cmd.length = s.num_joints_ ∧
      ∀ i, i < s.num_joints_ →
        cmd.getD i 0 = limitVelocity (s.joint_velocity_command_.getD i 0)
          (s.prev_joint_velocity_command_.getD i 0) s.max_vel_change_
          (s.joint_velocity_limits_.getD i 0) := by
  obtain ⟨cmd, hlim, hw, hlen, hval⟩ := write_velocity s hs h6 hv
  exact ⟨cmd, _, hlim, hw, rfl, rfl, hlen, hval⟩

theorem write_stores_issued_command_witness :
    (rampState.Sized ∧ 6 ≤ rampState.num_joints_ ∧
      rampState.velocity_interface_running_ = true) ∧
    (∃ cmd s1, rampState.writeLimiter = .ok (cmd, s1) ∧
      rampState.write = .ok (s1,
        [⟨.setSpeed (cmd.getD 0 0) (cmd.getD 1 0) (cmd.getD 2 0) (cmd.getD 3 0)
            (cmd.getD 4 0) (cmd.getD 5 0) (rampState.max_vel_change_ * 125),
          true, rampState.position_interface_running_⟩]) ∧
      s1.prev_joint_velocity_command_ = cmd ∧
      s1.joint_velocity_command_ = rampState.joint_velocity_command_ ∧
      cmd.length = rampState.num_joints_ ∧
      ∀ i, i < rampState.num_joints_ →
        cmd.getD i 0 = limitVelocity (rampState.joint_velocity_command_.getD i 0)
          (rampState.prev_joint_velocity_command_.getD i 0) rampState.max_vel_change_
          (rampState.joint_velocity_limits_.getD i 0)) ∧
    rampState.joint_velocity_command_ = [100, -100, 0, 0, 0, 0] ∧
    rampState.write = .ok
      ({ rampState with
          prev_joint_velocity_command_ := [lit (12 / 100), -(lit (12 / 100)), 0, 0, 0, 0] },
        [⟨.setSpeed (lit (12 / 100)) (-(lit (12 / 100))) 0 0 0 0 (lit (12 / 100) * 125),
          true, false⟩]) :=
  ⟨⟨rampState_sized, by decide, rfl⟩,
    write_stores_issued_command rampState rampState_sized (by decide) rfl,
    rfl, rampState_write⟩

/-! ## The ramp under a held command -/

/-- The first if-chain of the limiter is a minimum when the lower slew bound is not
above the desired command. -/
theorem ifChain_eq_min {d lo hi : Dbl} (hd : d ≠ nan) (hh : hi ≠ nan) (h : lo ≤ d) :
    (if d > hi then hi else if d < lo then lo else d) = Dbl.min hi d := by
  unfold Dbl.min
  cases d <;> cases lo <;> cases hi <;> simp at hd hh h ⊢ <;> (try split_ifs) <;>
    (try simp_all) <;> (try linarith)

/-- One step of the ramp: from a double `x` between `0` and both the held command and
the limit, the limiter issues `min(min(x + maxStep, d), limit)`, which is a double not
below `x`, not above `x + maxStep`, and again between `0` and both bounds. -/
theorem limitVelocity_ramp_step {d l x : Dbl} {y : ℚ} (hy : 0 ≤ y) (hd : IsDouble d)
    (hl : IsDouble l) (hx : IsDouble x) (x0 : (0 : Dbl) ≤ x) (xd : x ≤ d) (xl : x ≤ l) :
    limitVelocity d x (fin y) l = Dbl.min (Dbl.min (x + fin y) d) l ∧
      x ≤ limitVelocity d x (fin y) l ∧
      limitVelocity d x (fin y) l ≤ x + fin y ∧
      limitVelocity d x (fin y) l ≤ d ∧
      limitVelocity d x (fin y) l ≤ l ∧
      IsDouble (limitVelocity d x (fin y) l) ∧
      (0 : Dbl) ≤ limitVelocity d x (fin y) l := by
  have xn : x ≠ nan := ne_nan_of_le_left xd
  have dn : d ≠ nan := ne_nan_of_le_right xd
  have ln : l ≠ nan := ne_nan_of_le_right xl
  have xx : x ≤ x := le_refl_of_ne_nan xn
  have hhi : x ≤ x + fin y := by
    cases x with
    | nan => exact absurd rfl xn
    | ninf => simp at x0
    | pinf => simp
    | fin a => exact le_add_of_le xx hx hy
  have hlo : x - fin y ≤ x := by
    cases x with
    | nan => exact absurd rfl xn
    | ninf => simp at x0
    | pinf => rw [sub_eq]; simp
    | fin a => exact sub_le_of_le xx hx hy
  have hin : x + fin y ≠ nan := ne_nan_of_le_right hhi
  have e1 : (if d > x + fin y then x + fin y else if d < x - fin y then x - fin y else d)
      = Dbl.min (x + fin y) d := ifChain_eq_min dn hin (dle_trans hlo xd)
  have c1x : x ≤ Dbl.min (x + fin y) d := le_min_of_le hhi xd
  have c1n : Dbl.min (x + fin y) d ≠ nan := ne_nan_of_le_right c1x
  have e2 : limitVelocity d x (fin y) l = Dbl.min (Dbl.min (x + fin y) d) l := by
    unfold limitVelocity
    simp only []
    rw [e1]
    have h0 : (0 : Dbl) ≤ Dbl.min (x + fin y) d := dle_trans x0 c1x
    generalize Dbl.min (x + fin y) d = c at h0 c1n
    unfold Dbl.min
    rw [zero_eq] at h0
    have l0 : fin 0 ≤ l := by rw [← zero_eq]; exact dle_trans x0 xl
    cases c <;> cases l <;> simp at h0 l0 c1n ln ⊢ <;> (try split_ifs) <;>
      (try simp_all) <;> (try linarith)
  rw [e2]
  have m1 := min_le_left_of_ne_nan c1n ln
  have m2 := min_le_right_of_ne_nan c1n ln
  have m3 := min_le_left_of_ne_nan hin dn
  have m4 := min_le_right_of_ne_nan hin dn
  have m5 : x ≤ Dbl.min (Dbl.min (x + fin y) d) l := le_min_of_le c1x xl
  exact ⟨rfl, m5, dle_trans m1 m3, dle_trans m1 m4, m2,
    isDouble_min (isDouble_min (isDouble_add _ _) hd) hl, dle_trans x0 m5⟩

/-- The running sum is a double, is not negative and does not decrease. -/
theorem rampSum_facts {y : ℚ} (hy : 0 ≤ y) (k : Nat) :
    IsDouble (rampSum (fin y) k) ∧ (0 : Dbl) ≤ rampSum (fin y) k ∧
      rampSum (fin y) k ≤ rampSum (fin y) (k + 1) := by
  have key : ∀ n, IsDouble (rampSum (fin y) n) ∧ (0 : Dbl) ≤ rampSum (fin y) n := by
    intro n
    induction n with
    | zero =>
      refine ⟨?_, ?_⟩
      · show IsDouble (0 : Dbl)
        rw [zero_eq]; exact isDouble_zero
      · show (0 : Dbl) ≤ 0
        rw [zero_eq]; simp
    | succ n ih =>
      refine ⟨isDouble_add _ _, ?_⟩
      show (0 : Dbl) ≤ rampSum (fin y) n + fin y
      have h0 := ih.2
      rw [zero_eq] at h0 ⊢
      cases hS : rampSum (fin y) n with
      | nan => rw [hS] at h0; simp at h0
      | ninf => rw [hS] at h0; simp at h0
      | pinf => simp
      | fin a =>
        rw [hS] at h0
        simp only [fin_le_fin] at h0
        rw [fin_add_fin]
        exact round_nonneg (by linarith)
  refine ⟨(key k).1, (key k).2, ?_⟩
  show rampSum (fin y) k ≤ rampSum (fin y) k + fin y
  have h0 := (key k).2
  have hdb := (key k).1
  rw [zero_eq] at h0
  cases hS : rampSum (fin y) k with
  | nan => rw [hS] at h0; simp at h0
  | ninf => rw [hS] at h0; simp at h0
  | pinf => simp
  | fin a =>
    rw [hS] at hdb
    exact le_add_of_le (le_refl_of_ne_nan (by simp)) hdb hy

/-- The ramp in closed form: iterating the limiter `k` times from rest under a held
non-negative command gives `min(min(S, d), limit)`, where `S` is the running sum of `k`
rounded additions of the step. -/
theorem limitVelocity_iterate {d l : Dbl} {y : ℚ} (hy : 0 ≤ y) (hd : IsDouble d)
    (hl : IsDouble l) (d0 : (0 : Dbl) ≤ d) (l0 : (0 : Dbl) ≤ l) (k : Nat) :
    (fun x => limitVelocity d x (fin y) l)^[k] 0
        = Dbl.min (Dbl.min (rampSum (fin y) k) d) l ∧
      IsDouble ((fun x => limitVelocity d x (fin y) l)^[k] 0) ∧
      (0 : Dbl) ≤ (fun x => limitVelocity d x (fin y) l)^[k] 0 ∧
      (fun x => limitVelocity d x (fin y) l)^[k] 0 ≤ d ∧
      (fun x => limitVelocity d x (fin y) l)^[k] 0 ≤ l := by
  induction k with
  | zero =>
    simp only [Function.iterate_zero, id_eq]
    have z0 : (0 : Dbl) ≤ 0 := by rw [zero_eq]; simp
    have zd : IsDouble (0 : Dbl) := by rw [zero_eq]; exact isDouble_zero
    refine ⟨?_, zd, z0, d0, l0⟩
    show (0 : Dbl) = Dbl.min (Dbl.min 0 d) l
    rw [zero_eq] at d0 l0 ⊢
    unfold Dbl.min
    cases d <;> cases l <;> simp at d0 l0 ⊢ <;> (try split_ifs) <;> (try simp_all) <;>
      (try linarith)
  | succ k ih =>
    obtain ⟨e, xdbl, x0, xd, xl⟩ := ih
    rw [Function.iterate_succ_apply']
    obtain ⟨s1, s2, s3, s4, s5, s6, s7⟩ :=
      limitVelocity_ramp_step (d := d) (l := l) hy hd hl xdbl x0 xd xl
    refine ⟨?_, s6, s7, s4, s5⟩
    rw [s1]
    obtain ⟨_, S0, _⟩ := rampSum_facts hy k
    show Dbl.min (Dbl.min ((fun x => limitVelocity d x (fin y) l)^[k] 0 + fin y) d) l
      = Dbl.min (Dbl.min (rampSum (fin y) k + fin y) d) l
    apply min_absorb S0 d0 l0
    · rw [← e]
      have xn : (fun x => limitVelocity d x (fin y) l)^[k] 0 ≠ nan := ne_nan_of_le_left xd
      cases hx : (fun x => limitVelocity d x (fin y) l)^[k] 0 with
      | nan => exact absurd hx xn
      | ninf => rw [hx] at x0; simp at x0
      | pinf => simp
      | fin a =>
        rw [hx] at xdbl
        exact le_add_of_le (le_refl_of_ne_nan (by simp)) xdbl hy
    · exact (rampSum_facts hy k).2.2
    · intro h
      rw [e, h]

theorem finite_nonneg {m : Dbl} (h0 : (0 : Dbl) ≤ m) (hf : m.IsFinite) :
    ∃ y, m = fin y ∧ 0 ≤ y := by
  rw [zero_eq] at h0
  cases m with
  | nan => simp at h0
  | ninf => simp at h0
  | pinf => exact absurd hf (by simp [IsFinite])
  | fin y => exact ⟨y, rfl, by simpa using h0⟩

theorem run_append (a b : List HostOp) :
    ∀ (s s1 : UrHardwareInterface), s.run a = .ok s1 → s.run (a ++ b) = s1.run b := by
  induction a with
  | nil =>
    intro s s1 h
    simp only [run, Except.ok.injEq] at h
    subst h
    rfl
  | cons op rest ih =>
    intro s s1 h
    simp only [run] at h
    split at h
    · simp at h
    · rename_i s2 e2
      simp only [List.cons_append, run, e2]
      exact ih s2 s1 h

theorem commandedState_sized : commandedState.Sized :=
  ⟨rfl, rfl, rfl, rfl, rfl, rfl, rfl⟩

theorem slowRampState_sized : slowRampState.Sized :=
  ⟨rfl, rfl, rfl, rfl, rfl, rfl, rfl⟩

theorem demoOps_steps :
    ∀ inp, HostOp.setMaxVelChange inp ∈ demoOps → (0 : Dbl) ≤ inp ∧ inp.IsFinite := by
  intro inp h
  simp [demoOps] at h
  subst h
  exact lit_unit_step (by norm_num) (by norm_num)

theorem demoOps_commands :
    ∀ i x, HostOp.setVelocityCommand i x ∈ demoOps → x ≠ nan := by
  intro i x h
  simp [demoOps] at h
  rw [h.2, ofNat_eq_fin 100]
  simp

theorem twoWriteOps_steps :
    ∀ inp, HostOp.setMaxVelChange inp ∈ twoWriteOps → (0 : Dbl) ≤ inp := by
  intro inp h
  simp [twoWriteOps, demoOps] at h
  subst h
  exact (lit_unit_step (by norm_num) (by norm_num)).1

/-! ## C3: the slew bound over reachable states -/

/-- C3, counterexample: after `init()` on the six UR joints (every limit non-negative,
`max_vel_change_` non-negative throughout), the host starts the velocity controller,
sets the step to `0.1`, asks for `100` on the first joint and lets `write()` run twice.
The third `write()` then issues the double nearest to `0.2 + 0.1`, which is
`0.30000000000000004`: it exceeds the previous `0.2` by more than the step `0.1`, both
in exact arithmetic and when the difference is computed in doubles. -/
theorem write_slew_bound_rounding :
    bootState.init urJoints = .ok readyState ∧
      (∀ j, j < readyState.num_joints_ →
        (0 : Dbl) ≤ readyState.joint_velocity_limits_.getD j 0) ∧
      (0 : Dbl) ≤ bootState.max_vel_change_ ∧
      (∀ inp, HostOp.setMaxVelChange inp ∈ twoWriteOps → (0 : Dbl) ≤ inp) ∧
      ∃ s cmd s1 ev, readyState.run twoWriteOps = .ok s ∧
        s.velocity_interface_running_ = true ∧
        s.writeLimiter = .ok (cmd, s1) ∧ s.write = .ok (s1, ev) ∧
        s.max_vel_change_ = fin (3602879701896397 / 36028797018963968) ∧
        s.prev_joint_velocity_command_.getD 0 0
          = fin (3602879701896397 / 18014398509481984) ∧
        cmd.getD 0 0 = fin (1351079888211149 / 4503599627370496) ∧
        (3602879701896397 / 36028797018963968 : ℚ)
          < 1351079888211149 / 4503599627370496 - 3602879701896397 / 18014398509481984 ∧
        ¬ (cmd.getD 0 0 - s.prev_joint_velocity_command_.getD 0 0 ≤ s.max_vel_change_) := by
  refine ⟨readyState_init, readyState_limits, (lit_unit_step (by norm_num) (by norm_num)).1,
    twoWriteOps_steps, ?_⟩
  obtain ⟨sk, hrun, hsk, hn, hvk, hj, hlim, hmk, hp⟩ :=
    writes_spec 2 commandedState commandedState_sized (by decide) rfl
  obtain ⟨cmd, hwl, hw, _, hval⟩ := write_velocity sk hsk (by rw [hn]; decide) hvk
  obtain ⟨r, er, r1, _⟩ := readyState_limit_bounds 0 (by decide)
  have el : commandedState.joint_velocity_limits_.getD 0 0 = fin r := er
  obtain ⟨t1, t2, t3, _, _, _⟩ := tenth_ramp_steps el r1
  have em : sk.max_vel_change_ = lit (1 / 10) := hmk
  have ep : sk.prev_joint_velocity_command_.getD 0 0
      = fin (3602879701896397 / 18014398509481984) := by
    have h0 := hp 0 (by decide)
    have h1 : sk.prev_joint_velocity_command_.getD 0 0
        = limitVelocity 100 (limitVelocity 100 0 (lit (1 / 10))
            (commandedState.joint_velocity_limits_.getD 0 0)) (lit (1 / 10))
            (commandedState.joint_velocity_limits_.getD 0 0) := h0
    rw [h1, t1, t2]
  have ec : cmd.getD 0 0 = fin (1351079888211149 / 4503599627370496) := by
    rw [hval 0 (by rw [hn]; decide), hj, hlim, em, ep]
    exact t3
  refine ⟨sk, cmd, _, _, ?_, hvk, hwl, hw, ?_, ep, ec, by norm_num, ?_⟩
  · have h2 : readyState.run twoWriteOps = commandedState.run [.write, .write] :=
      run_append demoOps [.write, .write] readyState commandedState demoOps_run
    rw [h2]
    exact hrun
  · rw [em]
    exact lit_tenth
  · rw [ec, ep, em, lit_tenth, sub_eq, neg_fin, fin_add_fin,
      show (1351079888211149 / 4503599627370496 + -(3602879701896397 / 18014398509481984) : ℚ)
        = 1801439850948199 / 18014398509481984 by norm_num,
      round_ramp3_diff]
    simp only [fin_le_fin]
    norm_num

/-- C3 (slew bound over reachable states), amended: after `init()` has returned with
every velocity limit non-negative, with `max_vel_change_` finite and non-negative
initially and at every later `setMaxVelChange`, and with no NaN among the desired
velocities (those of the constructor and those the host writes), in every state reached
by any sequence of host operations (command writes through the handles, `read`, `write`,
`doSwitch`, `setMaxVelChange`) a velocity-mode `write()` returns and issues for every
joint a command between the doubles `prev - max_vel_change_` and
`prev + max_vel_change_`, the difference and the sum being rounded as the code computes
them. -/
theorem write_slew_bound_reachable (boot s0 s : UrHardwareInterface) (joints : List String)
    (ops : List HostOp) (hinit : boot.init joints = .ok s0)
    (hlim : ∀ j, j < s0.num_joints_ → (0 : Dbl) ≤ s0.joint_velocity_limits_.getD j 0)
    (hstep : (0 : Dbl) ≤ boot.max_vel_change_ ∧ boot.max_vel_change_.IsFinite)
    (hops : ∀ inp, HostOp.setMaxVelChange inp ∈ ops → (0 : Dbl) ≤ inp ∧ inp.IsFinite)
    (hboot : ∀ x, x ∈ boot.joint_velocity_command_ → x ≠ nan)
    (hcmds : ∀ i x, HostOp.setVelocityCommand i x ∈ ops → x ≠ nan)
    (hrun : s0.run ops = .ok s) (hv : s.velocity_interface_running_ = true) :
    ∃ cmd s1 ev, s.writeLimiter = .ok (cmd, s1) ∧ s.write = .ok (s1, ev) ∧
      ∀ i, i < s.num_joints_ →
        s.prev_joint_velocity_command_.getD i 0 - s.max_vel_change_ ≤ cmd.getD i 0 ∧
          cmd.getD i 0 ≤ s.prev_joint_velocity_command_.getD i 0 + s.max_vel_change_ := by
  have hinv0 : s0.LimiterInv := init_limiterInv hinit hlim hstep hboot
  have hinv := run_keeps_inv ops s0 s hinv0 hops hcmds hrun
  obtain ⟨cmd, hl, hw, _, hval⟩ := write_velocity s hinv.sized hinv.six hv
  refine ⟨cmd, _, _, hl, hw, ?_⟩
  intro i hi
  obtain ⟨y, ey, hy⟩ := finite_nonneg hinv.step.1 hinv.step.2
  rw [hval i hi, ey]
  exact limitVelocity_slew _ _ _ y (hinv.desired i hi) hy (hinv.limits i hi).2
    (hinv.prev i hi).1 (hinv.prev i hi).2

theorem write_slew_bound_reachable_witness :
    (bootState.init urJoints = .ok readyState ∧
      (∀ j, j < readyState.num_joints_ →
        (0 : Dbl) ≤ readyState.joint_velocity_limits_.getD j 0) ∧
      ((0 : Dbl) ≤ bootState.max_vel_change_ ∧ bootState.max_vel_change_.IsFinite) ∧
      (∀ inp, HostOp.setMaxVelChange inp ∈ demoOps → (0 : Dbl) ≤ inp ∧ inp.IsFinite) ∧
      (∀ x, x ∈ bootState.joint_velocity_command_ → x ≠ nan) ∧
      (∀ i x, HostOp.setVelocityCommand i x ∈ demoOps → x ≠ nan) ∧
      readyState.run demoOps = .ok commandedState ∧
      commandedState.velocity_interface_running_ = true) ∧
    ∃ cmd s1 ev, commandedState.writeLimiter = .ok (cmd, s1) ∧
      commandedState.write = .ok (s1, ev) ∧
      ∀ i, i < commandedState.num_joints_ →
        commandedState.prev_joint_velocity_command_.getD i 0 - commandedState.max_vel_change_
            ≤ cmd.getD i 0 ∧
          cmd.getD i 0 ≤ commandedState.prev_joint_velocity_command_.getD i 0
            + commandedState.max_vel_change_ :=
  ⟨⟨readyState_init, readyState_limits, lit_unit_step (by norm_num) (by norm_num),
      demoOps_steps, fun x hx => absurd hx (List.not_mem_nil x), demoOps_commands,
      demoOps_run, rfl⟩,
    write_slew_bound_reachable bootState readyState commandedState urJoints demoOps
      readyState_init readyState_limits (lit_unit_step (by norm_num) (by norm_num))
      demoOps_steps (fun x hx => absurd hx (List.not_mem_nil x)) demoOps_commands
      demoOps_run rfl⟩

/-! ## C13 and C20: the ramp under a held command -/

/-- The first six values issued from rest by `slowRampState` on the first joint. -/
theorem slowRamp_steps :
    limitVelocity 100 0 (lit (1 / 10)) 2 = fin (3602879701896397 / 36028797018963968) ∧
      limitVelocity 100 (fin (3602879701896397 / 36028797018963968)) (lit (1 / 10)) 2
        = fin (3602879701896397 / 18014398509481984) ∧
      limitVelocity 100 (fin (3602879701896397 / 18014398509481984)) (lit (1 / 10)) 2
        = fin (1351079888211149 / 4503599627370496) ∧
      limitVelocity 100 (fin (1351079888211149 / 4503599627370496)) (lit (1 / 10)) 2
        = fin (3602879701896397 / 9007199254740992) ∧
      limitVelocity 100 (fin (3602879701896397 / 9007199254740992)) (lit (1 / 10)) 2
        = fin (1 / 2) ∧
      limitVelocity 100 (fin (1 / 2)) (lit (1 / 10)) 2
        = fin (5404319552844595 / 9007199254740992) :=
  tenth_ramp_steps (ofNat_eq_fin 2) (by norm_num)

/-- C13, counterexample: from rest with the desired velocity held at `100`, the step
`0.1` and the limit `2.0`, the third consecutive `write()` issues the double nearest to
`0.2 + 0.1`, which exceeds the value `0.2` issued before it by more than the step, both
in exact arithmetic and when the increase is computed in doubles. -/
theorem ramp_increase_exceeds_step :
    slowRampState.prev_joint_velocity_command_.getD 0 0 = 0 ∧
      (0 : Dbl) ≤ slowRampState.max_vel_change_ ∧
      (0 : Dbl) ≤ slowRampState.joint_velocity_limits_.getD 0 0 ∧
      (0 : Dbl) ≤ slowRampState.joint_velocity_command_.getD 0 0 ∧
      ∃ sk cmd s1 ev, slowRampState.run (List.replicate 2 HostOp.write) = .ok sk ∧
        sk.writeLimiter = .ok (cmd, s1) ∧ sk.write = .ok (s1, ev) ∧
        slowRampState.max_vel_change_ = fin (3602879701896397 / 36028797018963968) ∧
        sk.prev_joint_velocity_command_.getD 0 0
          = fin (3602879701896397 / 18014398509481984) ∧
        cmd.getD 0 0 = fin (1351079888211149 / 4503599627370496) ∧
        (3602879701896397 / 36028797018963968 : ℚ)
          < 1351079888211149 / 4503599627370496 - 3602879701896397 / 18014398509481984 ∧
        ¬ (cmd.getD 0 0 - sk.prev_joint_velocity_command_.getD 0 0
            ≤ slowRampState.max_vel_change_) := by
  obtain ⟨sk, hrun, hsk, hn, hvk, hj, hlim, hmk, hp⟩ :=
    writes_spec 2 slowRampState slowRampState_sized (by decide) rfl
  obtain ⟨cmd, hwl, hw, _, hval⟩ := write_velocity sk hsk (by rw [hn]; decide) hvk
  obtain ⟨t1, t2, t3, _, _, _⟩ := slowRamp_steps
  have em : sk.max_vel_change_ = lit (1 / 10) := hmk
  have em0 : slowRampState.max_vel_change_ = lit (1 / 10) := rfl
  have ep : sk.prev_joint_velocity_command_.getD 0 0
      = fin (3602879701896397 / 18014398509481984) := by
    have h0 := hp 0 (by decide)
    have h1 : sk.prev_joint_velocity_command_.getD 0 0
        = limitVelocity 100 (limitVelocity 100 0 (lit (1 / 10)) 2) (lit (1 / 10)) 2 := h0
    rw [h1, t1, t2]
  have ec : cmd.getD 0 0 = fin (1351079888211149 / 4503599627370496) := by
    rw [hval 0 (by rw [hn]; decide), hj, hlim, em, ep]
    exact t3
  refine ⟨rfl, (lit_unit_step (by norm_num) (by norm_num)).1, by decide, by decide,
    sk, cmd, _, _, hrun, hwl, hw, ?_, ep, ec, by norm_num, ?_⟩
  · rw [em0]
    exact lit_tenth
  · rw [ec, ep, em0, lit_tenth, sub_eq, neg_fin, fin_add_fin,
      show (1351079888211149 / 4503599627370496 + -(3602879701896397 / 18014398509481984) : ℚ)
        = 1801439850948199 / 18014398509481984 by norm_num,
      round_ramp3_diff]
    simp only [fin_le_fin]
    norm_num

/-- C13 (iterated limiter under a held command), amended: for a joint at rest
(`prev_joint_velocity_command_[i] = 0`) with a held desired velocity `d >= 0`, with
`max_vel_change_` finite and non-negative and a limit `>= 0` (`d` and the limit being
doubles), any number `k` of consecutive velocity-mode `write()` calls return, and the
next one issues a value that is not below the value issued before it (the initial `0`
when `k = 0`), is not above the double `prev + max_vel_change_` (the rounded sum), and
does not exceed the limit. -/
theorem ramp_monotone_bounded (s : UrHardwareInterface) (i k : Nat) (hs : s.Sized)
    (h6 : 6 ≤ s.num_joints_) (hv : s.velocity_interface_running_ = true)
    (hi : i < s.num_joints_) (hprev : s.prev_joint_velocity_command_.getD i 0 = 0)
    (hm : (0 : Dbl) ≤ s.max_vel_change_) (hf : s.max_vel_change_.IsFinite)
    (hl : (0 : Dbl) ≤ s.joint_velocity_limits_.getD i 0)
    (hld : (s.joint_velocity_limits_.getD i 0).IsDouble)
    (hd : (0 : Dbl) ≤ s.joint_velocity_command_.getD i 0)
    (hdd : (s.joint_velocity_command_.getD i 0).IsDouble) :
    ∃ sk cmd s1 ev, s.run (List.replicate k HostOp.write) = .ok sk ∧
      sk.writeLimiter = .ok (cmd, s1) ∧ sk.write = .ok (s1, ev) ∧
      sk.prev_joint_velocity_command_.getD i 0 ≤ cmd.getD i 0 ∧
      cmd.getD i 0 ≤ sk.prev_joint_velocity_command_.getD i 0 + s.max_vel_change_ ∧
      cmd.getD i 0 ≤ s.joint_velocity_limits_.getD i 0 := by
  obtain ⟨sk, hrun, hsk, hn, hvk, hj, hlim, hmk, hp⟩ := writes_spec k s hs h6 hv
  obtain ⟨cmd, hwl, hw, _, hval⟩ := write_velocity sk hsk (by omega) hvk
  obtain ⟨y, ey, hy⟩ := finite_nonneg hm hf
  have e1 := hp i hi
  rw [hprev, ey] at e1
  obtain ⟨_, xdbl, x0, xd, xl⟩ := limitVelocity_iterate hy hdd hld hd hl k
  rw [← e1] at xdbl x0 xd xl
  have e2 := hval i (by omega)
  rw [hj, hlim, hmk, ey] at e2
  obtain ⟨_, s2, s3, _, s5, _, _⟩ := limitVelocity_ramp_step hy hdd hld xdbl x0 xd xl
  rw [← e2] at s2 s3 s5
  rw [ey]
  exact ⟨sk, cmd, _, _, hrun, hwl, hw, s2, s3, s5⟩

theorem rampState_step_pos : (0 : Dbl) < rampState.max_vel_change_ := by
  have h16 : IsDouble (fin (1 / 16)) := by
    have := isDouble_of_form 1 (-4) (by norm_num) (by norm_num) (by norm_num)
    norm_num at this
    exact this
  obtain ⟨r, e, r0, _⟩ :=
    round_between (q := 12 / 100) (1 / 16) 1 (by norm_num) (by norm_num)
      h16 isDouble_one
  have e' : rampState.max_vel_change_ = fin r := e
  rw [e', zero_eq]
  simp only [fin_lt_fin]
  linarith

theorem rampState_command_ok :
    (0 : Dbl) ≤ rampState.joint_velocity_command_.getD 0 0 ∧
      (rampState.joint_velocity_command_.getD 0 0).IsDouble ∧
      (0 : Dbl) ≤ rampState.joint_velocity_limits_.getD 0 0 ∧
      (rampState.joint_velocity_limits_.getD 0 0).IsDouble :=
  ⟨by decide, isDouble_natCast 100 (by norm_num), by decide, isDouble_natCast 2 (by norm_num)⟩

theorem ramp_monotone_bounded_witness :
    (rampState.Sized ∧ 6 ≤ rampState.num_joints_ ∧
      rampState.velocity_interface_running_ = true ∧ 0 < rampState.num_joints_ ∧
      rampState.prev_joint_velocity_command_.getD 0 0 = 0 ∧
      (0 : Dbl) ≤ rampState.max_vel_change_ ∧ rampState.max_vel_change_.IsFinite ∧
      (0 : Dbl) ≤ rampState.joint_velocity_limits_.getD 0 0 ∧
      (rampState.joint_velocity_limits_.getD 0 0).IsDouble ∧
      (0 : Dbl) ≤ rampState.joint_velocity_command_.getD 0 0 ∧
      (rampState.joint_velocity_command_.getD 0 0).IsDouble) ∧
    (rampState.joint_velocity_command_.getD 0 0 = 100 ∧
      rampState.max_vel_change_ = lit (12 / 100) ∧
      rampState.joint_velocity_limits_.getD 0 0 = 2) ∧
    ∃ sk cmd s1 ev, rampState.run (List.replicate 20 HostOp.write) = .ok sk ∧
      sk.writeLimiter = .ok (cmd, s1) ∧ sk.write = .ok (s1, ev) ∧
      sk.prev_joint_velocity_command_.getD 0 0 ≤ cmd.getD 0 0 ∧
      cmd.getD 0 0 ≤ sk.prev_joint_velocity_command_.getD 0 0 + rampState.max_vel_change_ ∧
      cmd.getD 0 0 ≤ rampState.joint_velocity_limits_.getD 0 0 :=
  ⟨⟨rampState_sized, by decide, rfl, by decide, rfl, rampState_step_ok.1,
      rampState_step_ok.2, rampState_command_ok.2.2.1, rampState_command_ok.2.2.2,
      rampState_command_ok.1, rampState_command_ok.2.1⟩,
    ⟨rfl, rfl, rfl⟩,
    ramp_monotone_bounded rampState 0 20 rampState_sized (by decide) rfl (by decide) rfl
      rampState_step_ok.1 rampState_step_ok.2 rampState_command_ok.2.2.1
      rampState_command_ok.2.2.2 rampState_command_ok.1 rampState_command_ok.2.1⟩

/-- C20, counterexample: from rest with the desired velocity held at `100`, the step
`0.1` and the limit `2.0`, the sixth consecutive `write()` issues the running sum of six
rounded additions, `0.6` (the double `5404319552844595 / 2^53`), which is neither the
exact product `6 * maxStep` nor the product computed in doubles,
`0.6000000000000001`; both products are below the desired velocity and the limit. -/
theorem ramp_sum_differs_from_product :
    slowRampState.prev_joint_velocity_command_.getD 0 0 = 0 ∧
      (0 : Dbl) < slowRampState.max_vel_change_ ∧
      slowRampState.joint_velocity_command_.getD 0 0 = 100 ∧
      slowRampState.joint_velocity_limits_.getD 0 0 = 2 ∧
      ∃ sk cmd s1 ev, slowRampState.run (List.replicate 5 HostOp.write) = .ok sk ∧
        sk.writeLimiter = .ok (cmd, s1) ∧ sk.write = .ok (s1, ev) ∧
        cmd.getD 0 0 = fin (5404319552844595 / 9007199254740992) ∧
        slowRampState.max_vel_change_ = fin (3602879701896397 / 36028797018963968) ∧
        (5404319552844595 / 9007199254740992 : ℚ)
          ≠ 6 * (3602879701896397 / 36028797018963968) ∧
        slowRampState.max_vel_change_ * 6 = fin (1351079888211149 / 2251799813685248) ∧
        6 * slowRampState.max_vel_change_ = fin (1351079888211149 / 2251799813685248) ∧
        cmd.getD 0 0 ≠ Dbl.min (Dbl.min (6 * slowRampState.max_vel_change_) 100) 2 := by
  obtain ⟨sk, hrun, hsk, hn, hvk, hj, hlim, hmk, hp⟩ :=
    writes_spec 5 slowRampState slowRampState_sized (by decide) rfl
  obtain ⟨cmd, hwl, hw, _, hval⟩ := write_velocity sk hsk (by rw [hn]; decide) hvk
  obtain ⟨t1, t2, t3, t4, t5, t6⟩ := slowRamp_steps
  have em : sk.max_vel_change_ = lit (1 / 10) := hmk
  have em0 : slowRampState.max_vel_change_ = lit (1 / 10) := rfl
  have e6 : (6 : Dbl) = fin 6 := ofNat_eq_fin 6
  have ep : sk.prev_joint_velocity_command_.getD 0 0 = fin (1 / 2) := by
    have h0 := hp 0 (by decide)
    have h1 : sk.prev_joint_velocity_command_.getD 0 0
        = limitVelocity 100 (limitVelocity 100 (limitVelocity 100 (limitVelocity 100
            (limitVelocity 100 0 (lit (1 / 10)) 2) (lit (1 / 10)) 2) (lit (1 / 10)) 2)
            (lit (1 / 10)) 2) (lit (1 / 10)) 2 := h0
    rw [h1, t1, t2, t3, t4, t5]
  have ec : cmd.getD 0 0 = fin (5404319552844595 / 9007199254740992) := by
    rw [hval 0 (by rw [hn]; decide), hj, hlim, em, ep]
    exact t6
  have p1 : slowRampState.max_vel_change_ * 6
      = fin (1351079888211149 / 2251799813685248) := by
    rw [em0, lit_tenth, e6, fin_mul_fin,
      show (3602879701896397 / 36028797018963968 * 6 : ℚ)
        = 10808639105689191 / 18014398509481984 by norm_num]
    exact round_tenth_times6
  have p2 : 6 * slowRampState.max_vel_change_
      = fin (1351079888211149 / 2251799813685248) := by
    rw [em0, lit_tenth, e6, fin_mul_fin,
      show (6 * (3602879701896397 / 36028797018963968) : ℚ)
        = 10808639105689191 / 18014398509481984 by norm_num]
    exact round_tenth_times6
  refine ⟨rfl, ?_, rfl, rfl, sk, cmd, _, _, hrun, hwl, hw, ec, ?_, by norm_num, p1, p2, ?_⟩
  · rw [em0, lit_tenth, zero_eq]
    simp only [fin_lt_fin]
    norm_num
  · rw [em0]
    exact lit_tenth
  · rw [ec, p2, ofNat_eq_fin 100, ofNat_eq_fin 2]
    unfold Dbl.min
    norm_num

/-- C20 (closed form of the ramp), amended: for a joint at rest with a held desired
velocity `d >= 0`, with `max_vel_change_` finite and positive and a limit `>= 0` (`d` and
the limit being doubles), after `k` consecutive velocity-mode `write()` calls the next
one, which is the `(k+1)`-th, issues exactly `min(min(S, d), limit)`, where `S` is the
running sum of `k + 1` additions of `max_vel_change_`, each rounded to a double; the
running sum never decreases, so when `d >= limit` the issued value is `limit` at every
call whose running sum has reached `limit`. -/
theorem ramp_closed_form (s : UrHardwareInterface) (i k : Nat) (hs : s.Sized)
    (h6 : 6 ≤ s.num_joints_) (hv : s.velocity_interface_running_ = true)
    (hi : i < s.num_joints_) (hprev : s.prev_joint_velocity_command_.getD i 0 = 0)
    (hm : (0 : Dbl) < s.max_vel_change_) (hf : s.max_vel_change_.IsFinite)
    (hl : (0 : Dbl) ≤ s.joint_velocity_limits_.getD i 0)
    (hld : (s.joint_velocity_limits_.getD i 0).IsDouble)
    (hd : (0 : Dbl) ≤ s.joint_velocity_command_.getD i 0)
    (hdd : (s.joint_velocity_command_.getD i 0).IsDouble) :
    ∃ sk cmd s1 ev, s.run (List.replicate k HostOp.write) = .ok sk ∧
      sk.writeLimiter = .ok (cmd, s1) ∧ sk.write = .ok (s1, ev) ∧
      cmd.getD i 0
        = Dbl.min (Dbl.min (rampSum s.max_vel_change_ (k + 1))
            (s.joint_velocity_command_.getD i 0)) (s.joint_velocity_limits_.getD i 0) ∧
      s1.prev_joint_velocity_command_.getD i 0 = cmd.getD i 0 ∧
      rampSum s.max_vel_change_ (k + 1) ≤ rampSum s.max_vel_change_ (k + 2) ∧
      (s.joint_velocity_limits_.getD i 0 ≤ s.joint_velocity_command_.getD i 0 →
        s.joint_velocity_limits_.getD i 0 ≤ rampSum s.max_vel_change_ (k + 1) →
        cmd.getD i 0 = s.joint_velocity_limits_.getD i 0) := by
  obtain ⟨sk, hrun, hsk, hn, hvk, hj, hlim, hmk, hp⟩ := writes_spec k s hs h6 hv
  obtain ⟨cmd, hwl, hw, _, hval⟩ := write_velocity sk hsk (by omega) hvk
  have hm0 : (0 : Dbl) ≤ s.max_vel_change_ := by
    rw [zero_eq] at hm ⊢
    cases hx : s.max_vel_change_ <;> rw [hx] at hm <;> simp at hm ⊢
    exact le_of_lt hm
  obtain ⟨y, ey, hy⟩ := finite_nonneg hm0 hf
  have e1 := hp i hi
  rw [hprev, ey] at e1
  have e2 := hval i (by omega)
  rw [hj, hlim, hmk, ey, e1] at e2
  have e3 : cmd.getD i 0
      = (fun x => limitVelocity (s.joint_velocity_command_.getD i 0) x (fin y)
          (s.joint_velocity_limits_.getD i 0))^[k + 1] 0 := by
    rw [Function.iterate_succ_apply']
    exact e2
  obtain ⟨f1, _, _, _, _⟩ := limitVelocity_iterate hy hdd hld hd hl (k + 1)
  rw [← e3] at f1
  rw [ey]
  refine ⟨sk, cmd, _, _, hrun, hwl, hw, f1, rfl, (rampSum_facts hy (k + 1)).2.2, ?_⟩
  intro h1 h2
  rw [f1]
  apply min_eq_right_of_le
  exact le_min_of_le h2 h1

theorem ramp_closed_form_witness :
    (rampState.Sized ∧ 6 ≤ rampState.num_joints_ ∧
      rampState.velocity_interface_running_ = true ∧ 0 < rampState.num_joints_ ∧
      rampState.prev_joint_velocity_command_.getD 0 0 = 0 ∧
      (0 : Dbl) < rampState.max_vel_change_ ∧ rampState.max_vel_change_.IsFinite ∧
      (0 : Dbl) ≤ rampState.joint_velocity_limits_.getD 0 0 ∧
      (rampState.joint_velocity_limits_.getD 0 0).IsDouble ∧
      (0 : Dbl) ≤ rampState.joint_velocity_command_.getD 0 0 ∧
      (rampState.joint_velocity_command_.getD 0 0).IsDouble) ∧
    ∃ sk cmd s1 ev, rampState.run (List.replicate 16 HostOp.write) = .ok sk ∧
      sk.writeLimiter = .ok (cmd, s1) ∧ sk.write = .ok (s1, ev) ∧
      cmd.getD 0 0
        = Dbl.min (Dbl.min (rampSum rampState.max_vel_change_ (16 + 1))
            (rampState.joint_velocity_command_.getD 0 0))
            (rampState.joint_velocity_limits_.getD 0 0) ∧
      s1.prev_joint_velocity_command_.getD 0 0 = cmd.getD 0 0 ∧
      rampSum rampState.max_vel_change_ (16 + 1)
        ≤ rampSum rampState.max_vel_change_ (16 + 2) ∧
      (rampState.joint_velocity_limits_.getD 0 0 ≤ rampState.joint_velocity_command_.getD 0 0 →
        rampState.joint_velocity_limits_.getD 0 0
          ≤ rampSum rampState.max_vel_change_ (16 + 1) →
        cmd.getD 0 0 = rampState.joint_velocity_limits_.getD 0 0) :=
  ⟨⟨rampState_sized, by decide, rfl, by decide, rfl, rampState_step_pos,
      rampState_step_ok.2, rampState_command_ok.2.2.1, rampState_command_ok.2.2.2,
      rampState_command_ok.1, rampState_command_ok.2.1⟩,
    ramp_closed_form rampState 0 16 rampState_sized (by decide) rfl (by decide) rfl
      rampState_step_pos rampState_step_ok.2 rampState_command_ok.2.2.1
      rampState_command_ok.2.2.2 rampState_command_ok.1 rampState_command_ok.2.1⟩

/-! ## Roundings of the filter examples -/

theorem round_one_minus_tenth : Dbl.round (32425917317067571 / 36028797018963968) = Dbl.fin (8106479329266893 / 9007199254740992) := by
  have h := Dbl.round_eval_near (q := 32425917317067571 / 36028797018963968) (-1) (8106479329266893) (by norm_num)
    (by norm_num [abs_of_pos]) (by norm_num [abs_of_pos]) (by norm_num [abs_lt])
    (Dbl.lt_overflowBound (1) (by norm_num) (by norm_num [abs_lt]))
  rw [h]
  congr 1
  norm_num

theorem round_steady_raw : Dbl.round (105384231280469609 / 9007199254740992) = Dbl.fin (6586514455029351 / 562949953421312) := by
  have h := Dbl.round_eval_near (q := 105384231280469609 / 9007199254740992) (3) (6586514455029351) (by norm_num)
    (by norm_num [abs_of_pos]) (by norm_num [abs_of_pos]) (by norm_num [abs_lt])
    (Dbl.lt_overflowBound (5) (by norm_num) (by norm_num [abs_lt]))
  rw [h]
  congr 1
  norm_num

theorem round_steady_old : Dbl.round (46837436124653161 / 36028797018963968) = Dbl.fin (5854679515581645 / 4503599627370496) := by
  have h := Dbl.round_eval_near (q := 46837436124653161 / 36028797018963968) (0) (5854679515581645) (by norm_num)
    (by norm_num [abs_of_pos]) (by norm_num [abs_of_pos]) (by norm_num [abs_lt])
    (Dbl.lt_overflowBound (2) (by norm_num) (by norm_num [abs_lt]))
  rw [h]
  congr 1
  norm_num

theorem round_steady_sum : Dbl.round (58546795155816453 / 4503599627370496) = Dbl.fin (7318349394477057 / 562949953421312) := by
  have h := Dbl.round_eval_near (q := 58546795155816453 / 4503599627370496) (3) (7318349394477057) (by norm_num)
    (by norm_num [abs_of_pos]) (by norm_num [abs_of_pos]) (by norm_num [abs_lt])
    (Dbl.lt_overflowBound (5) (by norm_num) (by norm_num [abs_lt]))
  rw [h]
  congr 1
  norm_num

theorem round_first_raw : Dbl.round (8106479329266893 / 4503599627370496) = Dbl.fin (8106479329266893 / 4503599627370496) := by
  have h := Dbl.round_eval_near (q := 8106479329266893 / 4503599627370496) (0) (8106479329266893) (by norm_num)
    (by norm_num [abs_of_pos]) (by norm_num [abs_of_pos]) (by norm_num [abs_lt])
    (Dbl.lt_overflowBound (2) (by norm_num) (by norm_num [abs_lt]))
  rw [h]
  congr 1
  norm_num

theorem round_first_sum : Dbl.round (68454714336031541 / 36028797018963968) = Dbl.fin (8556839292003943 / 4503599627370496) := by
  have h := Dbl.round_eval_near (q := 68454714336031541 / 36028797018963968) (0) (8556839292003943) (by norm_num)
    (by norm_num [abs_of_pos]) (by norm_num [abs_of_pos]) (by norm_num [abs_lt])
    (Dbl.lt_overflowBound (2) (by norm_num) (by norm_num [abs_lt]))
  rw [h]
  congr 1
  norm_num

/-- The blend of the steady example: alpha `0.1`, raw sample and old value both `13`. -/
theorem blend_steady :
    blend (lit (1 / 10)) 13 13 = fin (7318349394477057 / 562949953421312) := by
  unfold blend
  rw [lit_tenth, one_eq, ofNat_eq_fin 13, sub_eq, neg_fin, fin_add_fin,
    show (1 + -(3602879701896397 / 36028797018963968) : ℚ) = 32425917317067571 / 36028797018963968 by norm_num,
    round_one_minus_tenth, fin_mul_fin, fin_mul_fin,
    show (8106479329266893 / 9007199254740992 * 13 : ℚ) = 105384231280469609 / 9007199254740992 by norm_num,
    show (3602879701896397 / 36028797018963968 * 13 : ℚ) = 46837436124653161 / 36028797018963968 by norm_num,
    round_steady_raw, round_steady_old, fin_add_fin,
    show (6586514455029351 / 562949953421312 + 5854679515581645 / 4503599627370496 : ℚ) = 58546795155816453 / 4503599627370496 by norm_num,
    round_steady_sum]

/-- The blend of the first joint position of the filtering example: alpha `0.1`, raw
sample `2`, old value `1`. -/
theorem blend_first :
    blend (lit (1 / 10)) 2 1 = fin (8556839292003943 / 4503599627370496) := by
  unfold blend
  rw [lit_tenth, one_eq, ofNat_eq_fin 2, sub_eq, neg_fin, fin_add_fin,
    show (1 + -(3602879701896397 / 36028797018963968) : ℚ) = 32425917317067571 / 36028797018963968 by norm_num,
    round_one_minus_tenth, fin_mul_fin, fin_mul_fin,
    show (8106479329266893 / 9007199254740992 * 2 : ℚ) = 8106479329266893 / 4503599627370496 by norm_num,
    show (3602879701896397 / 36028797018963968 * 1 : ℚ) = 3602879701896397 / 36028797018963968 by norm_num,
    round_first_raw, round_of_isDouble isDouble_tenth, fin_add_fin,
    show (8106479329266893 / 4503599627370496 + 3602879701896397 / 36028797018963968 : ℚ) = 68454714336031541 / 36028797018963968 by norm_num,
    round_first_sum]

/-! ## The filter of `read()` -/

theorem unit_mul_double {b r : ℚ} (b0 : 0 ≤ b) (b1 : b ≤ 1) (hr : IsDouble (fin r)) :
    ∃ x, Dbl.round (b * r) = fin x := by
  rcases le_total 0 r with h | h
  · obtain ⟨x, e, _, _⟩ := round_between (q := b * r) 0 r
      (mul_nonneg b0 h) (by nlinarith) isDouble_zero hr
    exact ⟨x, e⟩
  · obtain ⟨x, e, _, _⟩ := round_between (q := b * r) r 0
      (by nlinarith) (by nlinarith) hr isDouble_zero
    exact ⟨x, e⟩

/-- The blend of finite doubles with an alpha in `[0, 1]`, operation by operation. -/
theorem blend_fin {a r p : ℚ} (a0 : 0 ≤ a) (a1 : a ≤ 1) (hr : IsDouble (fin r))
    (hp : IsDouble (fin p)) :
    ∃ b x z, 0 ≤ b ∧ b ≤ 1 ∧ Dbl.round (1 + -a) = fin b ∧ Dbl.round (b * r) = fin x ∧
      Dbl.round (a * p) = fin z ∧ blend (fin a) (fin r) (fin p) = Dbl.round (x + z) := by
  obtain ⟨b, eb, b0, b1⟩ := round_between (q := 1 + -a) 0 1
    (by linarith) (by linarith) isDouble_zero isDouble_one
  obtain ⟨x, ex⟩ := unit_mul_double b0 b1 hr
  obtain ⟨z, ez⟩ := unit_mul_double a0 a1 hp
  refine ⟨b, x, z, b0, b1, eb, ex, ez, ?_⟩
  unfold blend
  rw [one_eq, sub_eq, neg_fin, fin_add_fin, eb, fin_mul_fin, fin_mul_fin, ex, ez,
    fin_add_fin]

/-- The blend is monotone in the raw sample and in the old value. -/
theorem blend_mono {a r p r' p' : ℚ} (a0 : 0 ≤ a) (a1 : a ≤ 1) (hr : IsDouble (fin r))
    (hp : IsDouble (fin p)) (hr' : IsDouble (fin r')) (hp' : IsDouble (fin p'))
    (h1 : r ≤ r') (h2 : p ≤ p') :
    blend (fin a) (fin r) (fin p) ≤ blend (fin a) (fin r') (fin p') := by
  obtain ⟨b, x, z, b0, _, eb, ex, ez, e⟩ := blend_fin a0 a1 hr hp
  obtain ⟨b', x', z', _, _, eb', ex', ez', e'⟩ := blend_fin a0 a1 hr' hp'
  have hb : b' = b := by
    rw [eb] at eb'
    exact (fin.inj eb').symm
  subst hb
  have hx : x ≤ x' := by
    have := round_mono (mul_le_mul_of_nonneg_left h1 b0)
    rw [ex, ex'] at this
    simpa using this
  have hz : z ≤ z' := by
    have := round_mono (mul_le_mul_of_nonneg_left h2 a0)
    rw [ez, ez'] at this
    simpa using this
  rw [e, e']
  exact round_mono (by linarith)

/-- With alpha in `[0, 1]` and finite doubles, the blend lies between the blend of the
smaller input with itself and the blend of the larger input with itself. -/
theorem blend_bracketed {alpha raw prev : Dbl} (h0 : (0 : Dbl) ≤ alpha) (h1 : alpha ≤ 1)
    (hr : raw.IsFiniteDouble) (hp : prev.IsFiniteDouble) :
    Bracketed alpha raw prev (blend alpha raw prev) := by
  rw [zero_eq] at h0
  rw [one_eq] at h1
  cases alpha with
  | nan => simp at h0
  | ninf => simp at h0
  | pinf => simp at h1
  | fin a =>
    simp only [fin_le_fin] at h0 h1
    cases raw with
    | nan => exact absurd hr.1 (by simp [IsFinite])
    | ninf => exact absurd hr.1 (by simp [IsFinite])
    | pinf => exact absurd hr.1 (by simp [IsFinite])
    | fin r =>
      cases prev with
      | nan => exact absurd hp.1 (by simp [IsFinite])
      | ninf => exact absurd hp.1 (by simp [IsFinite])
      | pinf => exact absurd hp.1 (by simp [IsFinite])
      | fin p =>
        have dr := hr.2
        have dp := hp.2
        unfold Bracketed Dbl.min Dbl.max
        simp only [fin_lt_fin]
        by_cases hlt : p < r
        · have hnot : ¬ r < p := not_lt.mpr (le_of_lt hlt)
          rw [if_pos hlt, if_neg hnot]
          exact ⟨blend_mono h0 h1 dp dp dr dp (le_of_lt hlt) (le_refl p),
            blend_mono h0 h1 dr dp dr dr (le_refl r) (le_of_lt hlt)⟩
        · rw [if_neg hlt]
          have hle : r ≤ p := not_lt.mp hlt
          by_cases hlt2 : r < p
          · rw [if_pos hlt2]
            exact ⟨blend_mono h0 h1 dr dr dr dp (le_refl r) hle,
              blend_mono h0 h1 dr dp dp dp hle (le_refl p)⟩
          · rw [if_neg hlt2]
            have hpr : p ≤ r := not_lt.mp hlt2
            exact ⟨blend_mono h0 h1 dr dr dr dp (le_refl r) hle,
              blend_mono h0 h1 dr dp dr dr (le_refl r) hpr⟩

/-- With alpha zero the blend of a double with a finite old value is the double. -/
theorem blend_zero {raw prev : Dbl} (hr : raw.IsDouble) (hp : prev.IsFinite) :
    blend 0 raw prev = raw := by
  have e1 : (1 : Dbl) - 0 = fin 1 := by
    rw [one_eq, zero_eq, sub_eq, neg_fin, fin_add_fin]
    simp only [neg_zero, add_zero]
    exact round_one
  cases prev with
  | nan => exact absurd hp (by simp [IsFinite])
  | ninf => exact absurd hp (by simp [IsFinite])
  | pinf => exact absurd hp (by simp [IsFinite])
  | fin p =>
    unfold blend
    rw [e1, zero_eq, fin_mul_fin, zero_mul, round_zero]
    cases raw with
    | nan => rfl
    | ninf =>
      rw [fin_mul_ninf]
      simp [infTimes]
    | pinf =>
      rw [fin_mul_pinf]
      simp [infTimes]
    | fin r =>
      have h : Dbl.round r = fin r := hr
      rw [fin_mul_fin, one_mul, h, fin_add_fin, add_zero, h]

theorem specFilter_alpha_zero (enabled : Bool) {raw old : Dbl} (hr : raw.IsDouble)
    (ho : old.IsFinite) : specFilter enabled 0 raw old = raw := by
  unfold specFilter
  split_ifs
  · exact blend_zero hr ho
  · rfl

/-! ## C9: `read()` applies the filter -/

/-- C9 (read applies the filter element-wise): when the driver delivers at least
`num_joints_` joint values and at least six wrench values, `read()` returns, and every
new `joint_position_[i]`, `joint_velocity_[i]`, `joint_effort_[i]`, `robot_force_[k]`
and `robot_torque_[k]` is the filter of the specification (the raw value when
`low_pass_filter` is off, `(1 - alpha) * raw + alpha * previous` when it is on) applied,
with the channel's own alpha, to the raw sample `pos[i]`, `vel[i]`, `current[i]`,
`tcp[k]`, `tcp[k+3]` and the previous value of that same element and nothing else. -/
theorem read_applies_filter (s : UrHardwareInterface) (pos vel current tcp : List Dbl)
    (hs : s.Sized) (hw : s.WrenchSized) (hpos : s.num_joints_ ≤ pos.length)
    (hvel : s.num_joints_ ≤ vel.length) (hcur : s.num_joints_ ≤ current.length)
    (htcp : 6 ≤ tcp.length) :
    ∃ s1, s.read pos vel current tcp = .ok s1 ∧
      (∀ i, i < s.num_joints_ →
        s1.joint_position_.getD i 0
          = specFilter s.low_pass_filter s.pos_alpha (pos.getD i 0) (s.joint_position_.getD i 0) ∧
        s1.joint_velocity_.getD i 0
          = specFilter s.low_pass_filter s.vel_alpha (vel.getD i 0) (s.joint_velocity_.getD i 0) ∧
        s1.joint_effort_.getD i 0
          = specFilter s.low_pass_filter s.eff_alpha (current.getD i 0)
              (s.joint_effort_.getD i 0)) ∧
      (∀ k, k < 3 →
        s1.robot_force_.getD k 0
          = specFilter s.low_pass_filter s.frc_alpha (tcp.getD k 0) (s.robot_force_.getD k 0) ∧
        s1.robot_torque_.getD k 0
          = specFilter s.low_pass_filter s.trq_alpha (tcp.getD (k + 3) 0)
              (s.robot_torque_.getD k 0)) := by
  obtain ⟨ps, vs, es, fs, ts, hrun, hj, hk⟩ := read_spec s pos vel current tcp hs hw hpos hvel hcur htcp
  exact ⟨_, hrun, hj, hk⟩

/-- The function `read()` evaluated on `filteringState` and the raw samples: every sensed
element is the blend, computed in doubles, of its raw sample and its old value. -/
theorem filteringState_read :
    filteringState.read rawPos rawVel rawCurrent rawTcp = .ok
      { filteringState with
        joint_position_ :=
          [blend (lit (1 / 10)) 2 1, blend (lit (1 / 10)) 0 1, blend (lit (1 / 10)) 1 1,
           blend (lit (1 / 10)) 3 1, blend (lit (1 / 10)) (-1) 1, blend (lit (1 / 10)) 1 1]
        joint_velocity_ :=
          [blend (lit (1 / 10)) 1 0, blend (lit (1 / 10)) (-1) 0, blend (lit (1 / 10)) 0 0,
           blend (lit (1 / 10)) 3 0, blend (lit (1 / 10)) 0 0, blend (lit (1 / 10)) 0 0]
        joint_effort_ :=
          [blend (lit (1 / 10)) 3 2, blend (lit (1 / 10)) 2 2, blend (lit (1 / 10)) 1 2,
           blend (lit (1 / 10)) 0 2, blend (lit (1 / 10)) 2 2, blend (lit (1 / 10)) 4 2]
        robot_force_ :=
          [blend (lit (1 / 10)) 20 10, blend (lit (1 / 10)) 0 0, blend (lit (1 / 10)) (-20) (-10)]
        robot_torque_ :=
          [blend (lit (1 / 10)) 2 1, blend (lit (1 / 10)) 0 0, blend (lit (1 / 10)) (-2) (-1)] } :=
  rfl

theorem read_applies_filter_witness :
    (filteringState.Sized ∧ filteringState.WrenchSized ∧
      filteringState.num_joints_ ≤ rawPos.length ∧ filteringState.num_joints_ ≤ rawVel.length ∧
      filteringState.num_joints_ ≤ rawCurrent.length ∧ 6 ≤ rawTcp.length) ∧
    (∃ s1, filteringState.read rawPos rawVel rawCurrent rawTcp = .ok s1 ∧
      (∀ i, i < filteringState.num_joints_ →
        s1.joint_position_.getD i 0
          = specFilter filteringState.low_pass_filter filteringState.pos_alpha
              (rawPos.getD i 0) (filteringState.joint_position_.getD i 0) ∧
        s1.joint_velocity_.getD i 0
          = specFilter filteringState.low_pass_filter filteringState.vel_alpha
              (rawVel.getD i 0) (filteringState.joint_velocity_.getD i 0) ∧
        s1.joint_effort_.getD i 0
          = specFilter filteringState.low_pass_filter filteringState.eff_alpha
              (rawCurrent.getD i 0) (filteringState.joint_effort_.getD i 0)) ∧
      (∀ k, k < 3 →
        s1.robot_force_.getD k 0
          = specFilter filteringState.low_pass_filter filteringState.frc_alpha
              (rawTcp.getD k 0) (filteringState.robot_force_.getD k 0) ∧
        s1.robot_torque_.getD k 0
          = specFilter filteringState.low_pass_filter filteringState.trq_alpha
              (rawTcp.getD (k + 3) 0) (filteringState.robot_torque_.getD k 0))) ∧
    (filteringState.read rawPos rawVel rawCurrent rawTcp = .ok
      { filteringState with
        joint_position_ :=
          [blend (lit (1 / 10)) 2 1, blend (lit (1 / 10)) 0 1, blend (lit (1 / 10)) 1 1,
           blend (lit (1 / 10)) 3 1, blend (lit (1 / 10)) (-1) 1, blend (lit (1 / 10)) 1 1]
        joint_velocity_ :=
          [blend (lit (1 / 10)) 1 0, blend (lit (1 / 10)) (-1) 0, blend (lit (1 / 10)) 0 0,
           blend (lit (1 / 10)) 3 0, blend (lit (1 / 10)) 0 0, blend (lit (1 / 10)) 0 0]
        joint_effort_ :=
          [blend (lit (1 / 10)) 3 2, blend (lit (1 / 10)) 2 2, blend (lit (1 / 10)) 1 2,
           blend (lit (1 / 10)) 0 2, blend (lit (1 / 10)) 2 2, blend (lit (1 / 10)) 4 2]
        robot_force_ :=
          [blend (lit (1 / 10)) 20 10, blend (lit (1 / 10)) 0 0, blend (lit (1 / 10)) (-20) (-10)]
        robot_torque_ :=
          [blend (lit (1 / 10)) 2 1, blend (lit (1 / 10)) 0 0,
           blend (lit (1 / 10)) (-2) (-1)] }) ∧
    blend (lit (1 / 10)) 2 1 = fin (8556839292003943 / 4503599627370496) :=
  ⟨⟨filteringState_sized, filteringState_wrenchSized, by decide, by decide, by decide,
      by decide⟩,
    read_applies_filter filteringState rawPos rawVel rawCurrent rawTcp filteringState_sized
      filteringState_wrenchSized (by decide) (by decide) (by decide) (by decide),
    filteringState_read, blend_first⟩

/-! ## C10: the filter output and the convex combination -/

/-- C11, counterexample: with filtering enabled, every alpha zero and an infinite value
stored for the first joint position by an earlier cycle, `read()` computes
`(1 - 0) * 2 + 0 * inf`, where `0 * inf` is a NaN: it stores a NaN and not the raw
sample `2`, unlike the `read()` with filtering disabled. -/
theorem read_alpha_zero_keeps_infinity :
    saturatedState.low_pass_filter = true ∧
      (saturatedState.pos_alpha = 0 ∧ saturatedState.vel_alpha = 0 ∧
        saturatedState.eff_alpha = 0 ∧ saturatedState.frc_alpha = 0 ∧
        saturatedState.trq_alpha = 0) ∧
      saturatedState.joint_position_.getD 0 0 = pinf ∧ rawPos.getD 0 0 = 2 ∧
      ∃ s1 s2, saturatedState.read rawPos rawVel rawCurrent rawTcp = .ok s1 ∧
        ({ saturatedState with low_pass_filter := false } : UrHardwareInterface).read
          rawPos rawVel rawCurrent rawTcp = .ok s2 ∧
        s1.joint_position_.getD 0 0 = nan ∧
        s1.joint_position_.getD 0 0 ≠ rawPos.getD 0 0 ∧
        s2.joint_position_.getD 0 0 = 2 ∧
        s1.joint_position_ ≠ s2.joint_position_ := by
  have hs : saturatedState.Sized := ⟨rfl, rfl, rfl, rfl, rfl, rfl, rfl⟩
  have hw : saturatedState.WrenchSized := ⟨rfl, rfl⟩
  obtain ⟨ps, vs, es, fs, ts, hrun, hj, _⟩ :=
    read_spec saturatedState rawPos rawVel rawCurrent rawTcp hs hw (by decide) (by decide)
      (by decide) (by decide)
  obtain ⟨ps2, vs2, es2, fs2, ts2, hrun2, hj2, _⟩ :=
    read_spec { saturatedState with low_pass_filter := false } rawPos rawVel rawCurrent
      rawTcp ⟨rfl, rfl, rfl, rfl, rfl, rfl, rfl⟩ ⟨rfl, rfl⟩ (by decide) (by decide)
      (by decide) (by decide)
  have e0 : ps.getD 0 0 = nan := by
    rw [(hj 0 (by decide)).1]
    show (1 - 0) * 2 + (0 : Dbl) * pinf = nan
    rw [zero_eq, fin_mul_pinf]
    simp [infTimes]
  have e2 : ps2.getD 0 0 = 2 := (hj2 0 (by decide)).1
  refine ⟨rfl, ⟨rfl, rfl, rfl, rfl, rfl⟩, rfl, rfl, _, _, hrun, hrun2, e0, ?_, e2, ?_⟩
  · show ps.getD 0 0 ≠ rawPos.getD 0 0
    rw [e0]
    show nan ≠ (2 : Dbl)
    rw [ofNat_eq_fin 2]
    simp
  · show ps ≠ ps2
    intro h
    rw [h, e2, ofNat_eq_fin 2] at e0
    simp at e0

/-- C11 (alpha = 0 and the bypass), amended: with `low_pass_filter` enabled and all
five alphas zero, the driver delivering enough values that are doubles, and every
stored sensed value finite, `read()` returns with every joint position, velocity and
effort and every force and torque axis equal to its raw sample; the sensed vectors are
the same as the ones `read()` produces from the same object with filtering disabled. -/
theorem read_alpha_zero_is_bypass (s : UrHardwareInterface) (pos vel current tcp : List Dbl)
    (hs : s.Sized) (hw : s.WrenchSized) (hpos : s.num_joints_ ≤ pos.length)
    (hvel : s.num_joints_ ≤ vel.length) (hcur : s.num_joints_ ≤ current.length)
    (htcp : 6 ≤ tcp.length) (hf : s.low_pass_filter = true)
    (ha : s.pos_alpha = 0 ∧ s.vel_alpha = 0 ∧ s.eff_alpha = 0 ∧ s.frc_alpha = 0 ∧
      s.trq_alpha = 0)
    (hraw : ∀ i, i < s.num_joints_ → (pos.getD i 0).IsDouble ∧ (vel.getD i 0).IsDouble ∧
      (current.getD i 0).IsDouble)
    (hrawTcp : ∀ k, k < 6 → (tcp.getD k 0).IsDouble)
    (hold : ∀ i, i < s.num_joints_ → (s.joint_position_.getD i 0).IsFinite ∧
      (s.joint_velocity_.getD i 0).IsFinite ∧ (s.joint_effort_.getD i 0).IsFinite)
    (holdTcp : ∀ k, k < 3 → (s.robot_force_.getD k 0).IsFinite ∧
      (s.robot_torque_.getD k 0).IsFinite) :
    ∃ s1 s2, s.read pos vel current tcp = .ok s1 ∧
      ({ s with low_pass_filter := false } : UrHardwareInterface).read pos vel current tcp
        = .ok s2 ∧
      (∀ i, i < s.num_joints_ →
        s1.joint_position_.getD i 0 = pos.getD i 0 ∧
        s1.joint_velocity_.getD i 0 = vel.getD i 0 ∧
        s1.joint_effort_.getD i 0 = current.getD i 0) ∧
      (∀ k, k < 3 →
        s1.robot_force_.getD k 0 = tcp.getD k 0 ∧
        s1.robot_torque_.getD k 0 = tcp.getD (k + 3) 0) ∧
      s1.joint_position_ = s2.joint_position_ ∧ s1.joint_velocity_ = s2.joint_velocity_ ∧
      s1.joint_effort_ = s2.joint_effort_ ∧ s1.robot_force_ = s2.robot_force_ ∧
      s1.robot_torque_ = s2.robot_torque_ := by
  obtain ⟨a1, a2, a3, a4, a5⟩ := ha
  obtain ⟨ps, vs, es, fs, ts, hrun, hj, hk⟩ :=
    read_spec s pos vel current tcp hs hw hpos hvel hcur htcp
  obtain ⟨ps2, vs2, es2, fs2, ts2, hrun2, hj2, hk2⟩ :=
    read_spec { s with low_pass_filter := false } pos vel current tcp
      ⟨hs.position, hs.velocity, hs.effort, hs.positionCommand, hs.velocityCommand,
        hs.prevCommand, hs.limits⟩ ⟨hw.force, hw.torque⟩ hpos hvel hcur htcp
  obtain ⟨_, l1, l2, l3, l4, l5⟩ := read_frame hrun
  obtain ⟨_, m1, m2, m3, m4, m5⟩ := read_frame hrun2
  simp only [hf, a1, a2, a3, a4, a5] at hj hk
  simp only [specFilter, Bool.false_eq_true, if_false] at hj2 hk2
  have hj' : ∀ i, i < s.num_joints_ →
      ps.getD i 0 = pos.getD i 0 ∧ vs.getD i 0 = vel.getD i 0 ∧
        es.getD i 0 = current.getD i 0 := by
    intro i hi
    obtain ⟨e1, e2, e3⟩ := hj i hi
    obtain ⟨r1, r2, r3⟩ := hraw i hi
    obtain ⟨o1, o2, o3⟩ := hold i hi
    rw [specFilter_alpha_zero true r1 o1] at e1
    rw [specFilter_alpha_zero true r2 o2] at e2
    rw [specFilter_alpha_zero true r3 o3] at e3
    exact ⟨e1, e2, e3⟩
  have hk' : ∀ k, k < 3 →
      fs.getD k 0 = tcp.getD k 0 ∧ ts.getD k 0 = tcp.getD (k + 3) 0 := by
    intro k hk3
    obtain ⟨e1, e2⟩ := hk k hk3
    obtain ⟨o1, o2⟩ := holdTcp k hk3
    rw [specFilter_alpha_zero true (hrawTcp k (by omega)) o1] at e1
    rw [specFilter_alpha_zero true (hrawTcp (k + 3) (by omega)) o2] at e2
    exact ⟨e1, e2⟩
  have n1 := hs.position
  have n2 := hs.velocity
  have n3 := hs.effort
  have n4 := hw.force
  have n5 := hw.torque
  refine ⟨_, _, hrun, hrun2, hj', hk', ?_, ?_, ?_, ?_, ?_⟩
  · apply eq_of_getD (l1.trans m1.symm)
    intro j hjl
    have hjn : j < s.num_joints_ := by rw [← n1, ← l1]; exact hjl
    exact (hj' j hjn).1.trans (hj2 j hjn).1.symm
  · apply eq_of_getD (l2.trans m2.symm)
    intro j hjl
    have hjn : j < s.num_joints_ := by rw [← n2, ← l2]; exact hjl
    exact (hj' j hjn).2.1.trans (hj2 j hjn).2.1.symm
  · apply eq_of_getD (l3.trans m3.symm)
    intro j hjl
    have hjn : j < s.num_joints_ := by rw [← n3, ← l3]; exact hjl
    exact (hj' j hjn).2.2.trans (hj2 j hjn).2.2.symm
  · apply eq_of_getD (l4.trans m4.symm)
    intro j hjl
    have hjn : j < 3 := by rw [← n4, ← l4]; exact hjl
    exact (hk' j hjn).1.trans (hk2 j hjn).1.symm
  · apply eq_of_getD (l5.trans m5.symm)
    intro j hjl
    have hjn : j < 3 := by rw [← n5, ← l5]; exact hjl
    exact (hk' j hjn).2.trans (hk2 j hjn).2.symm

/-- Every element of a list of small integer literals is a finite double. -/
theorem getD_finiteDouble_of_all (l : List Dbl)
    (h : ∀ x, x ∈ l → x.IsFinite ∧ x.IsDouble) (i : Nat) :
    (l.getD i 0).IsFinite ∧ (l.getD i 0).IsDouble := by
  rw [List.getD_eq_getElem?_getD]
  cases hx : l[i]? with
  | none =>
    simp only [Option.getD_none]
    rw [zero_eq]
    exact ⟨trivial, isDouble_zero⟩
  | some x =>
    simp only [Option.getD_some]
    exact h x (List.getElem?_mem hx)

theorem int_finiteDouble (n : ℤ) (h : |n| < 2 ^ 53) :
    (fin (n : ℚ)).IsFinite ∧ (fin (n : ℚ)).IsDouble := by
  refine ⟨trivial, ?_⟩
  have := isDouble_of_form n 0 h (by norm_num) (by norm_num)
  simpa using this

theorem rawSamples_ok :
    (∀ x, x ∈ rawPos → x.IsFinite ∧ x.IsDouble) ∧
      (∀ x, x ∈ rawVel → x.IsFinite ∧ x.IsDouble) ∧
      (∀ x, x ∈ rawCurrent → x.IsFinite ∧ x.IsDouble) ∧
      (∀ x, x ∈ rawTcp → x.IsFinite ∧ x.IsDouble) := by
  have e0 : (0 : Dbl) = fin ((0 : ℤ) : ℚ) := by rw [zero_eq]; simp
  have e1 : (1 : Dbl) = fin ((1 : ℤ) : ℚ) := by rw [one_eq]; simp
  have e2 : (2 : Dbl) = fin ((2 : ℤ) : ℚ) := by rw [ofNat_eq_fin 2]; simp
  have e3 : (3 : Dbl) = fin ((3 : ℤ) : ℚ) := by rw [ofNat_eq_fin 3]; simp
  have e4 : (4 : Dbl) = fin ((4 : ℤ) : ℚ) := by rw [ofNat_eq_fin 4]; simp
  have e20 : (20 : Dbl) = fin ((20 : ℤ) : ℚ) := by rw [ofNat_eq_fin 20]; simp
  have n1 : (-1 : Dbl) = fin ((-1 : ℤ) : ℚ) := by rw [one_eq, neg_fin]; simp
  have n2 : (-2 : Dbl) = fin ((-2 : ℤ) : ℚ) := by rw [ofNat_eq_fin 2, neg_fin]; simp
  have n20 : (-20 : Dbl) = fin ((-20 : ℤ) : ℚ) := by rw [ofNat_eq_fin 20, neg_fin]; simp
  refine ⟨?_, ?_, ?_, ?_⟩
  · intro x hx
    simp only [rawPos, List.mem_cons, List.mem_singleton, List.not_mem_nil, or_false] at hx
    rcases hx with h | h | h | h | h | h <;> rw [h]
    · rw [e2]; exact int_finiteDouble _ (by norm_num)
    · rw [e0]; exact int_finiteDouble _ (by norm_num)
    · rw [e1]; exact int_finiteDouble _ (by norm_num)
    · rw [e3]; exact int_finiteDouble _ (by norm_num)
    · rw [n1]; exact int_finiteDouble _ (by norm_num)
    · rw [e1]; exact int_finiteDouble _ (by norm_num)
  · intro x hx
    simp only [rawVel, List.mem_cons, List.mem_singleton, List.not_mem_nil, or_false] at hx
    rcases hx with h | h | h | h | h | h <;> rw [h]
    · rw [e1]; exact int_finiteDouble _ (by norm_num)
    · rw [n1]; exact int_finiteDouble _ (by norm_num)
    · rw [e0]; exact int_finiteDouble _ (by norm_num)
    · rw [e3]; exact int_finiteDouble _ (by norm_num)
    · rw [e0]; exact int_finiteDouble _ (by norm_num)
    · rw [e0]; exact int_finiteDouble _ (by norm_num)
  · intro x hx
    simp only [rawCurrent, List.mem_cons, List.mem_singleton, List.not_mem_nil, or_false] at hx
    rcases hx with h | h | h | h | h | h <;> rw [h]
    · rw [e3]; exact int_finiteDouble _ (by norm_num)
    · rw [e2]; exact int_finiteDouble _ (by norm_num)
    · rw [e1]; exact int_finiteDouble _ (by norm_num)
    · rw [e0]; exact int_finiteDouble _ (by norm_num)
    · rw [e2]; exact int_finiteDouble _ (by norm_num)
    · rw [e4]; exact int_finiteDouble _ (by norm_num)
  · intro x hx
    simp only [rawTcp, List.mem_cons, List.mem_singleton, List.not_mem_nil, or_false] at hx
    rcases hx with h | h | h | h | h | h <;> rw [h]
    · rw [e20]; exact int_finiteDouble _ (by norm_num)
    · rw [e0]; exact int_finiteDouble _ (by norm_num)
    · rw [n20]; exact int_finiteDouble _ (by norm_num)
    · rw [e2]; exact int_finiteDouble _ (by norm_num)
    · rw [e0]; exact int_finiteDouble _ (by norm_num)
    · rw [n2]; exact int_finiteDouble _ (by norm_num)

theorem rawSamples_doubles :
    (∀ i, i < zeroAlphaState.num_joints_ → (rawPos.getD i 0).IsDouble ∧
      (rawVel.getD i 0).IsDouble ∧ (rawCurrent.getD i 0).IsDouble) ∧
    (∀ k, k < 6 → (rawTcp.getD k 0).IsDouble) :=
  ⟨fun i _ => ⟨(getD_finiteDouble_of_all _ rawSamples_ok.1 i).2,
      (getD_finiteDouble_of_all _ rawSamples_ok.2.1 i).2,
      (getD_finiteDouble_of_all _ rawSamples_ok.2.2.1 i).2⟩,
    fun k _ => (getD_finiteDouble_of_all _ rawSamples_ok.2.2.2 k).2⟩

theorem zeroAlphaState_finite :
    (∀ i, i < zeroAlphaState.num_joints_ →
      (zeroAlphaState.joint_position_.getD i 0).IsFinite ∧
      (zeroAlphaState.joint_velocity_.getD i 0).IsFinite ∧
      (zeroAlphaState.joint_effort_.getD i 0).IsFinite) ∧
    (∀ k, k < 3 → (zeroAlphaState.robot_force_.getD k 0).IsFinite ∧
      (zeroAlphaState.robot_torque_.getD k 0).IsFinite) := by
  constructor
  · intro i hi
    have : i < 6 := hi
    interval_cases i <;> exact ⟨trivial, trivial, trivial⟩
  · intro k hk
    interval_cases k <;> exact ⟨trivial, trivial⟩

theorem read_alpha_zero_is_bypass_witness :
    (zeroAlphaState.Sized ∧ zeroAlphaState.WrenchSized ∧
      zeroAlphaState.num_joints_ ≤ rawPos.length ∧ zeroAlphaState.num_joints_ ≤ rawVel.length ∧
      zeroAlphaState.num_joints_ ≤ rawCurrent.length ∧ 6 ≤ rawTcp.length ∧
      zeroAlphaState.low_pass_filter = true ∧
      (zeroAlphaState.pos_alpha = 0 ∧ zeroAlphaState.vel_alpha = 0 ∧
        zeroAlphaState.eff_alpha = 0 ∧ zeroAlphaState.frc_alpha = 0 ∧
        zeroAlphaState.trq_alpha = 0) ∧
      (∀ i, i < zeroAlphaState.num_joints_ → (rawPos.getD i 0).IsDouble ∧
        (rawVel.getD i 0).IsDouble ∧ (rawCurrent.getD i 0).IsDouble) ∧
      (∀ k, k < 6 → (rawTcp.getD k 0).IsDouble) ∧
      (∀ i, i < zeroAlphaState.num_joints_ →
        (zeroAlphaState.joint_position_.getD i 0).IsFinite ∧
        (zeroAlphaState.joint_velocity_.getD i 0).IsFinite ∧
        (zeroAlphaState.joint_effort_.getD i 0).IsFinite) ∧
      (∀ k, k < 3 → (zeroAlphaState.robot_force_.getD k 0).IsFinite ∧
        (zeroAlphaState.robot_torque_.getD k 0).IsFinite)) ∧
    ∃ s1 s2, zeroAlphaState.read rawPos rawVel rawCurrent rawTcp = .ok s1 ∧
      ({ zeroAlphaState with low_pass_filter := false } : UrHardwareInterface).read
        rawPos rawVel rawCurrent rawTcp = .ok s2 ∧
      (∀ i, i < zeroAlphaState.num_joints_ →
        s1.joint_position_.getD i 0 = rawPos.getD i 0 ∧
        s1.joint_velocity_.getD i 0 = rawVel.getD i 0 ∧
        s1.joint_effort_.getD i 0 = rawCurrent.getD i 0) ∧
      (∀ k, k < 3 →
        s1.robot_force_.getD k 0 = rawTcp.getD k 0 ∧
        s1.robot_torque_.getD k 0 = rawTcp.getD (k + 3) 0) ∧
      s1.joint_position_ = s2.joint_position_ ∧ s1.joint_velocity_ = s2.joint_velocity_ ∧
      s1.joint_effort_ = s2.joint_effort_ ∧ s1.robot_force_ = s2.robot_force_ ∧
      s1.robot_torque_ = s2.robot_torque_ :=
  ⟨⟨zeroAlphaState_sized, zeroAlphaState_wrenchSized, by decide, by decide, by decide,
      by decide, rfl, ⟨rfl, rfl, rfl, rfl, rfl⟩, rawSamples_doubles.1, rawSamples_doubles.2,
      zeroAlphaState_finite.1, zeroAlphaState_finite.2⟩,
    read_alpha_zero_is_bypass zeroAlphaState rawPos rawVel rawCurrent rawTcp
      zeroAlphaState_sized zeroAlphaState_wrenchSized (by decide) (by decide) (by decide)
      (by decide) rfl ⟨rfl, rfl, rfl, rfl, rfl⟩ rawSamples_doubles.1 rawSamples_doubles.2
      zeroAlphaState_finite.1 zeroAlphaState_finite.2⟩

/-! ## C6, C7, C8, C1: `canSwitch` and `doSwitch` -/

/-- C6 (canSwitch is the rule set of the specification): when every controller of both
lists claims a resource, `canSwitch` returns a boolean, and it is `true` exactly when
every started controller obeys both rules: a velocity-kind start needs velocity mode off
and, if position mode is on, a position-kind controller in the stop list; a
position-kind start needs position mode off and, if velocity mode is on, a velocity-kind
controller in the stop list.  An empty start list is accepted in every state and for
every stop list. -/
theorem canSwitch_iff_rules (s : UrHardwareInterface)
    (start_list stop_list : List ControllerInfo)
    (hstart : Claiming start_list) (hstop : Claiming stop_list) :
    (∃ b, s.canSwitch start_list stop_list = .ok b ∧
      (b = true ↔ ∀ c, c ∈ start_list →
        (hasKind velocityInterface c = true →
          s.velocity_interface_running_ = false ∧
            (s.position_interface_running_ = true →
              ∃ d, d ∈ stop_list ∧ hasKind positionInterface d = true)) ∧
        (hasKind positionInterface c = true →
          s.position_interface_running_ = false ∧
            (s.velocity_interface_running_ = true →
              ∃ d, d ∈ stop_list ∧ hasKind velocityInterface d = true)))) ∧
    ∀ anyStops, s.canSwitch [] anyStops = .ok true := by
  refine ⟨⟨_, canSwitch_all s start_list stop_list hstart hstop, ?_⟩, fun _ => rfl⟩
  simp only [startAllowed, List.all_eq_true, Bool.and_eq_true, Bool.or_eq_true,
    Bool.not_eq_true', List.any_eq_true]
  constructor
  · intro h c hc
    obtain ⟨h1, h2⟩ := h c hc
    constructor
    · intro hk
      rcases h1 with h1 | h1
      · rw [hk] at h1; exact absurd h1 (by decide)
      · refine ⟨h1.1, fun hp => ?_⟩
        rcases h1.2 with h3 | h3
        · rw [hp] at h3; exact absurd h3 (by decide)
        · exact h3
    · intro hk
      rcases h2 with h2 | h2
      · rw [hk] at h2; exact absurd h2 (by decide)
      · refine ⟨h2.1, fun hv => ?_⟩
        rcases h2.2 with h3 | h3
        · rw [hv] at h3; exact absurd h3 (by decide)
        · exact h3
  · intro h c hc
    obtain ⟨h1, h2⟩ := h c hc
    constructor
    · cases hk : hasKind velocityInterface c with
      | false => exact Or.inl rfl
      | true =>
        refine Or.inr ⟨(h1 hk).1, ?_⟩
        cases hp : s.position_interface_running_ with
        | false => exact Or.inl rfl
        | true => exact Or.inr ((h1 hk).2 hp)
    · cases hk : hasKind positionInterface c with
      | false => exact Or.inl rfl
      | true =>
        refine Or.inr ⟨(h2 hk).1, ?_⟩
        cases hv : s.velocity_interface_running_ with
        | false => exact Or.inl rfl
        | true => exact Or.inr ((h2 hk).2 hv)

theorem canSwitch_iff_rules_witness :
    (Claiming [velocityController] ∧ Claiming [positionController]) ∧
    ((∃ b, positionActiveState.canSwitch [velocityController] [positionController] = .ok b ∧
      (b = true ↔ ∀ c, c ∈ [velocityController] →
        (hasKind velocityInterface c = true →
          positionActiveState.velocity_interface_running_ = false ∧
            (positionActiveState.position_interface_running_ = true →
              ∃ d, d ∈ [positionController] ∧ hasKind positionInterface d = true)) ∧
        (hasKind positionInterface c = true →
          positionActiveState.position_interface_running_ = false ∧
            (positionActiveState.velocity_interface_running_ = true →
              ∃ d, d ∈ [positionController] ∧ hasKind velocityInterface d = true)))) ∧
    ∀ anyStops, positionActiveState.canSwitch [] anyStops = .ok true) :=
  ⟨⟨claiming_velocityController, claiming_positionController⟩,
    canSwitch_iff_rules positionActiveState [velocityController] [positionController]
      claiming_velocityController claiming_positionController⟩

/-- C7, counterexample: position mode is on and velocity mode is off; the start list is
one velocity-kind controller; the stop list holds exactly one position-kind controller
and, after it, a controller that claims no resource (as a joint state controller does).
`canSwitch` returns `true`, its scan of the stop list ending at the position-kind
controller; the `doSwitch` that follows does not return: its first loop reaches the
controller without resources and `claimed_resources.at(0)` raises `std::out_of_range`. -/
theorem switch_with_bare_stop_raises :
    positionActiveState.position_interface_running_ = true ∧
      positionActiveState.velocity_interface_running_ = false ∧
      hasKind velocityInterface velocityController = true ∧
      [positionController, bareController].countP (hasKind positionInterface) = 1 ∧
      positionActiveState.canSwitch [velocityController] [positionController, bareController]
        = .ok true ∧
      positionActiveState.doSwitch [velocityController] [positionController, bareController]
        = .error .outOfRangeException :=
  ⟨rfl, rfl, rfl, rfl, rfl, rfl⟩

/-- C7 (atomic switch from position to velocity), amended: with position mode on and
velocity mode off, a start list of one velocity-kind controller and a stop list, every
controller of which claims at least one resource, with exactly one position-kind
controller, `canSwitch` returns
`true`, and `doSwitch` returns with velocity mode on and position mode off, having made
exactly one driver call, `closeServo`, and so no `uploadProg`. -/
theorem position_to_velocity_switch (s : UrHardwareInterface) (c : ControllerInfo)
    (stop_list : List ControllerInfo)
    (hp : s.position_interface_running_ = true) (hv : s.velocity_interface_running_ = false)
    (hc : hasKind velocityInterface c = true) (hstop : Claiming stop_list)
    (hone : stop_list.countP (hasKind positionInterface) = 1) :
    s.canSwitch [c] stop_list = .ok true ∧
      ∃ s1 ev, s.doSwitch [c] stop_list = .ok (s1, ev) ∧
        s1.velocity_interface_running_ = true ∧ s1.position_interface_running_ = false ∧
        ev.map DriverEvent.call = [.closeServo []] ∧
        (ev.filter fun e => decide (e.call = .uploadProg)) = [] := by
  have hcl : Claiming [c] := by
    intro d hd
    simp only [List.mem_singleton] at hd
    subst hd
    obtain ⟨r, rs, hcr, _⟩ := hasKind_claims hc
    simp [hcr]
  have hcp := hasKind_velocity_not_position hc
  have hany : stop_list.any (hasKind positionInterface) = true := by
    rw [List.any_eq_true]
    have hpos : 0 < stop_list.countP (hasKind positionInterface) := by omega
    obtain ⟨d, hd, hk⟩ := List.countP_pos_iff.mp hpos
    exact ⟨d, hd, hk⟩
  constructor
  · rw [canSwitch_all s [c] stop_list hcl hstop]
    simp [startAllowed, hc, hcp, hp, hv, hany]
  · obtain ⟨ev1, ev2, hrun, h1, h2, _, _⟩ := doSwitch_spec s [c] stop_list hcl hstop
    refine ⟨_, _, hrun, ?_, ?_, ?_, ?_⟩
    · simp [hc]
    · simp [hcp, hany]
    · rw [List.map_append, h1, h2, hone]
      simp [hcp]
    · have e2 : ev2 = [] := by
        have : ev2.length = 0 := by
          have := congrArg List.length h2
          simpa [hcp] using this
        exact List.length_eq_zero.mp this
      subst e2
      rw [List.append_nil, List.filter_eq_nil_iff]
      intro e he
      have hmem : e.call ∈ ev1.map DriverEvent.call := List.mem_map_of_mem _ he
      rw [h1] at hmem
      have := List.eq_of_mem_replicate hmem
      simp [this]

theorem position_to_velocity_switch_witness :
    (positionActiveState.position_interface_running_ = true ∧
      positionActiveState.velocity_interface_running_ = false ∧
      hasKind velocityInterface velocityController = true ∧
      Claiming [positionController] ∧
      [positionController].countP (hasKind positionInterface) = 1) ∧
    (positionActiveState.canSwitch [velocityController] [positionController] = .ok true ∧
      ∃ s1 ev, positionActiveState.doSwitch [velocityController] [positionController]
          = .ok (s1, ev) ∧
        s1.velocity_interface_running_ = true ∧ s1.position_interface_running_ = false ∧
        ev.map DriverEvent.call = [.closeServo []] ∧
        (ev.filter fun e => decide (e.call = .uploadProg)) = []) :=
  ⟨⟨rfl, rfl, by decide, claiming_positionController, by decide⟩,
    position_to_velocity_switch positionActiveState velocityController [positionController]
      rfl rfl (by decide) claiming_positionController (by decide)⟩

/-- C8 (starting position mode): from the inactive state, `doSwitch` with a start list of
one position-kind controller and an empty stop list returns with position mode on and
velocity mode off; the driver is called exactly once, with `uploadProg`, at a moment when
`position_interface_running_` is already `true`, and `closeServo` is not called. -/
theorem start_position_from_inactive (s : UrHardwareInterface) (c : ControllerInfo)
    (hv : s.velocity_interface_running_ = false) (hp : s.position_interface_running_ = false)
    (hc : hasKind positionInterface c = true) :
    ∃ s1, s.doSwitch [c] [] = .ok (s1, [⟨.uploadProg, false, true⟩]) ∧
      s1.position_interface_running_ = true ∧ s1.velocity_interface_running_ = false := by
  obtain ⟨r, rs, hcr, hk⟩ := hasKind_claims hc
  have _ := hp
  refine ⟨{ s with position_interface_running_ := true }, ?_, rfl, hv⟩
  simp [doSwitch, listLoop, startBody, firstInterface, hcr, hk, position_ne_velocity,
    observe, hv]

theorem start_position_from_inactive_witness :
    (readyState.velocity_interface_running_ = false ∧
      readyState.position_interface_running_ = false ∧
      hasKind positionInterface positionController = true) ∧
    ∃ s1, readyState.doSwitch [positionController] [] = .ok (s1, [⟨.uploadProg, false, true⟩]) ∧
      s1.position_interface_running_ = true ∧ s1.velocity_interface_running_ = false :=
  ⟨⟨rfl, rfl, by decide⟩,
    start_position_from_inactive readyState positionController rfl rfl (by decide)⟩

/-- C1, evaluated on the code: right after `init()` both flags are off; `canSwitch`
accepts a start list with a velocity controller and a position controller and an empty
stop list, and the `doSwitch` that follows leaves both flags on, the driver's
`uploadProg` being called with both already on. -/
theorem mixed_start_list_activates_both :
    bootState.init urJoints = .ok readyState ∧
    readyState.velocity_interface_running_ = false ∧
    readyState.position_interface_running_ = false ∧
    readyState.canSwitch [armVelocityController, wristPositionController] [] = .ok true ∧
    readyState.doSwitch [armVelocityController, wristPositionController] [] = .ok
      ({ readyState with
          velocity_interface_running_ := true, position_interface_running_ := true },
        [⟨.uploadProg, true, true⟩]) :=
  ⟨rfl, rfl, rfl, rfl, rfl⟩

/-! ## C12: a driver that delivers too little -/

/-- C12, evaluated on the code: the driver delivers six joint positions, velocities and
currents but no wrench value.  `read()` does not return with the object unchanged: its
joint loop runs to the end and overwrites the joint state (the first joint position
becomes the double `1.9000000000000001` where `1` was stored), and the wrench loop then
indexes the empty vector, so that `read()` ends in an out-of-range access. -/
theorem read_failed_fetch_overwrites_joints :
    ¬ (6 ≤ ([] : List Dbl).length) ∧
    filteringState.read rawPos rawVel rawCurrent [] = .error .undefinedAccess ∧
    filteringState.read rawPos rawVel rawCurrent [] ≠ .ok filteringState ∧
    forLoop (readJointBody rawPos rawVel rawCurrent) filteringState.num_joints_ 0 filteringState
      = .ok { filteringState with
          joint_position_ :=
            [blend (lit (1 / 10)) 2 1, blend (lit (1 / 10)) 0 1, blend (lit (1 / 10)) 1 1,
             blend (lit (1 / 10)) 3 1, blend (lit (1 / 10)) (-1) 1, blend (lit (1 / 10)) 1 1]
          joint_velocity_ :=
            [blend (lit (1 / 10)) 1 0, blend (lit (1 / 10)) (-1) 0, blend (lit (1 / 10)) 0 0,
             blend (lit (1 / 10)) 3 0, blend (lit (1 / 10)) 0 0, blend (lit (1 / 10)) 0 0]
          joint_effort_ :=
            [blend (lit (1 / 10)) 3 2, blend (lit (1 / 10)) 2 2, blend (lit (1 / 10)) 1 2,
             blend (lit (1 / 10)) 0 2, blend (lit (1 / 10)) 2 2, blend (lit (1 / 10)) 4 2] } ∧
    blend (lit (1 / 10)) 2 1 = fin (8556839292003943 / 4503599627370496) ∧
    ([blend (lit (1 / 10)) 2 1, blend (lit (1 / 10)) 0 1, blend (lit (1 / 10)) 1 1,
      blend (lit (1 / 10)) 3 1, blend (lit (1 / 10)) (-1) 1, blend (lit (1 / 10)) 1 1]
        : List Dbl) ≠ filteringState.joint_position_ := by
  have h1 : filteringState.read rawPos rawVel rawCurrent [] = .error .undefinedAccess := rfl
  refine ⟨by decide, h1, ?_, rfl, blend_first, ?_⟩
  · rw [h1]
    simp
  · intro h
    have h0 : blend (lit (1 / 10)) 2 1 = 1 := (List.cons.inj h).1
    rw [blend_first, one_eq] at h0
    have h2 := fin.inj h0
    norm_num at h2

/-- C12 as amended (no failure path in `read()`): on a sized object `read()` returns,
changing only the sensed state, when the driver delivers at least `num_joints_` joint
positions, velocities and currents and at least six wrench values; when it delivers
fewer, `read()` does not return at all but ends in an out-of-range access. -/
theorem read_returns_iff_delivered (s : UrHardwareInterface) (pos vel current tcp : List Dbl)
    (hs : s.Sized) (hw : s.WrenchSized) :
    ((s.num_joints_ ≤ pos.length ∧ s.num_joints_ ≤ vel.length ∧
        s.num_joints_ ≤ current.length ∧ 6 ≤ tcp.length) →
      ∃ s1, s.read pos vel current tcp = .ok s1 ∧ s.SensedOnly s1) ∧
    (¬ (s.num_joints_ ≤ pos.length ∧ s.num_joints_ ≤ vel.length ∧
        s.num_joints_ ≤ current.length ∧ 6 ≤ tcp.length) →
      s.read pos vel current tcp = .error .undefinedAccess) := by
  constructor
  · intro h
    obtain ⟨ps, vs, es, fs, ts, hrun, _, _⟩ :=
      read_spec s pos vel current tcp hs hw h.1 h.2.1 h.2.2.1 h.2.2.2
    exact ⟨_, hrun, read_frame hrun⟩
  · intro h
    cases hr : s.read pos vel current tcp with
    | ok s1 => exact absurd (read_ok_delivered hr) h
    | error e => rw [read_error_kind hr]

theorem read_returns_iff_delivered_witness :
    (filteringState.Sized ∧ filteringState.WrenchSized) ∧
    ((filteringState.num_joints_ ≤ rawPos.length ∧ filteringState.num_joints_ ≤ rawVel.length ∧
        filteringState.num_joints_ ≤ rawCurrent.length ∧ 6 ≤ rawTcp.length) →
      ∃ s1, filteringState.read rawPos rawVel rawCurrent rawTcp = .ok s1 ∧
        filteringState.SensedOnly s1) ∧
    (¬ (filteringState.num_joints_ ≤ rawPos.length ∧
        filteringState.num_joints_ ≤ rawVel.length ∧
        filteringState.num_joints_ ≤ rawCurrent.length ∧ 6 ≤ rawTcp.length) →
      filteringState.read rawPos rawVel rawCurrent rawTcp = .error .undefinedAccess) :=
  ⟨⟨filteringState_sized, filteringState_wrenchSized⟩,
    read_returns_iff_delivered filteringState rawPos rawVel rawCurrent rawTcp
      filteringState_sized filteringState_wrenchSized⟩

/-! ## C14, C15: dispatch and frame of `write()` -/

/-- C14 (write dispatches on the mode): on a sized object with at least six joints
`write()` returns having made at most one driver call.  In velocity mode the call is
`setSpeed` on the limited commands; with velocity mode off and position mode on it is
`servoj` on `joint_position_command_` as it stands, and the object is unchanged; with
both modes off there is no call and the object is unchanged.  So a `setSpeed` is issued
exactly when velocity mode is on, and a `servoj` exactly when position mode is on and
velocity mode is off. -/
theorem write_dispatches_on_mode (s : UrHardwareInterface) (hs : s.Sized)
    (h6 : 6 ≤ s.num_joints_) :
    ∃ s1 ev, s.write = .ok (s1, ev) ∧ ev.length ≤ 1 ∧
      (s.velocity_interface_running_ = true →
        ∃ cmd, s.writeLimiter = .ok (cmd, s1) ∧
          ev = [⟨.setSpeed (cmd.getD 0 0) (cmd.getD 1 0) (cmd.getD 2 0) (cmd.getD 3 0)
            (cmd.getD 4 0) (cmd.getD 5 0) (s.max_vel_change_ * 125),
            true, s.position_interface_running_⟩]) ∧
      (s.velocity_interface_running_ = false → s.position_interface_running_ = true →
        ev = [⟨.servoj s.joint_position_command_, false, true⟩] ∧ s1 = s) ∧
      (s.velocity_interface_running_ = false → s.position_interface_running_ = false →
        ev = [] ∧ s1 = s) ∧
      ev.any (fun e => e.call.isSetSpeed) = s.velocity_interface_running_ ∧
      ev.any (fun e => e.call.isServoj)
        = (!s.velocity_interface_running_ && s.position_interface_running_) := by
  cases hv : s.velocity_interface_running_ with
  | true =>
    obtain ⟨cmd, hl, hw, _, _⟩ := write_velocity s hs h6 hv
    refine ⟨_, _, hw, by simp, fun _ => ⟨cmd, hl, rfl⟩, ?_, ?_, ?_, ?_⟩
    · intro h; exact absurd h (by decide)
    · intro h; exact absurd h (by decide)
    · simp [DriverCall.isSetSpeed]
    · simp [DriverCall.isServoj]
  | false =>
    cases hp : s.position_interface_running_ with
    | true =>
      refine ⟨s, [⟨.servoj s.joint_position_command_, false, true⟩], ?_, by simp, ?_,
        fun _ _ => ⟨rfl, rfl⟩, ?_, ?_, ?_⟩
      · simp [write, hv, hp, observe]
      · intro h; exact absurd h (by decide)
      · intro _ h; exact absurd h (by decide)
      · simp [DriverCall.isSetSpeed]
      · simp [DriverCall.isServoj]
    | false =>
      refine ⟨s, [], ?_, by simp, ?_, ?_, fun _ _ => ⟨rfl, rfl⟩, ?_, ?_⟩
      · simp [write, hv, hp]
      · intro h; exact absurd h (by decide)
      · intro _ h; exact absurd h (by decide)
      · simp
      · simp

theorem write_dispatches_on_mode_witness :
    (positionActiveState.Sized ∧ 6 ≤ positionActiveState.num_joints_) ∧
    ∃ s1 ev, positionActiveState.write = .ok (s1, ev) ∧ ev.length ≤ 1 ∧
      (positionActiveState.velocity_interface_running_ = true →
        ∃ cmd, positionActiveState.writeLimiter = .ok (cmd, s1) ∧
          ev = [⟨.setSpeed (cmd.getD 0 0) (cmd.getD 1 0) (cmd.getD 2 0) (cmd.getD 3 0)
            (cmd.getD 4 0) (cmd.getD 5 0) (positionActiveState.max_vel_change_ * 125),
            true, positionActiveState.position_interface_running_⟩]) ∧
      (positionActiveState.velocity_interface_running_ = false →
        positionActiveState.position_interface_running_ = true →
        ev = [⟨.servoj positionActiveState.joint_position_command_, false, true⟩] ∧
          s1 = positionActiveState) ∧
      (positionActiveState.velocity_interface_running_ = false →
        positionActiveState.position_interface_running_ = false →
        ev = [] ∧ s1 = positionActiveState) ∧
      ev.any (fun e => e.call.isSetSpeed) = positionActiveState.velocity_interface_running_ ∧
      ev.any (fun e => e.call.isServoj)
        = (!positionActiveState.velocity_interface_running_ &&
            positionActiveState.position_interface_running_) :=
  ⟨⟨⟨rfl, rfl, rfl, rfl, rfl, rfl, rfl⟩, by decide⟩,
    write_dispatches_on_mode positionActiveState ⟨rfl, rfl, rfl, rfl, rfl, rfl, rfl⟩
      (by decide)⟩

/-- C15 (the previous command is changed by the limiter only): every returning `read()`
and every returning `doSwitch`, whatever its lists stop or start, leave
`prev_joint_velocity_command_` as it was; `write()` outside velocity mode returns the
object itself; `canSwitch` is a query that returns a boolean and no object.  A
velocity-mode `write()` does change it, as on `rampState`. -/
theorem prev_command_frame (s : UrHardwareInterface) :
    (∀ pos vel current tcp s1, s.read pos vel current tcp = .ok s1 →
      s1.prev_joint_velocity_command_ = s.prev_joint_velocity_command_) ∧
    (∀ start_list stop_list s1 ev, s.doSwitch start_list stop_list = .ok (s1, ev) →
      s1.prev_joint_velocity_command_ = s.prev_joint_velocity_command_) ∧
    (∀ start_list stop_list, Claiming start_list → Claiming stop_list →
      (∃ b, s.canSwitch start_list stop_list = .ok b) ∧
      ∃ s1 ev, s.doSwitch start_list stop_list = .ok (s1, ev) ∧
        s1.prev_joint_velocity_command_ = s.prev_joint_velocity_command_) ∧
    (s.velocity_interface_running_ = false → ∃ ev, s.write = .ok (s, ev)) ∧
    (∃ s1 ev, rampState.write = .ok (s1, ev) ∧
      s1.prev_joint_velocity_command_ ≠ rampState.prev_joint_velocity_command_) := by
  refine ⟨?_, ?_, ?_, ?_, ?_⟩
  · intro pos vel current tcp s1 h
    rw [(read_frame h).rest]
  · intro start_list stop_list s1 ev h
    have hf : s.FlagsOnly s1 := doSwitch_frame h
    unfold FlagsOnly at hf
    rw [hf]
  · intro start_list stop_list h1 h2
    refine ⟨⟨_, canSwitch_all s start_list stop_list h1 h2⟩, ?_⟩
    obtain ⟨ev1, ev2, hrun, _⟩ := doSwitch_spec s start_list stop_list h1 h2
    exact ⟨_, _, hrun, rfl⟩
  · intro hv
    unfold write
    rw [hv]
    simp only [Bool.false_eq_true, if_false]
    split_ifs
    · exact ⟨_, rfl⟩
    · exact ⟨_, rfl⟩
  · refine ⟨_, _, rampState_write, ?_⟩
    intro h
    have h0 : lit (12 / 100) = 0 := (List.cons.inj h).1
    have hpos := rampState_step_pos
    have hm : rampState.max_vel_change_ = lit (12 / 100) := rfl
    rw [hm, h0, zero_eq] at hpos
    simp at hpos

/-! ## C16, C17: index ranges and exceptions -/

/-- C16, evaluated on the code: with a non-empty list of two joint names `init()` does
not stay below index `N = 2`: the assignments to `joint_velocity_limits_[0..5]` reach
past the end of the vector. -/
theorem init_two_joints_out_of_range :
    twoJoints.length = 2 ∧ bootState.init twoJoints = .error .undefinedAccess :=
  ⟨rfl, rfl⟩

/-- C16 as amended (per-joint vectors and indices, for at least six joints): for every
joint-name list of size `N >= 6`, `init()` returns and leaves every per-joint vector
with `N` elements; and on every sized object with these `N` joints a velocity-mode
`write()` returns, its vector `cmd` has `N` elements and the object stays sized: no
element access of either function is out of range. -/
theorem init_and_write_in_range (boot : UrHardwareInterface) (joints : List String)
    (h6 : 6 ≤ joints.length) :
    ∃ s0, boot.init joints = .ok s0 ∧ s0.Sized ∧ s0.num_joints_ = joints.length ∧
      ∀ s : UrHardwareInterface, s.Sized → s.num_joints_ = joints.length →
        s.velocity_interface_running_ = true →
        ∃ cmd s1 ev, s.writeLimiter = .ok (cmd, s1) ∧ cmd.length = joints.length ∧
          s.write = .ok (s1, ev) ∧ s1.Sized ∧ s1.num_joints_ = joints.length := by
  obtain ⟨s0, h0⟩ := init_ok boot joints h6
  obtain ⟨hsz, _, hn, _⟩ := init_spec h0
  refine ⟨s0, h0, hsz, hn, ?_⟩
  intro s hs hsn hv
  obtain ⟨cmd, hwl, hw, hlen, _⟩ := write_velocity s hs (by omega) hv
  exact ⟨cmd, _, _, hwl, by omega, hw,
    ⟨hs.position, hs.velocity, hs.effort, hs.positionCommand, hs.velocityCommand, hlen,
      hs.limits⟩, hsn⟩

theorem init_and_write_in_range_witness :
    6 ≤ urJoints.length ∧
    ∃ s0, bootState.init urJoints = .ok s0 ∧ s0.Sized ∧ s0.num_joints_ = urJoints.length ∧
      ∀ s : UrHardwareInterface, s.Sized → s.num_joints_ = urJoints.length →
        s.velocity_interface_running_ = true →
        ∃ cmd s1 ev, s.writeLimiter = .ok (cmd, s1) ∧ cmd.length = urJoints.length ∧
          s.write = .ok (s1, ev) ∧ s1.Sized ∧ s1.num_joints_ = urJoints.length :=
  ⟨by decide, init_and_write_in_range bootState urJoints (by decide)⟩

/-- C17, evaluated on the code: asked to start a controller that claims no resource,
`canSwitch` returns neither `true` nor `false`; `claimed_resources.at(0)` raises
`std::out_of_range`. -/
theorem canSwitch_bare_controller_raises :
    bareController.claimed_resources = [] ∧
    readyState.canSwitch [bareController] [] = .error .outOfRangeException ∧
    positionActiveState.canSwitch [velocityController] [bareController]
      = .error .outOfRangeException :=
  ⟨rfl, rfl, rfl⟩

/-- C17 as amended (rejection is a return value, for controllers that claim a
resource): when every controller of the start list and of the stop list has a first
claimed resource, `canSwitch` returns `true` or `false` in every state, and a conflict
is reported by the value `false` and by no fault. -/
theorem canSwitch_returns_boolean (s : UrHardwareInterface)
    (start_list stop_list : List ControllerInfo)
    (hstart : Claiming start_list) (hstop : Claiming stop_list) :
    (s.canSwitch start_list stop_list = .ok true ∨
      s.canSwitch start_list stop_list = .ok false) ∧
    ∀ e, s.canSwitch start_list stop_list ≠ .error e := by
  rw [canSwitch_all s start_list stop_list hstart hstop]
  constructor
  · cases start_list.all (startAllowed s stop_list)
    · exact Or.inr rfl
    · exact Or.inl rfl
  · intro e h
    simp at h

theorem canSwitch_returns_boolean_witness :
    (Claiming [velocityController] ∧ Claiming [positionController]) ∧
    (readyState.canSwitch [velocityController] [positionController] = .ok true ∨
      readyState.canSwitch [velocityController] [positionController] = .ok false) ∧
    ∀ e, readyState.canSwitch [velocityController] [positionController] ≠ .error e :=
  ⟨⟨claiming_velocityController, claiming_positionController⟩,
    canSwitch_returns_boolean readyState [velocityController] [positionController]
      claiming_velocityController claiming_positionController⟩

/-! ## C18, C19: `doSwitch` and the host protocol -/

/-- C18, counterexample: asked to start a controller that claims no resource, `doSwitch`
does not return with any flags at all: when its second loop reaches that controller,
`claimed_resources.at(0)` raises `std::out_of_range`.  The same happens in the first loop
for a stopped controller without resources. -/
theorem doSwitch_bare_controller_raises :
    bareController.claimed_resources = [] ∧
      readyState.doSwitch [bareController] [] = .error .outOfRangeException ∧
      readyState.doSwitch [] [bareController] = .error .outOfRangeException ∧
      (∀ s1 ev, readyState.doSwitch [bareController] [] ≠ .ok (s1, ev)) := by
  refine ⟨rfl, rfl, rfl, ?_⟩
  intro s1 ev h
  have h1 : readyState.doSwitch [bareController] [] = .error .outOfRangeException := rfl
  rw [h1] at h
  simp at h

/-- C18 (all stops, then all starts), amended: when every controller of both lists has
a first claimed resource, `doSwitch` returns; the velocity flag afterwards is "some start is
velocity-kind, or it was on and no stop is velocity-kind", the position flag likewise;
nothing else in the object changes; the driver calls are one `closeServo` per
position-kind stop followed by one `uploadProg` per position-kind start, so that every
`closeServo` precedes every `uploadProg`; and when no controller in either list is of
velocity or position kind, the object is unchanged and no driver call is made. -/
theorem doSwitch_stops_then_starts (s : UrHardwareInterface)
    (start_list stop_list : List ControllerInfo)
    (hstart : Claiming start_list) (hstop : Claiming stop_list) :
    ∃ s1 ev, s.doSwitch start_list stop_list = .ok (s1, ev) ∧
      s1.velocity_interface_running_
        = (start_list.any (hasKind velocityInterface) ||
            (s.velocity_interface_running_ && !stop_list.any (hasKind velocityInterface))) ∧
      s1.position_interface_running_
        = (start_list.any (hasKind positionInterface) ||
            (s.position_interface_running_ && !stop_list.any (hasKind positionInterface))) ∧
      s.FlagsOnly s1 ∧
      ev.map DriverEvent.call
        = List.replicate (stop_list.countP (hasKind positionInterface)) (.closeServo []) ++
          List.replicate (start_list.countP (hasKind positionInterface)) .uploadProg ∧
      ((∀ c, c ∈ start_list ++ stop_list →
          hasKind velocityInterface c = false ∧ hasKind positionInterface c = false) →
        s1 = s ∧ ev = []) := by
  obtain ⟨ev1, ev2, hrun, h1, h2, _, _⟩ := doSwitch_spec s start_list stop_list hstart hstop
  refine ⟨_, _, hrun, Bool.or_comm _ _, Bool.or_comm _ _, rfl, ?_, ?_⟩
  · rw [List.map_append, h1, h2]
  · intro hnone
    have a1 : start_list.any (hasKind velocityInterface) = false := by
      rw [List.any_eq_false]
      intro c hc
      simp [(hnone c (List.mem_append_left _ hc)).1]
    have a2 : start_list.any (hasKind positionInterface) = false := by
      rw [List.any_eq_false]
      intro c hc
      simp [(hnone c (List.mem_append_left _ hc)).2]
    have a3 : stop_list.any (hasKind velocityInterface) = false := by
      rw [List.any_eq_false]
      intro c hc
      simp [(hnone c (List.mem_append_right _ hc)).1]
    have a4 : stop_list.any (hasKind positionInterface) = false := by
      rw [List.any_eq_false]
      intro c hc
      simp [(hnone c (List.mem_append_right _ hc)).2]
    have c1 : start_list.countP (hasKind positionInterface) = 0 := by
      rw [List.countP_eq_zero]
      intro c hc
      simp [(hnone c (List.mem_append_left _ hc)).2]
    have c2 : stop_list.countP (hasKind positionInterface) = 0 := by
      rw [List.countP_eq_zero]
      intro c hc
      simp [(hnone c (List.mem_append_right _ hc)).2]
    rw [c2] at h1
    rw [c1] at h2
    have e1 : ev1 = [] := by simpa using h1
    have e2 : ev2 = [] := by simpa using h2
    constructor
    · simp [a1, a2, a3, a4]
    · rw [e1, e2]
      rfl

theorem doSwitch_stops_then_starts_witness :
    (Claiming [velocityController] ∧ Claiming [positionController]) ∧
    ∃ s1 ev, positionActiveState.doSwitch [velocityController] [positionController]
        = .ok (s1, ev) ∧
      s1.velocity_interface_running_
        = ([velocityController].any (hasKind velocityInterface) ||
            (positionActiveState.velocity_interface_running_ &&
              !(List.any [positionController] (hasKind velocityInterface)))) ∧
      s1.position_interface_running_
        = ([velocityController].any (hasKind positionInterface) ||
            (positionActiveState.position_interface_running_ &&
              !(List.any [positionController] (hasKind positionInterface)))) ∧
      positionActiveState.FlagsOnly s1 ∧
      ev.map DriverEvent.call
        = List.replicate ([positionController].countP (hasKind positionInterface))
            (.closeServo []) ++
          List.replicate ([velocityController].countP (hasKind positionInterface))
            .uploadProg ∧
      ((∀ c, c ∈ [velocityController] ++ [positionController] →
          hasKind velocityInterface c = false ∧ hasKind positionInterface c = false) →
        s1 = positionActiveState ∧ ev = []) :=
  ⟨⟨claiming_velocityController, claiming_positionController⟩,
    doSwitch_stops_then_starts positionActiveState [velocityController] [positionController]
      claiming_velocityController claiming_positionController⟩

/-- C19 (mutual exclusion under single-kind start lists): from the state in which
`init()` returns, after any sequence of switch requests handled by the host's protocol
(`doSwitch` only after `canSwitch` returned `true` in the current state), none of whose
start lists holds both a velocity-kind and a position-kind controller,
`velocity_interface_running_` and `position_interface_running_` are not both `true`. -/
theorem switchRun_keeps_exclusion (boot s0 s : UrHardwareInterface) (joints : List String)
    (reqs : List (List ControllerInfo × List ControllerInfo))
    (hinit : boot.init joints = .ok s0)
    (hsingle : ∀ req, req ∈ reqs →
      ¬ (req.1.any (hasKind velocityInterface) = true ∧
        req.1.any (hasKind positionInterface) = true))
    (hrun : s0.switchRun reqs = .ok s) :
    ¬ (s.velocity_interface_running_ = true ∧ s.position_interface_running_ = true) := by
  have hv0 := (init_spec hinit).2.2.2.2.2.1
  refine switchRun_inv reqs s0 s ?_ hsingle hrun
  rw [hv0]
  intro h
  exact absurd h.1 (by decide)

theorem switchRun_keeps_exclusion_witness :
    (bootState.init urJoints = .ok readyState ∧
      (∀ req, req ∈ demoSwitches →
        ¬ (req.1.any (hasKind velocityInterface) = true ∧
          req.1.any (hasKind positionInterface) = true)) ∧
      readyState.switchRun demoSwitches
        = .ok { readyState with velocity_interface_running_ := true }) ∧
    ¬ (({ readyState with velocity_interface_running_ := true } :
          UrHardwareInterface).velocity_interface_running_ = true ∧
        ({ readyState with velocity_interface_running_ := true } :
          UrHardwareInterface).position_interface_running_ = true) :=
  ⟨⟨rfl, demoSwitches_single_kind, rfl⟩,
    switchRun_keeps_exclusion bootState readyState
      { readyState with velocity_interface_running_ := true } urJoints demoSwitches rfl
      demoSwitches_single_kind rfl⟩

end UrHardwareInterface

end ros_control_ur
